import Mathlib

/-!
Verification of the org.varlink.http protocol core.

The definitions below are a shallow embedding of the Go sources:
the IDL parser, renderer and default-value generator of
src/varlink/service.go, the wire connection of src/unnamed/part_001,
and the resolver-era client of src/unnamed/part_003 and src/main.go.
Strings are modelled as lists of characters; the cursor-based parser is
modelled with an explicit position into a fixed input list, exactly
mirroring the Go byte cursor.  A Go runtime crash (slice out of range,
nil dereference) is modelled by the distinguished result GoRes.crash,
and loops carry an explicit recursion budget whose exhaustion is the
distinguished result GoRes.fuelOut, so that a crash in a theorem can
never be an artifact of the budget.
-/

namespace Varlink

/-- Strings of the Go program, modelled as lists of characters. -/
abbrev Str := List Char

/-- Result of running a fragment of the Go program: a value, a runtime
crash (slice out of range or nil dereference), or an exhausted modelling
budget. -/
inductive GoRes (α : Type) where
  | ok (a : α)
  | crash
  | fuelOut
deriving DecidableEq, Repr

def GoRes.bind {α β : Type} : GoRes α → (α → GoRes β) → GoRes β
  | .ok a, f => f a
  | .crash, _ => .crash
  | .fuelOut, _ => .fuelOut

instance : Monad GoRes where
  pure := GoRes.ok
  bind := GoRes.bind

/-- Go byte-range test for lowercase ASCII, as in the parser. -/
def isLowerAZ (c : Char) : Bool := 'a' ≤ c && c ≤ 'z'

def isUpperAZ (c : Char) : Bool := 'A' ≤ c && c ≤ 'Z'

def isDigit09 (c : Char) : Bool := '0' ≤ c && c ≤ '9'

/-- Character class of parser.readTypeName. -/
def isAlnumChar (c : Char) : Bool := isUpperAZ c || isLowerAZ c || isDigit09 c

/-- Character class of parser.readInterfaceName. -/
def isIfaceChar (c : Char) : Bool := isLowerAZ c || c = '-' || c = '.'

/-- First-character class of parser.readFieldName. -/
def isFieldStart (c : Char) : Bool := isLowerAZ c || c = '_'

/-- Continuation class of parser.readFieldName. -/
def isFieldChar (c : Char) : Bool := isLowerAZ c || isDigit09 c || c = '_'

/-- Parser state: the cursor position and the pending comment buffer
(parser.position and parser.lastComment; parser.lineStart is written but
never read and is omitted). -/
structure PSt where
  pos : Nat
  lc : Str
deriving DecidableEq, Repr

/-- Position reached from i by the next-until-predicate-fails loops of the
parser: first index at or after i whose character fails p, or the end of
input.  For i past the end the loop stops immediately at i, matching
next() returning -1 followed by backup(). -/
def scanWhile (p : Char → Bool) (inp : Str) (i : Nat) : Nat :=
  i + ((inp.drop i).takeWhile p).length

/-- Go string slicing input[a:b]: defined when 0 ≤ a ≤ b ≤ len, otherwise a
runtime panic (modelled as none). -/
def goSlice (inp : Str) (a b : Nat) : Option Str :=
  if a ≤ b ∧ b ≤ inp.length then some ((inp.take b).drop a) else none

/-- parser.advance: skip spaces and newlines, accumulate comment lines into
the pending comment buffer (resetting it at each newline), and report
whether input remains.  The character directly after a hash is skipped
unconditionally; the slice input[start:position] crashes exactly when the
hash is the final character of the input. -/
def advanceF (inp : Str) : Nat → PSt → GoRes (Bool × PSt)
  | 0, _ => .fuelOut
  | fuel + 1, s =>
    match inp.get? s.pos with
    | none => .ok (false, s)
    | some c =>
      if c = '\n' then
        advanceF inp fuel ⟨s.pos + 1, []⟩
      else if c = ' ' then
        advanceF inp fuel ⟨s.pos + 1, s.lc⟩
      else if c = '#' then
        let start := s.pos + 2
        let stop := scanWhile (fun d => !(d = '\n')) inp start
        match goSlice inp start stop with
        | none => .crash
        | some content =>
          let lc := if s.lc = [] then content else s.lc ++ '\n' :: content
          advanceF inp fuel ⟨stop + 1, lc⟩
      else
        .ok (true, s)

/-- parser.advance with a budget always sufficient for the input. -/
def advanceA (inp : Str) (s : PSt) : GoRes (Bool × PSt) :=
  advanceF inp (inp.length + 1) s

/-- parser.advanceOnLine: skip spaces only. -/
def advanceOnLine (inp : Str) (s : PSt) : PSt :=
  ⟨scanWhile (fun c => c = ' ') inp s.pos, s.lc⟩

/-- parser.readKeyword: the maximal run of lowercase letters at the cursor.
The slice input[start:position] crashes when the cursor is already past
position len+0, which happens after a comment at the very end of input. -/
def readKeyword (inp : Str) (s : PSt) : GoRes (Str × PSt) :=
  let stop := scanWhile isLowerAZ inp s.pos
  match goSlice inp s.pos stop with
  | none => .crash
  | some w => .ok (w, ⟨stop, s.lc⟩)

/-- parser.readTypeName: the maximal run of ASCII alphanumerics. -/
def readTypeName (inp : Str) (s : PSt) : GoRes (Str × PSt) :=
  let stop := scanWhile isAlnumChar inp s.pos
  match goSlice inp s.pos stop with
  | none => .crash
  | some w => .ok (w, ⟨stop, s.lc⟩)

/-- Split on a separator character, as Go strings.Split with a one-character
separator: the empty string yields one empty part. -/
def splitOnChar (sep : Char) : Str → List Str
  | [] => [[]]
  | c :: r =>
    match splitOnChar sep r with
    | [] => []
    | p :: ps => if c = sep then [] :: p :: ps else (c :: p) :: ps

/-- The per-segment rejection test of parser.readInterfaceName: empty, or
starting or ending with a hyphen. -/
def badSegment (p : Str) : Bool :=
  p = [] || p.head? = some '-' || p.getLast? = some '-'

/-- The validation clause of parser.readInterfaceName: total length 3..255,
at least two dot-separated segments, no empty segment, no segment starting
or ending with a hyphen.  Returns the name on success and the empty string
on failure, as the Go code does. -/
def validateIfaceName (name : Str) : Str :=
  if name.length < 3 ∨ 255 < name.length then []
  else if (splitOnChar '.' name).length < 2 then []
  else if (splitOnChar '.' name).any badSegment then []
  else name

/-- parser.readInterfaceName: read the maximal run of lowercase letters,
hyphens and dots, then validate it. -/
def readInterfaceName (inp : Str) (s : PSt) : GoRes (Str × PSt) :=
  let stop := scanWhile isIfaceChar inp s.pos
  match goSlice inp s.pos stop with
  | none => .crash
  | some w => .ok (validateIfaceName w, ⟨stop, s.lc⟩)

/-- parser.readFieldName: empty unless the first character is a lowercase
letter or underscore; then the maximal run of lowercase letters, digits
and underscores. -/
def readFieldName (inp : Str) (s : PSt) : GoRes (Str × PSt) :=
  match inp.get? s.pos with
  | none => .ok ([], s)
  | some c =>
    if isFieldStart c then
      let stop := scanWhile isFieldChar inp (s.pos + 1)
      match goSlice inp s.pos stop with
      | none => .crash
      | some w => .ok (w, ⟨stop, s.lc⟩)
    else
      .ok ([], s)

/-!
The Type values of the parser, as a mutual group so that recursion over
them stays structural.  OptTy models the Go pointer to Type, which may be
nil: readType returns nil on failure, and that same nil can end up as the
element pointer of an array or the payload of an error.  Fields models the
field slice of a struct type.
-/
mutual

/-- The Type record of the parser. -/
inductive GoType where
  | bool
  | int
  | float
  | string
  | array (elem : OptTy)
  | strukt (fields : Fields)
  | alias (name : Str)

/-- A possibly nil pointer to a Type. -/
inductive OptTy where
  | none
  | some (t : GoType)

/-- The field slice of a struct Type. -/
inductive Fields where
  | nil
  | cons (name : Str) (ty : GoType) (tail : Fields)

end

/-- Append one field at the end, as the Go append on the field slice. -/
def Fields.snoc : Fields → Str → GoType → Fields
  | .nil, n, t => .cons n t .nil
  | .cons m u r, n, t => .cons m u (r.snoc n t)

mutual

/-- The base-type stage of parser.readType: a keyword, a named alias
reference, or a struct.  The result distinguishes the early nil return of
the struct branch (Option.none, where the caller fails with the original
position) from a parsed base value, which may itself be the nil type when
the keyword was unknown. -/
def readTypeBase (inp : Str) : Nat → PSt → GoRes (Option (OptTy × PSt))
  | 0, _ => .fuelOut
  | fuel + 1, s => do
    let (kw, s1) ← readKeyword inp s
    if kw = [] then do
      let (nm, s2) ← readTypeName inp s1
      if nm = [] then do
        let (st, s3) ← readStructTypeF inp fuel s2
        match st with
        | .none => pure (Option.none : Option (OptTy × PSt))
        | .some t => pure (Option.some (OptTy.some t, s3))
      else
        pure (Option.some (OptTy.some (.alias nm), s2))
    else
      let t : OptTy :=
        if kw = String.toList "bool" then .some .bool
        else if kw = String.toList "int" then .some .int
        else if kw = String.toList "float" then .some .float
        else if kw = String.toList "string" then .some .string
        else .none
      pure (Option.some (t, s1))

/-- parser.readType: a base type optionally followed by one [] pair.  An
unknown nonempty keyword leaves the type nil yet still admits the []
suffix, yielding an array with nil element type, exactly as the Go code
does. -/
def readTypeF (inp : Str) : Nat → PSt → GoRes (OptTy × PSt)
  | 0, _ => .fuelOut
  | fuel + 1, s => do
    let step ← readTypeBase inp fuel s
    match step with
    | Option.none => pure (.none, s)  -- the struct branch already failed
    | Option.some (t, s4) =>
      match inp.get? s4.pos with
      | some c =>
        if c = '[' then
          match inp.get? (s4.pos + 1) with
          | some d =>
            if d = ']' then pure (.some (.array t), ⟨s4.pos + 2, s4.lc⟩)
            else pure (.none, ⟨s4.pos + 2, s4.lc⟩)
          | none => pure (.none, ⟨s4.pos + 2, s4.lc⟩)
        else
          pure (t, s4)
      | none => pure (t, s4)

/-- parser.readStructType: a parenthesised, comma-separated field list;
nil on failure. -/
def readStructTypeF (inp : Str) : Nat → PSt → GoRes (OptTy × PSt)
  | 0, _ => .fuelOut
  | fuel + 1, s =>
    match inp.get? s.pos with
    | some c =>
      if c = '(' then
        match inp.get? (s.pos + 1) with
        | some d =>
          if d = ')' then .ok (.some (.strukt .nil), ⟨s.pos + 2, s.lc⟩)
          else readFieldsF inp fuel .nil ⟨s.pos + 1, s.lc⟩
        | none => readFieldsF inp fuel .nil ⟨s.pos + 1, s.lc⟩
      else .ok (.none, s)
    | none => .ok (.none, s)

/-- The field loop of parser.readStructType. -/
def readFieldsF (inp : Str) : Nat → Fields → PSt → GoRes (OptTy × PSt)
  | 0, _, _ => .fuelOut
  | fuel + 1, acc, s => do
    let (_, s1) ← advanceA inp s
    let (fnm, s2) ← readFieldName inp s1
    if fnm = [] then pure (.none, s2)
    else do
      let (_, s3) ← advanceA inp s2
      match inp.get? s3.pos with
      | some c =>
        if c = ':' then do
          let (_, s4) ← advanceA inp ⟨s3.pos + 1, s3.lc⟩
          let (t, s5) ← readTypeF inp fuel s4
          match t with
          | .none => pure (.none, s5)
          | .some ft => do
            let acc2 := acc.snoc fnm ft
            let (_, s6) ← advanceA inp s5
            match inp.get? s6.pos with
            | some e =>
              if e = ',' then readFieldsF inp fuel acc2 ⟨s6.pos + 1, s6.lc⟩
              else if e = ')' then pure (.some (.strukt acc2), ⟨s6.pos + 1, s6.lc⟩)
              else pure (.none, ⟨s6.pos + 1, s6.lc⟩)
            | none => pure (.none, ⟨s6.pos + 1, s6.lc⟩)
        else pure (.none, ⟨s3.pos + 1, s3.lc⟩)
      | none => pure (.none, ⟨s3.pos + 1, s3.lc⟩)

end

/-- parser.readType with the standard budget: the nesting depth of a type
is bounded by the input length. -/
def readTypeW (inp : Str) (s : PSt) : GoRes (OptTy × PSt) :=
  readTypeF inp (inp.length + 1) s

/-- The TypeAlias member record. -/
structure TypeAliasR where
  name : Str
  description : Str
  ty : GoType

/-- The Method member record. -/
structure MethodR where
  name : Str
  description : Str
  tin : GoType
  tout : GoType

/-- The ErrorType member record; the payload type may be nil. -/
structure ErrorR where
  name : Str
  description : Str
  ty : OptTy

/-- One member of the Members sequence. -/
inductive GoMember where
  | alias (a : TypeAliasR)
  | method (m : MethodR)
  | err (e : ErrorR)

/-- The Interface record: name, leading-comment description, members in
declaration order, and the three lookup indexes.  The Go maps are modelled
as association lists where a later insertion shadows an earlier one. -/
structure GoInterface where
  name : Str
  description : Str
  members : List GoMember
  aliases : List (Str × TypeAliasR)
  methods : List (Str × MethodR)
  errors : List (Str × ErrorR)

/-- Go map insertion (later insertion shadows). -/
def mapPut {α : Type} (m : List (Str × α)) (k : Str) (v : α) : List (Str × α) :=
  (k, v) :: m

/-- Go map lookup. -/
def mapGet {α : Type} (m : List (Str × α)) (k : Str) : Option α :=
  match m with
  | [] => none
  | (k2, v) :: r => if k2 = k then some v else mapGet r k

/-- The member loop of parser.readInterface. -/
def readMembersF (inp : Str) : Nat → GoInterface → PSt → GoRes (Option GoInterface × PSt)
  | 0, _, _ => .fuelOut
  | fuel + 1, ifc, s => do
    let (more, s1) ← advanceA inp s
    if more then do
      let (kw, s2) ← readKeyword inp s1
      if kw = String.toList "type" then do
        let (_, s3) ← advanceA inp s2
        let desc := s3.lc
        let (nm, s4) ← readTypeName inp s3
        if nm = [] then pure (none, s4)
        else do
          let (_, s5) ← advanceA inp s4
          let (t, s6) ← readTypeW inp s5
          match t with
          | .none => pure (none, s6)
          | .some ty =>
            let al : TypeAliasR := ⟨nm, desc, ty⟩
            readMembersF inp fuel
              { ifc with
                members := ifc.members ++ [.alias al]
                aliases := mapPut ifc.aliases nm al } s6
      else if kw = String.toList "method" then do
        let (_, s3) ← advanceA inp s2
        let desc := s3.lc
        let (nm, s4) ← readTypeName inp s3
        if nm = [] then pure (none, s4)
        else do
          let (_, s5) ← advanceA inp s4
          let (tin, s6) ← readTypeW inp s5
          match tin with
          | .none => pure (none, s6)
          | .some tyIn => do
            let (_, s7) ← advanceA inp s6
            let one := inp.get? s7.pos
            let two := inp.get? (s7.pos + 1)
            let s8 : PSt := ⟨s7.pos + 2, s7.lc⟩
            if one = some '-' ∧ two = some '>' then do
              let (_, s9) ← advanceA inp s8
              let (tout, s10) ← readTypeW inp s9
              match tout with
              | .none => pure (none, s10)
              | .some tyOut =>
                let me : MethodR := ⟨nm, desc, tyIn, tyOut⟩
                readMembersF inp fuel
                  { ifc with
                    members := ifc.members ++ [.method me]
                    methods := mapPut ifc.methods nm me } s10
            else pure (none, s8)
      else if kw = String.toList "error" then do
        let (_, s3) ← advanceA inp s2
        let desc := s3.lc
        let (nm, s4) ← readTypeName inp s3
        if nm = [] then pure (none, s4)
        else do
          let s5 := advanceOnLine inp s4
          let (t, s6) ← readTypeW inp s5
          let er : ErrorR := ⟨nm, desc, t⟩
          readMembersF inp fuel
            { ifc with
              members := ifc.members ++ [.err er]
              errors := mapPut ifc.errors nm er } s6
      else pure (none, s2)
    else pure (some ifc, s1)

/-- parser.readInterface. -/
def readInterface (inp : Str) (s : PSt) : GoRes (Option GoInterface × PSt) := do
  let (kw, s1) ← readKeyword inp s
  if kw = String.toList "interface" then do
    let (_, s2) ← advanceA inp s1
    let desc := s2.lc
    let (nm, s3) ← readInterfaceName inp s2
    if nm = [] then pure (none, s3)
    else
      readMembersF inp (inp.length + 1)
        ⟨nm, desc, [], [], [], []⟩ s3
  else pure (none, s1)

/-- NewInterface: parse a whole description, requiring the input to be
consumed completely. -/
def NewInterface (inp : Str) : GoRes (Option GoInterface) := do
  let (_, s1) ← advanceA inp ⟨0, []⟩
  let (r, s2) ← readInterface inp s1
  match r with
  | none => pure none
  | some ifc => do
    let (more, _) ← advanceA inp s2
    if more then pure none else pure (some ifc)

/-! The renderer, Interface.String of service.go. -/

/-- writeComment: each line of a nonempty description becomes a hash, a
space, the line, and a newline. -/
def renderComment (desc : Str) : Str :=
  if desc = [] then []
  else ((splitOnChar '\n' desc).map (fun line => '#' :: ' ' :: (line ++ ['\n']))).flatten

mutual

/-- writeType on a non-nil type.  The multiline flag selects the struct
layout exactly as in the Go code. -/
def renderType (ml : Bool) : GoType → Option Str
  | .bool => Option.some (String.toList "bool")
  | .int => Option.some (String.toList "int")
  | .float => Option.some (String.toList "float")
  | .string => Option.some (String.toList "string")
  | .array e => do
    let re ← renderOptTy ml e
    pure (re ++ ['[', ']'])
  | .strukt fs => do
    let body ← renderFieldsAux ml true fs
    pure ('(' :: (body ++ (if ml then ['\n'] else []) ++ [')']))
  | .alias nm => Option.some nm

/-- writeType called through a possibly nil pointer: the nil pointer is the
Go crash, modelled as Option.none. -/
def renderOptTy (ml : Bool) : OptTy → Option Str
  | .none => Option.none
  | .some t => renderType ml t

/-- The field loop of writeType: before every field but the first a comma
(multiline) or a comma and a space (single line); before every field a
newline and two spaces when multiline. -/
def renderFieldsAux (ml : Bool) (first : Bool) : Fields → Option Str
  | .nil => Option.some []
  | .cons n t r => do
    let rt ← renderType ml t
    let rest ← renderFieldsAux ml false r
    let sep : Str := if first then [] else if ml then [','] else [',', ' ']
    let ind : Str := if ml then ['\n', ' ', ' '] else []
    pure (sep ++ ind ++ n ++ ':' :: ' ' :: (rt ++ rest))

end

/-- One member of Interface.String: its comment block, its keyword, its
name and its type text. -/
def renderMember : GoMember → Option Str
  | .alias a => do
    let rt ← renderType true a.ty
    pure (renderComment a.description ++ String.toList "type " ++ a.name ++ ' ' :: rt)
  | .method m => do
    let ri ← renderType false m.tin
    let ro ← renderType false m.tout
    pure (renderComment m.description ++ String.toList "method " ++ m.name ++ ri
      ++ String.toList " -> " ++ ro)
  | .err e => do
    let pay ←
      match e.ty with
      | .none => pure ([] : Str)
      | .some t => do
        let rt ← renderType true t
        pure (' ' :: rt)
    pure (renderComment e.description ++ String.toList "error " ++ e.name ++ pay)

/-- Interface.String: the interface comment block and header, then every
member preceded by a blank line. -/
def renderInterface (i : GoInterface) : Option Str := do
  let parts ← i.members.mapM renderMember
  pure (renderComment i.description ++ String.toList "interface " ++ i.name
    ++ (parts.map (fun p => '\n' :: '\n' :: p)).flatten)

/-! The default-value generator, Interface.DefaultValue of service.go
(the defaultValue helpers of src/main.go and src/unnamed/part_000 and
part_001 are the same algorithm over the same data).  The recursion
budget only bounds alias chains and nesting; the Go code has none and
recurses forever on cyclic alias graphs. -/

/-- A structured value as produced by the default-value generator. -/
inductive Value where
  | vnull
  | vbool (b : Bool)
  | vint (n : Int)
  | vfloat (q : ℚ)
  | vstr (s : Str)
  | varr (xs : List Value)
  | vobj (fields : List (Str × Value))

mutual

/-- Interface.DefaultValue: false, 0, 0.0, the empty string, the empty
array, a mapping of every struct field to its recursive default, and for
an alias a lookup in the interface alias index, yielding nil without
failing when the alias is absent. -/
def DefaultValue (i : GoInterface) : Nat → GoType → GoRes Value
  | 0, _ => .fuelOut
  | _ + 1, .bool => .ok (.vbool false)
  | _ + 1, .int => .ok (.vint 0)
  | _ + 1, .float => .ok (.vfloat 0)
  | _ + 1, .string => .ok (.vstr [])
  | _ + 1, .array _ => .ok (.varr [])
  | fuel + 1, .strukt fs => do
    let l ← DefaultFields i fuel fs
    pure (.vobj l)
  | fuel + 1, .alias nm =>
    match mapGet i.aliases nm with
    | Option.none => .ok .vnull
    | Option.some al => DefaultValue i fuel al.ty

/-- The struct-field loop of Interface.DefaultValue. -/
def DefaultFields (i : GoInterface) : Nat → Fields → GoRes (List (Str × Value))
  | 0, _ => .fuelOut
  | _ + 1, .nil => .ok []
  | fuel + 1, .cons n t r => do
    let v ← DefaultValue i fuel t
    let rest ← DefaultFields i fuel r
    pure ((n, v) :: rest)

end

/-! The wire model.  JSON values form a mutual group so that the encoder is
structural; the encoder models the compact output of Go encoding/json with
its default HTML escaping, for the ASCII payloads the program sends. -/

mutual

/-- A JSON value. -/
inductive JsonVal where
  | jnull
  | jbool (b : Bool)
  | jnum (n : Int)
  | jstr (s : Str)
  | jarr (xs : JsonList)
  | jobj (fields : JsonFields)

/-- The elements of a JSON array. -/
inductive JsonList where
  | nil
  | cons (v : JsonVal) (tail : JsonList)

/-- The fields of a JSON object, in order. -/
inductive JsonFields where
  | nil
  | cons (name : Str) (v : JsonVal) (tail : JsonFields)

end

/-- The opening brace character. -/
def obrace : Char := Char.ofNat 123

/-- The closing brace character. -/
def cbrace : Char := Char.ofNat 125

/-- The NUL byte that terminates every varlink frame. -/
def nulChar : Char := Char.ofNat 0

/-- A lowercase hexadecimal digit. -/
def hexDig (n : Nat) : Char :=
  if n < 10 then Char.ofNat (48 + n) else Char.ofNat (87 + n)

/-- Escaping of one character inside a JSON string, as Go encoding/json
does it with its default HTML escaping. -/
def escChar (c : Char) : Str :=
  if c = '"' then ['\\', '"']
  else if c = '\\' then ['\\', '\\']
  else if c = '\n' then ['\\', 'n']
  else if c = '\r' then ['\\', 'r']
  else if c = '\t' then ['\\', 't']
  else if c = '<' ∨ c = '>' ∨ c = '&' ∨ c.toNat < 32 then
    '\\' :: 'u' :: '0' :: '0' :: [hexDig (c.toNat / 16 % 16), hexDig (c.toNat % 16)]
  else [c]

/-- Escaping of a JSON string body. -/
def escStr (s : Str) : Str := (s.map escChar).flatten

/-- Decimal digits of a natural number (the budget is any bound on the
number of digits; n + 1 always suffices). -/
def natDigits : Nat → Nat → Str
  | 0, _ => []
  | f + 1, n =>
    if n < 10 then [Char.ofNat (48 + n)]
    else natDigits f (n / 10) ++ [Char.ofNat (48 + n % 10)]

/-- Decimal rendering of an integer. -/
def intChars : Int → Str
  | .ofNat n => natDigits (n + 1) n
  | .negSucc m => '-' :: natDigits (m + 2) (m + 1)

mutual

/-- Compact JSON encoding, as Go json.Marshal produces it. -/
def jsonEncode : JsonVal → Str
  | .jnull => String.toList "null"
  | .jbool true => String.toList "true"
  | .jbool false => String.toList "false"
  | .jnum n => intChars n
  | .jstr s => '"' :: (escStr s ++ ['"'])
  | .jarr xs => '[' :: (jsonEncodeList true xs ++ [']'])
  | .jobj fs => obrace :: (jsonEncodeFields true fs ++ [cbrace])

/-- Array elements, comma separated. -/
def jsonEncodeList (first : Bool) : JsonList → Str
  | .nil => []
  | .cons v r =>
    (if first then [] else [',']) ++ jsonEncode v ++ jsonEncodeList false r

/-- Object fields, comma separated, each a quoted name, a colon and the
encoded value. -/
def jsonEncodeFields (first : Bool) : JsonFields → Str
  | .nil => []
  | .cons n v r =>
    (if first then [] else [',']) ++ '"' :: (escStr n ++ '"' :: ':' :: jsonEncode v)
      ++ jsonEncodeFields false r

end

/-- Lookup of an object field. -/
def jfGet : JsonFields → Str → Option JsonVal
  | .nil, _ => Option.none
  | .cons n v r, k => if n = k then Option.some v else jfGet r k

/-- A Go interface-typed value as passed for call parameters: the nil
interface, a non-nil pointer to another such value, the empty struct, or
a plain JSON-marshalable value. -/
inductive GoAny where
  | anil
  | aptr (v : GoAny)
  | aempty
  | aval (j : JsonVal)

/-- The emptiness test of the omitempty tag in Go encoding/json: nil
interfaces and pointers, false, zero, empty strings and empty collections
are empty; structs and non-nil pointers never are.  The aval case models a
value decoded from JSON, whose objects are Go maps. -/
def jsonEmptyVal : JsonVal → Bool
  | .jnull => true
  | .jbool b => !b
  | .jnum n => n = 0
  | .jstr s => s = []
  | .jarr .nil => true
  | .jarr _ => false
  | .jobj .nil => true
  | .jobj _ => false

/-- isEmptyValue of encoding/json on a GoAny. -/
def isEmptyValue : GoAny → Bool
  | .anil => true
  | .aptr _ => false
  | .aempty => false
  | .aval j => jsonEmptyVal j

/-- json.Marshal of a GoAny: nil becomes null, pointers are followed, the
empty struct becomes the empty object. -/
def marshalAny : GoAny → JsonVal
  | .anil => .jnull
  | .aptr v => marshalAny v
  | .aempty => .jobj .nil
  | .aval j => j

/-- The More flag bit of part_001. -/
def MoreFlag : Nat := 1

/-- The Oneway flag bit of part_001. -/
def OnewayFlag : Nat := 2

/-- The Continues flag bit of part_001. -/
def ContinuesFlag : Nat := 4

/-- The transport as seen from outside: the byte chunks written to the
connection, in order.  part_001 buffers with bufio and flushes once per
frame, so one frame is one chunk there. -/
structure Wire where
  chunks : List Str

/-- A varlink error of part_001: a name and the raw reply parameters. -/
structure WErr where
  name : Str
  parameters : Option JsonVal

/-- The call envelope of part_001 Connection.Send, with the omitempty
serialization of its struct tags: method always; parameters unless the
value is empty; more and oneway only when true. -/
def sendCallFields (method : Str) (parameters : GoAny) (flags : Nat) : JsonFields :=
  let t3 : JsonFields :=
    if flags.land OnewayFlag ≠ 0 then .cons (String.toList "oneway") (.jbool true) .nil
    else .nil
  let t2 : JsonFields :=
    if flags.land MoreFlag ≠ 0 then .cons (String.toList "more") (.jbool true) t3
    else t3
  let t1 : JsonFields :=
    if isEmptyValue parameters then t2
    else .cons (String.toList "parameters") (marshalAny parameters) t2
  .cons (String.toList "method") (.jstr method) t1

/-- part_001 Connection.Send up to the wire: the More-and-Oneway check
comes before serialization and before any write; otherwise the envelope is
marshalled, a single NUL byte is appended, and the result is written and
flushed as one chunk. -/
def connSend (w : Wire) (method : Str) (parameters : GoAny) (flags : Nat) :
    Wire × Option WErr :=
  if flags.land MoreFlag ≠ 0 ∧ flags.land OnewayFlag ≠ 0 then
    (w, Option.some ⟨String.toList "org.varlink.InvalidParameter",
      Option.some (.jstr (String.toList "oneway"))⟩)
  else
    let b := jsonEncode (.jobj (sendCallFields method parameters flags)) ++ [nulChar]
    (⟨w.chunks ++ [b]⟩, Option.none)

/-- The decoded reply envelope of the receive closure of part_001: a
possibly absent parameters payload, a continues flag, and an error name
that is empty when absent. -/
structure ReplyEnv where
  parameters : Option JsonVal
  continues : Bool
  error : Str

/-- The receive closure of part_001 Connection.Send, from the decoded
envelope on: with a nonempty error name it fails with that name and the
raw parameters, never touching the output; otherwise present parameters
are decoded into the output and the Continues flag is reported. -/
def connReceive {Out : Type} (dec : JsonVal → Out → Out) (m : ReplyEnv) (out : Out) :
    Out × Except WErr Nat :=
  if m.error ≠ [] then (out, .error ⟨m.error, m.parameters⟩)
  else
    let out2 :=
      match m.parameters with
      | Option.some p => dec p out
      | Option.none => out
    (out2, .ok (if m.continues then ContinuesFlag else 0))

/-- part_001 Connection.Call: Send with a pointer to its parameters
argument and no flags, then one receive. -/
def connCall {Out : Type} (dec : JsonVal → Out → Out) (w : Wire) (method : Str)
    (parameters : GoAny) (m : ReplyEnv) (out : Out) : Wire × Out × Except WErr Nat :=
  match connSend w method (.aptr parameters) 0 with
  | (w2, Option.some e) => (w2, out, .error e)
  | (w2, Option.none) =>
    let (o, r) := connReceive dec m out
    (w2, o, r)

/-! The resolver-era client of src/unnamed/part_003. -/

/-- The fixed well-known resolver address. -/
def ResolverAddress : Str := String.toList "unix:/run/org.varlink.resolver"

/-- part_003 SendMessage: json.Encoder.Encode writes the JSON encoding
followed by a newline, then a second write delivers the single NUL byte. -/
def sendMessageChunks (j : JsonVal) : List Str :=
  [jsonEncode j ++ ['\n'], [nulChar]]

def sendMessage (w : Wire) (j : JsonVal) : Wire :=
  ⟨w.chunks ++ sendMessageChunks j⟩

/-- part_003 ReceiveMessage and the part_001 receive both read through the
first NUL: the frame up to and including the NUL, and the rest of the
stream.  A stream without a NUL is an io error. -/
def readUntilNul : Str → Option (Str × Str)
  | [] => Option.none
  | c :: r =>
    if c = nulChar then Option.some ([c], r)
    else
      match readUntilNul r with
      | Option.none => Option.none
      | Option.some (f, rest) => Option.some (c :: f, rest)

/-- The part_003 CallArgs envelope with its omitempty struct tags. -/
def callArgsFields (method : Str) (parameters : GoAny) (more : Bool) : JsonFields :=
  let t2 : JsonFields :=
    if more then .cons (String.toList "more") (.jbool true) .nil else .nil
  let t1 : JsonFields :=
    if isEmptyValue parameters then t2
    else .cons (String.toList "parameters") (marshalAny parameters) t2
  .cons (String.toList "method") (.jstr method) t1

/-- The decoded CallReply envelope of part_003: pointer-typed parameters
and error, so either may be absent. -/
structure CallReplyEnv where
  parameters : Option JsonVal
  error : Option Str
  continues : Bool

/-- A failure of part_003 connection.Call: a service error carrying the
reply error name, or a decode failure of the reply parameters. -/
inductive P3Err where
  | service (name : Str)
  | decode

/-- part_003 connection.Call: nil parameters are replaced by the empty
struct, the envelope is sent, and the reply is examined: a present error
name fails with exactly that name before any decoding; otherwise the
reply parameters pointer is dereferenced, which is the nil-dereference
crash when the reply carried no parameters. -/
def part3Call {Out : Type} (dec : JsonVal → Out → Option Out) (w : Wire) (method : Str)
    (parameters : GoAny) (reply : CallReplyEnv) (out : Out) :
    GoRes (Wire × Out × Option P3Err) :=
  let p :=
    match parameters with
    | .anil => GoAny.aempty
    | q => q
  let w2 := sendMessage w (.jobj (callArgsFields method p false))
  match reply.error with
  | Option.some e => .ok (w2, out, Option.some (.service e))
  | Option.none =>
    match reply.parameters with
    | Option.none => .crash
    | Option.some pv =>
      match dec pv out with
      | Option.none => .ok (w2, out, Option.some .decode)
      | Option.some o2 => .ok (w2, o2, Option.none)

/-- json.Unmarshal into the ResolveReplyArgs struct: an object whose
address field, when present, must be a string; a missing field leaves the
zero value. -/
def decodeAddress (j : JsonVal) (out : Str) : Option Str :=
  match j with
  | .jobj fs =>
    match jfGet fs (String.toList "address") with
    | Option.some (.jstr a) => Option.some a
    | Option.some _ => Option.none
    | Option.none => Option.some out
  | _ => Option.none

/-- A failure of Resolve: the dial failed, the resolver reported a service
error, or its reply could not be decoded. -/
inductive RErr where
  | dialFailed
  | service (name : Str)
  | decode

/-- Network activity visible outside Resolve. -/
inductive NetEv where
  | dialed (addr : Str)
  | called (method : Str)

/-- Resolve of part_003 (and the identical Resolve of src/main.go): the
resolver own interface name short-circuits to the fixed address with no
network activity; any other name dials the fixed resolver address and
issues the org.varlink.resolver.Resolve call, whose outcome is passed
through. -/
def goResolve (iface : Str) (dialOk : Bool) (reply : CallReplyEnv) :
    List NetEv × GoRes (Except RErr Str) :=
  if iface = String.toList "org.varlink.resolver" then
    ([], .ok (.ok ResolverAddress))
  else if dialOk then
    let evs := [NetEv.dialed ResolverAddress,
      NetEv.called (String.toList "org.varlink.resolver.Resolve")]
    match part3Call decodeAddress ⟨[]⟩ (String.toList "org.varlink.resolver.Resolve")
        (.aptr (.aval (.jobj (.cons (String.toList "interface") (.jstr iface) .nil))))
        reply [] with
    | .crash => (evs, .crash)
    | .fuelOut => (evs, .fuelOut)
    | .ok (_, o, st) =>
      match st with
      | Option.some (.service e) => (evs, .ok (.error (.service e)))
      | Option.some .decode => (evs, .ok (.error .decode))
      | Option.none => (evs, .ok (.ok o))
  else
    ([NetEv.dialed ResolverAddress], .ok (.error .dialFailed))

/-! Well-formedness for rendering.  These Bool-valued predicates delimit the
Interface values whose rendered text parses back: they hold for every
parser-produced Interface except the documented failure classes (an empty
struct in a multiline position, a method input type whose rendering does
not start with an opening parenthesis, and an array with nil element
type), and additionally pin down the shapes that only parser-produced
values have (valid names, no nested arrays, descriptions not starting
with a newline). -/

/-- Whether a type is an array. -/
def isArrayTy : GoType → Bool
  | .array _ => true
  | _ => false

/-- A well-formed member name as read by readTypeName: nonempty and
alphanumeric. -/
def wfTypeName (n : Str) : Bool :=
  match n with
  | [] => false
  | c :: r => isAlnumChar c && r.all isAlnumChar

/-- A well-formed alias reference: alphanumeric, nonempty, and not starting
with a lowercase letter, so that readKeyword leaves it alone and
readTypeName reads all of it. -/
def wfAliasRef (n : Str) : Bool :=
  match n with
  | [] => false
  | c :: r => (isUpperAZ c || isDigit09 c) && r.all isAlnumChar

/-- A well-formed field name as read by readFieldName. -/
def wfFieldName (n : Str) : Bool :=
  match n with
  | [] => false
  | c :: r => isFieldStart c && r.all isFieldChar

/-- Whether a field list is empty. -/
def isNilFields : Fields → Bool
  | .nil => true
  | _ => false

mutual

/-- Types whose rendering (multiline when ml) parses back to the same
type: keywords; valid alias references; arrays with a present, non-array
element; structs with valid field names, recursively well-formed field
types, and at least one field when multiline. -/
def wfType (ml : Bool) : GoType → Bool
  | .bool => true
  | .int => true
  | .float => true
  | .string => true
  | .alias nm => wfAliasRef nm
  | .array e => wfElem ml e
  | .strukt fs => (!ml || !(isNilFields fs)) && wfFields ml fs

/-- The element of a well-formed array: present and not itself an array. -/
def wfElem (ml : Bool) : OptTy → Bool
  | .none => false
  | .some t => !(isArrayTy t) && wfType ml t

/-- Well-formed struct fields. -/
def wfFields (ml : Bool) : Fields → Bool
  | .nil => true
  | .cons n t r => wfFieldName n && wfType ml t && wfFields ml r

end

/-- Whether the rendering of a type starts with an opening parenthesis:
a struct, or an array of such a type. -/
def startsParen : GoType → Bool
  | .strukt _ => true
  | .array (.some t) => startsParen t
  | _ => false

/-- A description that the comment buffer can reproduce: empty or not
starting with a newline (the buffer never accumulates a leading empty
line, so the parser never produces one either). -/
def wfDesc (d : Str) : Bool :=
  match d with
  | [] => true
  | c :: _ => !(c = '\n')

/-- A well-formed member: valid name, well-formed description and types;
a method input type must render starting with a parenthesis because the
renderer writes it directly after the method name. -/
def wfMember : GoMember → Bool
  | .alias a => wfTypeName a.name && wfDesc a.description && wfType true a.ty
  | .method m => wfTypeName m.name && wfDesc m.description
      && wfType false m.tin && startsParen m.tin && wfType false m.tout
  | .err e => wfTypeName e.name && wfDesc e.description
      && (match e.ty with
          | .none => true
          | .some t => wfType true t)

/-- A well-formed interface name: nonempty, within the readInterfaceName
character class, and accepted by the validator. -/
def wfIfaceName (n : Str) : Bool :=
  !(n = []) && n.all isIfaceChar && decide (validateIfaceName n = n)

/-- A well-formed interface for rendering. -/
def wfInterface (i : GoInterface) : Bool :=
  wfIfaceName i.name && wfDesc i.description && i.members.all wfMember

/-! Concrete values used by counterexamples and witnesses. -/

/-- The interface text of the round-trip counterexample: a type alias whose
body is the empty struct. -/
def exT0 : Str := String.toList "interface a.b\n\ntype E ()"

/-- The Interface that exT0 parses to. -/
def exI0 : GoInterface :=
  { name := String.toList "a.b"
    description := []
    members := [.alias ⟨String.toList "E", [], .strukt .nil⟩]
    aliases := [(String.toList "E", ⟨String.toList "E", [], .strukt .nil⟩)]
    methods := []
    errors := [] }

/-- A small well-formed interface used as a round-trip witness. -/
def exI1 : GoInterface :=
  { name := String.toList "a.b"
    description := String.toList "doc"
    members := [.err ⟨String.toList "E", [], .none⟩]
    aliases := []
    methods := []
    errors := [(String.toList "E", ⟨String.toList "E", [], .none⟩)] }

/-- The Interface parsed from a type alias body x[], an array whose nil
element pointer crashes the renderer. -/
def exI2 : GoInterface :=
  { name := String.toList "a.b"
    description := []
    members := [.alias ⟨String.toList "T", [], .array .none⟩]
    aliases := [(String.toList "T", ⟨String.toList "T", [], .array .none⟩)]
    methods := []
    errors := [] }

/-! Machinery for the round-trip proof: the whitespace-and-comment runs
that parser.advance consumes, recursion budgets measured by type size, and
the loop-entry text of the struct-field parser. -/

/-- One item that parser.advance can skip: a space, a newline, or a whole
rendered comment line (hash, space, line text, newline). -/
inductive SkipItem where
  | sp
  | nl
  | comment (line : Str)

/-- The characters of one skip item. -/
def itemChars : SkipItem → Str
  | .sp => [' ']
  | .nl => ['\n']
  | .comment l => '#' :: ' ' :: (l ++ ['\n'])

/-- The characters of a run of skip items. -/
def itemsChars (its : List SkipItem) : Str := (its.map itemChars).flatten

/-- The effect of one skip item on the pending comment buffer. -/
def itemStepLC (acc : Str) : SkipItem → Str
  | .sp => acc
  | .nl => []
  | .comment l => if acc = [] then l else acc ++ '\n' :: l

/-- The comment buffer after a run of skip items. -/
def itemsLC (its : List SkipItem) (lc : Str) : Str := its.foldl itemStepLC lc

/-- A comment item must not contain a newline in its line text. -/
def goodItemP : SkipItem → Prop
  | .comment l => ('\n' : Char) ∉ l
  | _ => True

/-- The skip items of a rendered comment block. -/
def commentItems (desc : Str) : List SkipItem :=
  if desc = [] then [] else (splitOnChar '\n' desc).map .comment

/-- A character at which parser.advance stops. -/
def NonSkipHead (c : Char) : Prop := c ≠ ' ' ∧ c ≠ '\n' ∧ c ≠ '#'

/-- The first character of rest, if any, fails the scan class f. -/
def NotHead (f : Char → Bool) (rest : Str) : Prop :=
  match rest.head? with
  | Option.none => True
  | Option.some c => f c = false

/-- No character, or a character that ends every name scan and is not an
opening bracket: safe to follow a rendered type. -/
def SafeAfterType (rest : Str) : Prop :=
  match rest.head? with
  | Option.none => True
  | Option.some c => isAlnumChar c = false ∧ c ≠ '['

mutual

/-- A size measure of types driving the parser recursion budgets. -/
def tSize : GoType → Nat
  | .bool => 1
  | .int => 1
  | .float => 1
  | .string => 1
  | .alias _ => 1
  | .array e => 1 + oSize e
  | .strukt fs => 1 + fsSize fs

/-- Size of a possibly nil type. -/
def oSize : OptTy → Nat
  | .none => 0
  | .some t => tSize t

/-- Size of a field list, padded so that every parser budget fits. -/
def fsSize : Fields → Nat
  | .nil => 0
  | .cons _ t r => 4 + tSize t + fsSize r

end

/-- The separator-and-indentation text between two rendered struct
fields. -/
def sepInd (ml : Bool) : Str :=
  if ml then ',' :: '\n' :: ' ' :: [' '] else [',', ' ']

/-- The indentation before the first rendered struct field. -/
def ind0 (ml : Bool) : Str :=
  if ml then '\n' :: ' ' :: [' '] else []

/-- The text ahead of the struct-field loop at the entry of an iteration:
the current field name, a colon, a space, its type, and, when more fields
remain, the separator and the rest. -/
def fieldsTail (ml : Bool) : Fields → Option Str
  | .nil => Option.some []
  | .cons n t r => do
    let rt ← renderType ml t
    let ft ← fieldsTail ml r
    Option.some (n ++ ':' :: ' ' :: (rt ++
      (match r with
       | .nil => []
       | _ => sepInd ml ++ ft)))

/-- Appending a whole field list through repeated snoc, as the field loop
accumulates. -/
def Fields.appendF : Fields → Fields → Fields
  | acc, .nil => acc
  | acc, .cons n t r => Fields.appendF (acc.snoc n t) r

/-! Helper lemmas. -/

theorem splitOnChar_of_not_mem {c : Char} {n : Str} (h : c ∉ n) :
    splitOnChar c n = [n] := by
  induction n with
  | nil => rfl
  | cons d r ih =>
    have hd : ¬(d = c) := fun hd => h (hd ▸ List.mem_cons_self d r)
    have hr : c ∉ r := fun hm => h (List.mem_cons_of_mem d hm)
    simp [splitOnChar, ih hr, hd]

theorem digit48_ne_nul (k : Nat) (h : k < 10) : Char.ofNat (48 + k) ≠ nulChar := by
  interval_cases k <;> decide

theorem hexDig_ne_nul (n : Nat) (h : n < 16) : hexDig n ≠ nulChar := by
  interval_cases n <;> decide

theorem natDigits_nulFree (f n : Nat) : nulChar ∉ natDigits f n := by
  induction f generalizing n with
  | zero => simp [natDigits]
  | succ f ih =>
    simp only [natDigits]
    split
    · next h =>
      simp only [List.mem_singleton]
      exact fun hc => digit48_ne_nul n h hc.symm
    · next h =>
      intro hmem
      rcases List.mem_append.mp hmem with h1 | h1
      · exact ih _ h1
      · have hlt : n % 10 < 10 := Nat.mod_lt _ (by omega)
        simp only [List.mem_singleton] at h1
        exact digit48_ne_nul _ hlt h1.symm

theorem intChars_nulFree (i : Int) : nulChar ∉ intChars i := by
  cases i with
  | ofNat n => exact natDigits_nulFree _ _
  | negSucc m =>
    simp only [intChars, List.mem_cons]
    rintro (h | h)
    · exact absurd h.symm (by decide)
    · exact natDigits_nulFree _ _ h

theorem escChar_nulFree (c : Char) : nulChar ∉ escChar c := by
  unfold escChar
  split
  · decide
  · split
    · decide
    · split
      · decide
      · split
        · decide
        · split
          · decide
          · split
            · next h =>
              simp only [List.mem_cons]
              rintro (h1 | h1 | h1 | h1 | h1 | h1 | h1)
              · exact absurd h1.symm (by decide)
              · exact absurd h1.symm (by decide)
              · exact absurd h1.symm (by decide)
              · exact absurd h1.symm (by decide)
              · exact hexDig_ne_nul _ (by omega) h1.symm
              · exact hexDig_ne_nul _ (by omega) h1.symm
              · simp at h1
            · next h1 h2 h3 h4 h5 h6 =>
              simp only [List.mem_singleton]
              intro hc
              subst hc
              exact h6 (Or.inr (Or.inr (Or.inr (by decide))))

theorem escStr_nulFree (s : Str) : nulChar ∉ escStr s := by
  simp only [escStr, List.mem_flatten, List.mem_map]
  rintro ⟨l, ⟨c, _, rfl⟩, hmem⟩
  exact escChar_nulFree c hmem

mutual

theorem jsonEncode_nulFree (j : JsonVal) : nulChar ∉ jsonEncode j := by
  cases j with
  | jnull => decide
  | jbool b => cases b <;> decide
  | jnum n => exact intChars_nulFree n
  | jstr s =>
    simp only [jsonEncode, List.mem_cons, List.mem_append, List.mem_singleton]
    rintro (h | h | h)
    · exact absurd h.symm (by decide)
    · exact escStr_nulFree s h
    · exact absurd h.symm (by decide)
  | jarr xs =>
    simp only [jsonEncode, List.mem_cons, List.mem_append, List.mem_singleton]
    rintro (h | h | h)
    · exact absurd h.symm (by decide)
    · exact jsonEncodeList_nulFree true xs h
    · exact absurd h.symm (by decide)
  | jobj fs =>
    simp only [jsonEncode, List.mem_cons, List.mem_append, List.mem_singleton]
    rintro (h | h | h)
    · exact absurd h.symm (by decide)
    · exact jsonEncodeFields_nulFree true fs h
    · exact absurd h.symm (by decide)

theorem jsonEncodeList_nulFree (b : Bool) (xs : JsonList) : nulChar ∉ jsonEncodeList b xs := by
  cases xs with
  | nil => simp [jsonEncodeList]
  | cons v r =>
    simp only [jsonEncodeList, List.mem_append]
    rintro ((h | h) | h)
    · split at h
      · simp at h
      · simp only [List.mem_singleton] at h
        exact absurd h (by decide)
    · exact jsonEncode_nulFree v h
    · exact jsonEncodeList_nulFree false r h

theorem jsonEncodeFields_nulFree (b : Bool) (fs : JsonFields) : nulChar ∉ jsonEncodeFields b fs := by
  cases fs with
  | nil => simp [jsonEncodeFields]
  | cons n v r =>
    simp only [jsonEncodeFields, List.mem_append]
    rintro ((h | h) | h)
    · split at h
      · simp at h
      · simp only [List.mem_singleton] at h
        exact absurd h (by decide)
    · rcases List.mem_cons.mp h with h | h
      · exact absurd h (by decide)
      rcases List.mem_append.mp h with h1 | h1
      · exact escStr_nulFree n h1
      rcases List.mem_cons.mp h1 with h2 | h2
      · exact absurd h2 (by decide)
      rcases List.mem_cons.mp h2 with h3 | h3
      · exact absurd h3 (by decide)
      · exact jsonEncode_nulFree v h3
    · exact jsonEncodeFields_nulFree false r h

end

theorem readUntilNul_append (pre rest : Str) (h : nulChar ∉ pre) :
    readUntilNul (pre ++ nulChar :: rest) = Option.some (pre ++ [nulChar], rest) := by
  induction pre with
  | nil => simp [readUntilNul]
  | cons c r ih =>
    have hc : ¬(c = nulChar) := fun hc => h (hc ▸ List.mem_cons_self c r)
    have hr : nulChar ∉ r := fun hm => h (List.mem_cons_of_mem c hm)
    simp [readUntilNul, hc, ih hr]

theorem badSegment_false_iff (p : Str) :
    badSegment p = false ↔
      (p ≠ [] ∧ p.head? ≠ Option.some '-' ∧ p.getLast? ≠ Option.some '-') := by
  unfold badSegment
  rw [Bool.or_eq_false_iff, Bool.or_eq_false_iff]
  rw [decide_eq_false_iff_not, decide_eq_false_iff_not, decide_eq_false_iff_not]
  tauto

/-! Claim theorems for the wire connection, the resolver and the
default-value generator. -/

/-- Claim C2: when a received reply envelope carries a nonempty error name,
the part_001 receive closure fails with exactly that name (keeping the raw
reply parameters) and leaves the output untouched, and the part_003 Call
likewise fails with exactly the reply error name, leaving its output
untouched: the reply parameters are never decoded in either case. -/
theorem c2_error_reply_skips_decode {Out : Type} (dec : JsonVal → Out → Out)
    (dec3 : JsonVal → Out → Option Out) (m : ReplyEnv) (r3 : CallReplyEnv)
    (out : Out) (w : Wire) (method : Str) (params : GoAny) (e : Str)
    (h1 : m.error ≠ []) (h2 : r3.error = Option.some e) :
    connReceive dec m out = (out, .error ⟨m.error, m.parameters⟩) ∧
    ∃ w2, part3Call dec3 w method params r3 out = .ok (w2, out, Option.some (.service e)) := by
  constructor
  · simp [connReceive, h1]
  · exact ⟨_, by unfold part3Call; rw [h2]⟩

/-- Witness for C2 at a concrete error reply. -/
theorem c2_witness :
    connReceive (fun (_ : JsonVal) (o : Unit) => o)
        ⟨Option.none, false, String.toList "org.example.Boom"⟩ () =
      ((), .error ⟨String.toList "org.example.Boom", Option.none⟩) ∧
    ∃ w2, part3Call (fun _ o => Option.some o) ⟨[]⟩ (String.toList "a.b.C") .anil
        ⟨Option.some (.jobj .nil), Option.some (String.toList "org.example.Boom"), false⟩ () =
      .ok (w2, (), Option.some (.service (String.toList "org.example.Boom"))) :=
  c2_error_reply_skips_decode (fun _ o => o) (fun _ o => Option.some o)
    ⟨Option.none, false, String.toList "org.example.Boom"⟩
    ⟨Option.some (.jobj .nil), Option.some (String.toList "org.example.Boom"), false⟩
    () ⟨[]⟩ (String.toList "a.b.C") .anil (String.toList "org.example.Boom")
    (by decide) rfl

/-- Claim C3: Send with both More and Oneway set fails with the
org.varlink.InvalidParameter caller error before serializing and before
writing, so the transport receives zero bytes. -/
theorem c3_more_oneway_rejected (w : Wire) (method : Str) (p : GoAny) (flags : Nat)
    (h1 : flags.land MoreFlag ≠ 0) (h2 : flags.land OnewayFlag ≠ 0) :
    connSend w method p flags =
      (w, Option.some ⟨String.toList "org.varlink.InvalidParameter",
        Option.some (.jstr (String.toList "oneway"))⟩) := by
  simp [connSend, h1, h2]

/-- Witness for C3 with both flag bits set. -/
theorem c3_witness :
    connSend ⟨[]⟩ (String.toList "a.b.C") .anil 3 =
      (⟨[]⟩, Option.some ⟨String.toList "org.varlink.InvalidParameter",
        Option.some (.jstr (String.toList "oneway"))⟩) :=
  c3_more_oneway_rejected ⟨[]⟩ (String.toList "a.b.C") .anil 3 (by decide) (by decide)

/-- Counterexample to claim C4: the part_003 Call wrapper invoked with nil
parameters serializes a parameters field holding the empty object, rather
than omitting the field. -/
theorem c4_counterexample :
    part3Call (fun (_ : JsonVal) (o : Unit) => Option.some o) ⟨[]⟩
        (String.toList "org.example.M") GoAny.anil
        ⟨Option.none, Option.some (String.toList "org.example.Boom"), false⟩ () =
      .ok (⟨sendMessageChunks (.jobj (.cons (String.toList "method")
          (.jstr (String.toList "org.example.M"))
          (.cons (String.toList "parameters") (.jobj .nil) .nil)))⟩, (),
        Option.some (.service (String.toList "org.example.Boom"))) ∧
    jfGet (callArgsFields (String.toList "org.example.M") GoAny.aempty false)
        (String.toList "parameters") = Option.some (.jobj .nil) := by
  exact ⟨rfl, rfl⟩

/-- Claim C4 as amended: Send itself omits the parameters field when the
parameters value is nil, for any flags; but the wrappers do not: the
part_001 Call passes a pointer to its parameters argument, so a nil
argument serializes as a parameters field holding null, and the part_003
Call substitutes the empty struct, so a nil argument serializes as a
parameters field holding the empty object. -/
theorem c4_amended {Out : Type} (dec : JsonVal → Out → Out) (w : Wire) (method : Str)
    (flags : Nat) (m : ReplyEnv) (out : Out) (e : Str) (reply : CallReplyEnv)
    (h : reply.error = Option.some e) :
    jfGet (sendCallFields method .anil flags) (String.toList "parameters") = Option.none ∧
    (∃ o r, connCall dec w method .anil m out =
      (⟨w.chunks ++ [jsonEncode (.jobj (sendCallFields method (.aptr .anil) 0)) ++ [nulChar]]⟩,
        o, r)) ∧
    jfGet (sendCallFields method (.aptr .anil) 0) (String.toList "parameters") =
      Option.some .jnull ∧
    part3Call (fun _ o => Option.some o) w method .anil reply out =
      .ok (sendMessage w (.jobj (callArgsFields method .aempty false)), out,
        Option.some (.service e)) ∧
    jfGet (callArgsFields method .aempty false) (String.toList "parameters") =
      Option.some (.jobj .nil) := by
  refine ⟨?_, ?_, rfl, ?_, rfl⟩
  · simp only [sendCallFields, show isEmptyValue GoAny.anil = true from rfl, if_true]
    split_ifs <;> rfl
  · rcases hX : connReceive dec m out with ⟨o, r⟩
    refine ⟨o, r, ?_⟩
    unfold connCall
    rw [show connSend w method (.aptr .anil) 0 =
      (⟨w.chunks ++ [jsonEncode (.jobj (sendCallFields method (.aptr .anil) 0)) ++ [nulChar]]⟩,
        Option.none) from rfl]
    simp [hX]
  · unfold part3Call
    rw [h]

/-- Witness for the amended C4 at concrete inputs. -/
theorem c4_witness :
    jfGet (sendCallFields (String.toList "a.b.C") .anil 0) (String.toList "parameters") =
      Option.none ∧
    (∃ o r, connCall (fun (_ : JsonVal) (o : Unit) => o) ⟨[]⟩ (String.toList "a.b.C") .anil
        ⟨Option.none, false, []⟩ () =
      (⟨([] : List Str) ++ [jsonEncode (.jobj (sendCallFields (String.toList "a.b.C")
          (.aptr .anil) 0)) ++ [nulChar]]⟩, o, r)) ∧
    jfGet (sendCallFields (String.toList "a.b.C") (.aptr .anil) 0)
        (String.toList "parameters") = Option.some .jnull ∧
    part3Call (fun _ o => Option.some o) ⟨[]⟩ (String.toList "a.b.C") .anil
        ⟨Option.none, Option.some (String.toList "e.f.G"), false⟩ () =
      .ok (sendMessage ⟨[]⟩ (.jobj (callArgsFields (String.toList "a.b.C") .aempty false)),
        (), Option.some (.service (String.toList "e.f.G"))) ∧
    jfGet (callArgsFields (String.toList "a.b.C") .aempty false)
        (String.toList "parameters") = Option.some (.jobj .nil) :=
  c4_amended (fun _ o => o) ⟨[]⟩ (String.toList "a.b.C") 0 ⟨Option.none, false, []⟩ ()
    (String.toList "e.f.G") ⟨Option.none, Option.some (String.toList "e.f.G"), false⟩ rfl

/-- Counterexample to claim C5: the bytes the part_003 SendMessage delivers
for a frame are not the JSON encoding followed directly by the NUL byte;
a newline stands in between. -/
theorem c5_counterexample :
    (sendMessageChunks (.jobj (.cons (String.toList "method")
        (.jstr (String.toList "a.b.C")) .nil))).flatten ≠
      jsonEncode (.jobj (.cons (String.toList "method")
        (.jstr (String.toList "a.b.C")) .nil)) ++ [nulChar] := by
  decide

/-- Claim C5 as amended: the part_001 Send writes the JSON serialization of
the envelope followed by exactly one NUL, with nothing in between, as a
single flushed chunk; receivers consume the stream through the first NUL
and decode exactly the bytes before it; but the part_003 SendMessage emits
the JSON encoding, a newline, and then the NUL, in two separate writes. -/
theorem c5_framing (w : Wire) (method : Str) (p : GoAny) (flags : Nat)
    (pre rest : Str) (j : JsonVal)
    (hf : ¬(flags.land MoreFlag ≠ 0 ∧ flags.land OnewayFlag ≠ 0))
    (hpre : nulChar ∉ pre) :
    (connSend w method p flags =
      (⟨w.chunks ++ [jsonEncode (.jobj (sendCallFields method p flags)) ++ [nulChar]]⟩,
        Option.none) ∧
      nulChar ∉ jsonEncode (.jobj (sendCallFields method p flags))) ∧
    (readUntilNul (pre ++ nulChar :: rest) = Option.some (pre ++ [nulChar], rest) ∧
      (pre ++ [nulChar]).dropLast = pre) ∧
    ((sendMessageChunks j).flatten = jsonEncode j ++ '\n' :: [nulChar] ∧
      sendMessageChunks j = [jsonEncode j ++ ['\n'], [nulChar]]) := by
  refine ⟨⟨?_, jsonEncode_nulFree _⟩, ⟨readUntilNul_append pre rest hpre, ?_⟩, ⟨?_, rfl⟩⟩
  · simp [connSend, hf]
  · simp
  · simp [sendMessageChunks]

/-- Witness for the amended C5 at concrete inputs. -/
theorem c5_witness :
    (connSend ⟨[]⟩ (String.toList "a.b.C") .anil 0 =
      (⟨([] : List Str) ++ [jsonEncode (.jobj (sendCallFields (String.toList "a.b.C") .anil 0))
          ++ [nulChar]]⟩, Option.none) ∧
      nulChar ∉ jsonEncode (.jobj (sendCallFields (String.toList "a.b.C") .anil 0))) ∧
    (readUntilNul (String.toList "ab" ++ nulChar :: String.toList "cd") =
      Option.some (String.toList "ab" ++ [nulChar], String.toList "cd") ∧
      (String.toList "ab" ++ [nulChar]).dropLast = String.toList "ab") ∧
    ((sendMessageChunks .jnull).flatten = jsonEncode .jnull ++ '\n' :: [nulChar] ∧
      sendMessageChunks .jnull = [jsonEncode .jnull ++ ['\n'], [nulChar]]) :=
  c5_framing ⟨[]⟩ (String.toList "a.b.C") .anil 0 (String.toList "ab") (String.toList "cd")
    .jnull (by decide) (by decide)

/-- Claim C7: the default-value generator on an alias type returns null
without failing when the alias name is absent from the interface alias
index, and recurses into the underlying type of the alias when present. -/
theorem c7_alias_default (i : GoInterface) (nm : Str) (fuel : Nat) :
    (mapGet i.aliases nm = Option.none →
      DefaultValue i (fuel + 1) (.alias nm) = .ok .vnull) ∧
    (∀ al, mapGet i.aliases nm = Option.some al →
      DefaultValue i (fuel + 1) (.alias nm) = DefaultValue i fuel al.ty) := by
  constructor
  · intro h
    simp [DefaultValue, h]
  · intro al h
    simp [DefaultValue, h]

/-- Witness for C7: the counterexample interface has alias E and no alias
X; the generator yields null for X and the empty object for E. -/
theorem c7_witness :
    DefaultValue exI0 3 (.alias (String.toList "X")) = .ok .vnull ∧
    DefaultValue exI0 3 (.alias (String.toList "E")) = .ok (.vobj []) := by
  constructor
  · exact (c7_alias_default exI0 (String.toList "X") 2).1 rfl
  · rw [(c7_alias_default exI0 (String.toList "E") 2).2 ⟨String.toList "E", [], .strukt .nil⟩ rfl]
    rfl

/-- Claim C9: Resolve short-circuits its own resolver interface name to the
fixed well-known address with no network activity at all; every other name
dials the fixed resolver address and issues the org.varlink.resolver.Resolve
call, passing a service error through with its name unaltered and otherwise
returning the address decoded from the reply. -/
theorem c9_resolve_bootstrap (iface : Str) (dialOk : Bool) (reply : CallReplyEnv)
    (e a : Str) (fs : JsonFields) :
    goResolve (String.toList "org.varlink.resolver") dialOk reply =
      ([], .ok (.ok ResolverAddress)) ∧
    (iface ≠ String.toList "org.varlink.resolver" → dialOk = true →
      reply.error = Option.some e →
      goResolve iface dialOk reply =
        ([.dialed ResolverAddress, .called (String.toList "org.varlink.resolver.Resolve")],
          .ok (.error (.service e)))) ∧
    (iface ≠ String.toList "org.varlink.resolver" → dialOk = true →
      reply.error = Option.none → reply.parameters = Option.some (.jobj fs) →
      jfGet fs (String.toList "address") = Option.some (.jstr a) →
      goResolve iface dialOk reply =
        ([.dialed ResolverAddress, .called (String.toList "org.varlink.resolver.Resolve")],
          .ok (.ok a))) ∧
    (iface ≠ String.toList "org.varlink.resolver" → dialOk = false →
      goResolve iface dialOk reply = ([.dialed ResolverAddress], .ok (.error .dialFailed))) := by
  refine ⟨rfl, ?_, ?_, ?_⟩
  · intro hne hd he
    subst hd
    unfold goResolve
    rw [if_neg hne]
    simp [part3Call, he]
  · intro hne hd he hp ha
    subst hd
    have ha2 : jfGet fs ['a', 'd', 'd', 'r', 'e', 's', 's'] = Option.some (.jstr a) := ha
    unfold goResolve
    rw [if_neg hne]
    simp [part3Call, he, hp, decodeAddress, ha2]
  · intro hne hd
    subst hd
    unfold goResolve
    rw [if_neg hne]
    simp

/-- Witness for C9 at concrete inputs. -/
theorem c9_witness :
    goResolve (String.toList "org.varlink.resolver") true
        ⟨Option.none, Option.none, false⟩ = ([], .ok (.ok ResolverAddress)) ∧
    goResolve (String.toList "org.example.ping") true
        ⟨Option.none, Option.some (String.toList "org.varlink.resolver.InterfaceNotFound"),
          false⟩ =
      ([.dialed ResolverAddress, .called (String.toList "org.varlink.resolver.Resolve")],
        .ok (.error (.service (String.toList "org.varlink.resolver.InterfaceNotFound")))) := by
  constructor
  · exact (c9_resolve_bootstrap [] true ⟨Option.none, Option.none, false⟩ [] [] .nil).1
  · exact (c9_resolve_bootstrap (String.toList "org.example.ping") true
      ⟨Option.none, Option.some (String.toList "org.varlink.resolver.InterfaceNotFound"),
        false⟩ (String.toList "org.varlink.resolver.InterfaceNotFound") [] .nil).2.1
      (by decide) rfl rfl

/-- Claim C10: the part_003 Call on a success reply that carries neither an
error nor parameters dereferences the nil parameters pointer: the modelled
run crashes instead of producing a value or an error. -/
theorem c10_absent_params_crash {Out : Type} (dec : JsonVal → Out → Option Out)
    (w : Wire) (method : Str) (params : GoAny) (reply : CallReplyEnv) (out : Out)
    (h1 : reply.error = Option.none) (h2 : reply.parameters = Option.none) :
    part3Call dec w method params reply out = .crash := by
  simp [part3Call, h1, h2]

/-- Witness for C10 at the empty success reply. -/
theorem c10_witness :
    part3Call (fun (_ : JsonVal) (o : Unit) => Option.some o) ⟨[]⟩
        (String.toList "a.b.C") .anil ⟨Option.none, Option.none, false⟩ () = .crash :=
  c10_absent_params_crash (fun _ o => Option.some o) ⟨[]⟩ (String.toList "a.b.C") .anil
    ⟨Option.none, Option.none, false⟩ () rfl rfl

/-- Counterexample to claim C1: the Interface parsed from a type alias with
empty struct body renders to a multiline empty struct, which does not parse
at all; and the Interface parsed from the alias body x[] holds an array
with nil element type, on which rendering crashes instead of producing
text. -/
theorem c1_counterexample :
    NewInterface exT0 = .ok (Option.some exI0) ∧
    renderInterface exI0 = Option.some (String.toList "interface a.b\n\ntype E (\n)") ∧
    NewInterface (String.toList "interface a.b\n\ntype E (\n)") = .ok Option.none ∧
    NewInterface (String.toList "interface a.b\n\ntype T x[]") = .ok (Option.some exI2) ∧
    renderInterface exI2 = Option.none :=
  ⟨rfl, rfl, rfl, rfl, rfl⟩

/-- Claim C6: the parse is all-or-nothing on ordinary failures, as on the
unconsumed trailing token here, but an input whose final character is a
hash makes the parser slice beyond the end of the input, a runtime crash
rather than the nil result the claim promises. -/
theorem c6_crash_on_trailing_hash :
    NewInterface (String.toList "#") = .crash ∧
    NewInterface (String.toList "interface a.b x") = .ok Option.none :=
  ⟨rfl, rfl⟩

/-- Claim C8: the interface-name validator rejects a, a.b-, the empty name
and every single-segment name, accepts org.example.test, and in general
accepts a name exactly when its length is between 3 and 255 and it splits
on dots into at least two segments, each nonempty and neither starting nor
ending with a hyphen. -/
theorem c8_interface_name_grammar :
    validateIfaceName (String.toList "a") = [] ∧
    validateIfaceName (String.toList "a.b-") = [] ∧
    validateIfaceName [] = [] ∧
    (∀ n : Str, '.' ∉ n → validateIfaceName n = []) ∧
    readInterfaceName (String.toList "org.example.test") ⟨0, []⟩ =
      .ok (String.toList "org.example.test", ⟨16, []⟩) ∧
    (∀ n : Str, (validateIfaceName n = n ∧ n ≠ []) ↔
      (3 ≤ n.length ∧ n.length ≤ 255 ∧ 2 ≤ (splitOnChar '.' n).length ∧
        ∀ p ∈ splitOnChar '.' n,
          p ≠ [] ∧ p.head? ≠ Option.some '-' ∧ p.getLast? ≠ Option.some '-')) := by
  refine ⟨rfl, rfl, rfl, ?_, rfl, ?_⟩
  · intro n hn
    unfold validateIfaceName
    rw [splitOnChar_of_not_mem hn]
    simp
  · intro n
    constructor
    · rintro ⟨hv, hne⟩
      unfold validateIfaceName at hv
      split_ifs at hv with h1 h2 h3
      · exact absurd hv.symm hne
      · exact absurd hv.symm hne
      · exact absurd hv.symm hne
      · push_neg at h1
        refine ⟨h1.1, h1.2, by omega, ?_⟩
        intro p hp
        rw [Bool.not_eq_true, List.any_eq_false] at h3
        exact (badSegment_false_iff p).mp (Bool.not_eq_true _ ▸ h3 p hp)
    · rintro ⟨h1, h2, h3, h4⟩
      have hne : n ≠ [] := by
        intro h
        subst h
        simp at h1
      refine ⟨?_, hne⟩
      unfold validateIfaceName
      split_ifs with a b c
      · omega
      · omega
      · obtain ⟨p, hp, hbad⟩ := List.any_eq_true.mp c
        have hgood := (badSegment_false_iff p).mpr (h4 p hp)
        rw [hgood] at hbad
        exact absurd hbad (by decide)
      · rfl

/-- Witness for C8: the single-segment rejection and the general criterion
at concrete names. -/
theorem c8_witness :
    validateIfaceName (String.toList "abc") = [] ∧
    (validateIfaceName (String.toList "org.example.test") = String.toList "org.example.test" ∧
      String.toList "org.example.test" ≠ []) := by
  constructor
  · exact c8_interface_name_grammar.2.2.2.1 (String.toList "abc") (by decide)
  · exact (c8_interface_name_grammar.2.2.2.2.2 (String.toList "org.example.test")).mpr
      (by decide)

/-! Positional lemmas: how the scanning primitives behave on an input whose
suffix at the cursor is known. -/

theorem drop_next {inp x rest : Str} {p : Nat} (h : inp.drop p = x ++ rest) :
    inp.drop (p + x.length) = rest := by
  have h2 := congrArg (List.drop x.length) h
  rw [List.drop_drop, List.drop_left] at h2
  exact h2

theorem pos_next_le {inp x rest : Str} {p : Nat} (h : inp.drop p = x ++ rest)
    (hp : p ≤ inp.length) : p + x.length ≤ inp.length := by
  have h2 := congrArg List.length h
  rw [List.length_drop, List.length_append] at h2
  omega

theorem drop_cons {inp rest : Str} {c : Char} {p : Nat} (h : inp.drop p = c :: rest) :
    inp.drop (p + 1) = rest := by
  have h2 := drop_next (x := [c]) (p := p) (by simpa using h)
  simpa using h2

theorem le_cons {inp rest : Str} {c : Char} {p : Nat} (h : inp.drop p = c :: rest)
    (hp : p ≤ inp.length) : p + 1 ≤ inp.length := by
  have h2 := pos_next_le (x := [c]) (p := p) (by simpa using h) hp
  simpa using h2

theorem get?_of_drop {inp rest : Str} {p : Nat} {c : Char} (h : inp.drop p = c :: rest) :
    inp.get? p = some c := by
  rw [List.get?_eq_getElem?, show p = p + 0 from rfl, ← List.getElem?_drop, h]
  simp

theorem get?_none_of_drop {inp : Str} {p : Nat} (h : inp.drop p = []) :
    inp.get? p = none := by
  rw [List.get?_eq_getElem?, show p = p + 0 from rfl, ← List.getElem?_drop, h]
  simp

theorem scanWhile_spec {f : Char → Bool} {inp x rest : Str} {p : Nat}
    (h : inp.drop p = x ++ rest) (hall : ∀ c ∈ x, f c = true)
    (hstop : NotHead f rest) :
    scanWhile f inp p = p + x.length := by
  unfold scanWhile
  rw [h, List.takeWhile_append_of_pos hall]
  rcases rest with _ | ⟨c, r⟩
  · simp
  · unfold NotHead at hstop
    simp only [List.head?_cons] at hstop
    simp [List.takeWhile_cons, hstop]

theorem goSlice_spec {inp x rest : Str} {p : Nat} (h : inp.drop p = x ++ rest)
    (hp : p ≤ inp.length) :
    goSlice inp p (p + x.length) = Option.some x := by
  unfold goSlice
  rw [if_pos ⟨Nat.le_add_right _ _, pos_next_le h hp⟩]
  rw [List.drop_take, Nat.add_sub_cancel_left, h, List.take_left]

theorem readKeyword_spec {inp x rest : Str} {p : Nat} {lc : Str}
    (h : inp.drop p = x ++ rest) (hp : p ≤ inp.length)
    (hall : ∀ c ∈ x, isLowerAZ c = true) (hstop : NotHead isLowerAZ rest) :
    readKeyword inp ⟨p, lc⟩ = .ok (x, ⟨p + x.length, lc⟩) := by
  unfold readKeyword
  simp only [scanWhile_spec h hall hstop, goSlice_spec h hp]

theorem readTypeName_spec {inp x rest : Str} {p : Nat} {lc : Str}
    (h : inp.drop p = x ++ rest) (hp : p ≤ inp.length)
    (hall : ∀ c ∈ x, isAlnumChar c = true) (hstop : NotHead isAlnumChar rest) :
    readTypeName inp ⟨p, lc⟩ = .ok (x, ⟨p + x.length, lc⟩) := by
  unfold readTypeName
  simp only [scanWhile_spec h hall hstop, goSlice_spec h hp]

theorem readInterfaceName_spec {inp x rest : Str} {p : Nat} {lc : Str}
    (h : inp.drop p = x ++ rest) (hp : p ≤ inp.length)
    (hall : ∀ c ∈ x, isIfaceChar c = true) (hstop : NotHead isIfaceChar rest) :
    readInterfaceName inp ⟨p, lc⟩ = .ok (validateIfaceName x, ⟨p + x.length, lc⟩) := by
  unfold readInterfaceName
  simp only [scanWhile_spec h hall hstop, goSlice_spec h hp]

theorem readFieldName_spec {inp cs rest : Str} {c : Char} {p : Nat} {lc : Str}
    (h : inp.drop p = (c :: cs) ++ rest) (hp : p ≤ inp.length)
    (hc : isFieldStart c = true) (hall : ∀ d ∈ cs, isFieldChar d = true)
    (hstop : NotHead isFieldChar rest) :
    readFieldName inp ⟨p, lc⟩ = .ok (c :: cs, ⟨p + (c :: cs).length, lc⟩) := by
  unfold readFieldName
  simp only [get?_of_drop h, hc, if_true]
  have h2 : inp.drop (p + 1) = cs ++ rest := by
    have h3 := @drop_next _ [c] (cs ++ rest) p (by simpa using h)
    simpa using h3
  rw [scanWhile_spec h2 hall hstop]
  have he : p + 1 + cs.length = p + (c :: cs).length := by
    simp [List.length_cons]
    omega
  rw [he, goSlice_spec h hp]

theorem itemsChars_cons (it : SkipItem) (its : List SkipItem) :
    itemsChars (it :: its) = itemChars it ++ itemsChars its := by
  simp [itemsChars]

theorem itemsLC_cons (it : SkipItem) (its : List SkipItem) (lc : Str) :
    itemsLC (it :: its) lc = itemsLC its (itemStepLC lc it) := by
  simp [itemsLC]

theorem advanceF_items {inp : Str} :
    ∀ (its : List SkipItem) (fuel p : Nat) (lc rest : Str),
    inp.drop p = itemsChars its ++ rest →
    (∀ it ∈ its, goodItemP it) →
    p ≤ inp.length →
    its.length + 1 ≤ fuel →
    (∀ c, rest.head? = some c → NonSkipHead c) →
    advanceF inp fuel ⟨p, lc⟩ =
      .ok (!rest.isEmpty, ⟨p + (itemsChars its).length, itemsLC its lc⟩) := by
  intro its
  induction its with
  | nil =>
    intro fuel p lc rest h hgood hp hfuel hhead
    obtain ⟨f, rfl⟩ : ∃ f, fuel = f + 1 := ⟨fuel - 1, by omega⟩
    simp only [itemsChars, List.map_nil, List.flatten_nil, List.nil_append] at h
    unfold advanceF
    rcases rest with _ | ⟨c, r⟩
    · rw [get?_none_of_drop h]
      simp [itemsChars, itemsLC]
    · obtain ⟨h1, h2, h3⟩ := hhead c (by simp)
      rw [get?_of_drop h]
      simp [h1, h2, h3, itemsChars, itemsLC]
  | cons it its ih =>
    intro fuel p lc rest h hgood hp hfuel hhead
    obtain ⟨f, rfl⟩ : ∃ f, fuel = f + 1 := ⟨fuel - 1, by omega⟩
    rw [itemsChars_cons, List.append_assoc] at h
    have hgood2 : ∀ x ∈ its, goodItemP x := fun x hx => hgood x (List.mem_cons_of_mem _ hx)
    have hfuel2 : its.length + 1 ≤ f := by
      simp only [List.length_cons] at hfuel
      omega
    cases it with
    | sp =>
      have hc : inp.drop p = ' ' :: (itemsChars its ++ rest) := by simpa [itemChars] using h
      have hnext : inp.drop (p + 1) = itemsChars its ++ rest := by
        have h3 := @drop_next _ [' '] (itemsChars its ++ rest) p (by simpa using hc)
        simpa using h3
      have hple : p + 1 ≤ inp.length := by
        have h4 := @pos_next_le _ [' '] (itemsChars its ++ rest) p (by simpa using hc) hp
        simpa using h4
      have harith : p + 1 + (itemsChars its).length = p + (itemsChars (.sp :: its)).length := by
        rw [itemsChars_cons]
        simp [itemChars]
        omega
      unfold advanceF
      simp only [get?_of_drop hc]
      rw [if_pos trivial]
      rw [ih f (p + 1) lc rest hnext hgood2 hple hfuel2 hhead]
      rw [← harith]
      rfl
    | nl =>
      have hc : inp.drop p = '\n' :: (itemsChars its ++ rest) := by simpa [itemChars] using h
      have hnext : inp.drop (p + 1) = itemsChars its ++ rest := by
        have h3 := @drop_next _ ['\n'] (itemsChars its ++ rest) p (by simpa using hc)
        simpa using h3
      have hple : p + 1 ≤ inp.length := by
        have h4 := @pos_next_le _ ['\n'] (itemsChars its ++ rest) p (by simpa using hc) hp
        simpa using h4
      have harith : p + 1 + (itemsChars its).length = p + (itemsChars (.nl :: its)).length := by
        rw [itemsChars_cons]
        simp [itemChars]
        omega
      unfold advanceF
      simp only [get?_of_drop hc]
      rw [if_pos trivial]
      rw [ih f (p + 1) [] rest hnext hgood2 hple hfuel2 hhead]
      rw [← harith]
      rfl
    | comment l =>
      have hnl : ('\n' : Char) ∉ l := hgood (.comment l) (by simp)
      have hc : inp.drop p = '#' :: (' ' :: (l ++ '\n' :: (itemsChars its ++ rest))) := by
        simpa [itemChars] using h
      have hnext2 : inp.drop (p + 2) = l ++ '\n' :: (itemsChars its ++ rest) := by
        have h3 := @drop_next _ ['#', ' '] (l ++ '\n' :: (itemsChars its ++ rest)) p
          (by simpa using hc)
        simpa using h3
      have hp2 : p + 2 ≤ inp.length := by
        have h4 := @pos_next_le _ ['#', ' '] (l ++ '\n' :: (itemsChars its ++ rest)) p
          (by simpa using hc) hp
        simpa using h4
      have hnext3 : inp.drop (p + 2 + l.length + 1) = itemsChars its ++ rest := by
        have h5 := @drop_next _ (l ++ ['\n']) (itemsChars its ++ rest) (p + 2)
          (by simpa using hnext2)
        simp only [List.length_append, List.length_cons, List.length_nil] at h5
        rw [show p + 2 + l.length + 1 = p + 2 + (l.length + (0 + 1)) by omega]
        exact h5
      have hple : p + 2 + l.length + 1 ≤ inp.length := by
        have h6 := @pos_next_le _ (l ++ ['\n']) (itemsChars its ++ rest) (p + 2)
          (by simpa using hnext2) hp2
        simp only [List.length_append, List.length_cons, List.length_nil] at h6
        omega
      have harith : p + 2 + l.length + 1 + (itemsChars its).length =
          p + (itemsChars (.comment l :: its)).length := by
        rw [itemsChars_cons]
        simp [itemChars]
        omega
      have hall2 : ∀ c ∈ l, (fun d => !decide (d = '\n')) c = true := fun c hcm => by
        simp only [Bool.not_eq_true']
        exact decide_eq_false (fun he => hnl (he ▸ hcm))
      have hstop2 : NotHead (fun d => !decide (d = '\n'))
          ('\n' :: (itemsChars its ++ rest)) := by
        simp [NotHead]
      have hscan := scanWhile_spec (p := p + 2) hnext2 hall2 hstop2
      unfold advanceF
      simp only [get?_of_drop hc]
      rw [if_neg (show ¬(('#' : Char) = '\n') from by decide),
        if_neg (show ¬(('#' : Char) = ' ') from by decide), if_pos trivial]
      simp only [hscan, goSlice_spec hnext2 hp2]
      rw [ih f (p + 2 + l.length + 1) (if lc = [] then l else lc ++ '\n' :: l) rest hnext3
        hgood2 hple hfuel2 hhead]
      rw [← harith]
      rfl

theorem itemChars_length_pos (it : SkipItem) : 1 ≤ (itemChars it).length := by
  cases it <;> simp [itemChars]

theorem items_length_le (its : List SkipItem) : its.length ≤ (itemsChars its).length := by
  induction its with
  | nil => simp [itemsChars]
  | cons it its ih =>
    rw [itemsChars_cons]
    simp only [List.length_cons, List.length_append]
    have := itemChars_length_pos it
    omega

theorem advanceA_items {inp : Str} {its : List SkipItem} {p : Nat} {lc rest : Str}
    (h : inp.drop p = itemsChars its ++ rest)
    (hgood : ∀ it ∈ its, goodItemP it)
    (hp : p ≤ inp.length)
    (hhead : ∀ c, rest.head? = some c → NonSkipHead c) :
    advanceA inp ⟨p, lc⟩ =
      .ok (!rest.isEmpty, ⟨p + (itemsChars its).length, itemsLC its lc⟩) := by
  have hlen : (itemsChars its).length ≤ inp.length := by
    have h2 := congrArg List.length h
    rw [List.length_drop, List.length_append] at h2
    omega
  have hfuel : its.length + 1 ≤ inp.length + 1 := by
    have := items_length_le its
    omega
  exact advanceF_items its (inp.length + 1) p lc rest h hgood hp hfuel hhead

/-! The comment buffer reproduces a rendered description. -/

theorem splitOnChar_ne_nil (c : Char) (d : Str) : splitOnChar c d ≠ [] := by
  induction d with
  | nil => simp [splitOnChar]
  | cons x r ih =>
    rcases h2 : splitOnChar c r with _ | ⟨p, ps⟩
    · exact absurd h2 ih
    · have key : splitOnChar c (x :: r) = if x = c then [] :: p :: ps else (x :: p) :: ps := by
        unfold splitOnChar
        rw [h2]
      rw [key]
      split <;> simp

theorem splitOnChar_flatten (c : Char) (d : Str) :
    ∀ l ls, splitOnChar c d = l :: ls → d = l ++ (ls.map (fun x => c :: x)).flatten := by
  induction d with
  | nil =>
    intro l ls h
    simp only [splitOnChar] at h
    cases h
    simp
  | cons x r ih =>
    intro l ls h
    rcases h2 : splitOnChar c r with _ | ⟨p, ps⟩
    · exact absurd h2 (splitOnChar_ne_nil c r)
    · have key : splitOnChar c (x :: r) = if x = c then [] :: p :: ps else (x :: p) :: ps := by
        unfold splitOnChar
        rw [h2]
      rw [key] at h
      by_cases hx : x = c
      · rw [if_pos hx] at h
        injection h with h4 h5
        subst h4
        subst h5
        subst hx
        have h3 := ih p ps h2
        simp [h3]
      · rw [if_neg hx] at h
        injection h with h4 h5
        subst h4
        subst h5
        have h3 := ih p ps h2
        simp [h3]

theorem splitOnChar_not_mem (c : Char) (d : Str) :
    ∀ part ∈ splitOnChar c d, c ∉ part := by
  induction d with
  | nil =>
    intro part hp
    simp only [splitOnChar] at hp
    simp at hp
    simp [hp]
  | cons x r ih =>
    intro part hp
    rcases h2 : splitOnChar c r with _ | ⟨p, ps⟩
    · exact absurd h2 (splitOnChar_ne_nil c r)
    · have key : splitOnChar c (x :: r) = if x = c then [] :: p :: ps else (x :: p) :: ps := by
        unfold splitOnChar
        rw [h2]
      rw [key] at hp
      by_cases hx : x = c
      · rw [if_pos hx] at hp
        rcases List.mem_cons.mp hp with h3 | h3
        · subst h3
          simp
        · exact ih part (h2 ▸ h3)
      · rw [if_neg hx] at hp
        rcases List.mem_cons.mp hp with h3 | h3
        · subst h3
          intro hmem
          rcases List.mem_cons.mp hmem with h4 | h4
          · exact hx h4.symm
          · exact ih p (h2 ▸ List.mem_cons_self p ps) h4
        · exact ih part (h2 ▸ List.mem_cons_of_mem p h3)

theorem itemsLC_comments_acc (lines : List Str) :
    ∀ acc, acc ≠ [] →
    itemsLC (lines.map .comment) acc = acc ++ (lines.map (fun l => '\n' :: l)).flatten := by
  induction lines with
  | nil =>
    intro acc hacc
    simp [itemsLC]
  | cons l ls ih =>
    intro acc hacc
    simp only [List.map_cons]
    rw [itemsLC_cons]
    have hstep : itemStepLC acc (.comment l) = acc ++ '\n' :: l := by
      simp [itemStepLC, hacc]
    rw [hstep, ih (acc ++ '\n' :: l) (by simp)]
    simp

theorem itemsLC_commentItems (d : Str) (hwf : wfDesc d = true) :
    itemsLC (commentItems d) [] = d := by
  rcases hd : d with _ | ⟨c, r⟩
  · simp [commentItems, itemsLC]
  · have hdne : (c :: r : Str) ≠ [] := by simp
    unfold commentItems
    rw [if_neg hdne]
    rcases h2 : splitOnChar '\n' (c :: r) with _ | ⟨l, ls⟩
    · exact absurd h2 (splitOnChar_ne_nil _ _)
    · have hflat := splitOnChar_flatten '\n' (c :: r) l ls h2
      have hlne : l ≠ [] := by
        intro hl
        subst hl
        rcases ls with _ | ⟨m, ms⟩
        · simp at hflat
        · rw [hd] at hwf
          unfold wfDesc at hwf
          have hcn : c = '\n' := by
            have h9 := congrArg List.head? hflat
            simp at h9
            exact h9
          simp [hcn] at hwf
      simp only [List.map_cons]
      rw [itemsLC_cons]
      have hstep : itemStepLC [] (.comment l) = l := by simp [itemStepLC]
      rw [hstep, itemsLC_comments_acc ls l hlne]
      exact hflat.symm

theorem commentItems_good (d : Str) : ∀ it ∈ commentItems d, goodItemP it := by
  intro it hit
  unfold commentItems at hit
  split at hit
  · simp at hit
  · rcases List.mem_map.mp hit with ⟨l, hl, rfl⟩
    exact splitOnChar_not_mem '\n' d l hl

theorem renderComment_eq_items (d : Str) :
    renderComment d = itemsChars (commentItems d) := by
  unfold renderComment commentItems
  split
  · simp [itemsChars]
  · unfold itemsChars
    rw [List.map_map]
    rfl

/-! Rendering of well-formed types: total, nonempty, bounded below by the
type size, and starting with an alphanumeric or opening parenthesis. -/

theorem renderFieldsAux_cons (ml first : Bool) (n : Str) (t : GoType) (r : Fields) :
    renderFieldsAux ml first (.cons n t r) =
      (renderType ml t).bind fun rt =>
        (renderFieldsAux ml false r).bind fun rest =>
          Option.some ((if first then [] else if ml then [','] else [',', ' ']) ++
            (if ml then ['\n', ' ', ' '] else []) ++ n ++ ':' :: ' ' :: (rt ++ rest)) := rfl

theorem fieldsTail_cons (ml : Bool) (n : Str) (t : GoType) (r : Fields) :
    fieldsTail ml (.cons n t r) =
      (renderType ml t).bind fun rt =>
        (fieldsTail ml r).bind fun ft =>
          Option.some (n ++ ':' :: ' ' :: (rt ++
            (match r with
             | .nil => []
             | _ => sepInd ml ++ ft))) := rfl

theorem renderFieldsAux_split (ml : Bool) (fs : Fields) :
    (renderFieldsAux ml true fs =
      (match fs with
       | .nil => Option.some []
       | _ => (fieldsTail ml fs).map (fun ft => ind0 ml ++ ft))) ∧
    (renderFieldsAux ml false fs =
      (match fs with
       | .nil => Option.some []
       | _ => (fieldsTail ml fs).map (fun ft => sepInd ml ++ ft))) := by
  cases fs with
  | nil => exact ⟨rfl, rfl⟩
  | cons n t r =>
    have ih := renderFieldsAux_split ml r
    rcases hr : renderType ml t with _ | rt
    · constructor <;>
        rw [renderFieldsAux_cons, fieldsTail_cons, hr] <;> rfl
    · rcases hft : fieldsTail ml r with _ | ft
      · have hrnil : r ≠ .nil := by
          intro h
          rw [h] at hft
          simp [fieldsTail] at hft
        have hia : renderFieldsAux ml false r = Option.none := by
          rcases hrr : r with _ | ⟨n2, t2, r2⟩
          · exact absurd hrr hrnil
          · have h2 := ih.2
            rw [hrr] at hft
            rw [hrr, hft] at h2
            simpa using h2
        constructor <;>
          · rw [renderFieldsAux_cons, fieldsTail_cons, hr, hft, hia]
            rfl
      · rcases hrr : r with _ | ⟨n2, t2, r2⟩
        · subst hrr
          have hft0 : ft = [] := by
            have h3 : Option.some ([] : Str) = Option.some ft := hft
            cases h3
            rfl
          subst hft0
          constructor <;>
            · rw [renderFieldsAux_cons, fieldsTail_cons, hr]
              simp only [fieldsTail, renderFieldsAux, Option.some_bind, Option.bind_some,
                Option.map_some]
              rcases ml <;> simp [ind0, sepInd]
        · subst hrr
          have hia := ih.2
          rw [hft] at hia
          simp only [Option.map_some] at hia
          constructor <;>
            · rw [renderFieldsAux_cons, hr, hia, fieldsTail_cons, hr, hft]
              simp only [Option.some_bind]
              rcases ml <;> simp [ind0, sepInd]

mutual

theorem renderType_total (t : GoType) : ∀ ml : Bool, wfType ml t = true →
    ∃ c cs, renderType ml t = Option.some (c :: cs) ∧
      (isAlnumChar c = true ∨ c = '(') ∧ tSize t ≤ (c :: cs).length := by
  rcases t with _ | _ | _ | _ | e | fs | nm
  · intro ml hwf; exact ⟨'b', _, rfl, by decide, by decide⟩
  · intro ml hwf; exact ⟨'i', _, rfl, by decide, by decide⟩
  · intro ml hwf; exact ⟨'f', _, rfl, by decide, by decide⟩
  · intro ml hwf; exact ⟨'s', _, rfl, by decide, by decide⟩
  · intro ml hwf
    unfold wfType at hwf
    rcases e with _ | b
    · simp [wfElem] at hwf
    · unfold wfElem at hwf
      simp only [Bool.and_eq_true] at hwf
      obtain ⟨c, cs, hr, hcls, hsz⟩ := renderType_total b ml hwf.2
      refine ⟨c, cs ++ ['[', ']'], ?_, hcls, ?_⟩
      · unfold renderType renderOptTy
        rw [hr]
        rfl
      · simp only [tSize, oSize]
        simp only [List.length_cons] at hsz
        simp only [List.length_cons, List.length_append, List.length_nil]
        omega
  · intro ml hwf
    unfold wfType at hwf
    simp only [Bool.and_eq_true] at hwf
    rcases hfs : fs with _ | ⟨n, t1, r⟩
    · subst hfs
      refine ⟨'(', (if ml then ['\n'] else []) ++ [')'], ?_, Or.inr rfl, ?_⟩
      · unfold renderType renderFieldsAux
        rcases ml <;> rfl
      · rcases ml <;> simp [tSize, fsSize]
    · subst hfs
      obtain ⟨ft, hft, hsz⟩ := fieldsTail_total (.cons n t1 r) ml hwf.2
      have haux := (renderFieldsAux_split ml (.cons n t1 r)).1
      rw [hft] at haux
      simp only [Option.map_some] at haux
      refine ⟨'(', (ind0 ml ++ ft) ++ ((if ml then ['\n'] else []) ++ [')']), ?_, Or.inr rfl, ?_⟩
      · unfold renderType
        rw [haux]
        simp
      · have hsz2 := hsz (by simp)
        simp only [tSize]
        simp only [List.length_cons, List.length_append]
        omega
  · intro ml hwf
    unfold wfType wfAliasRef at hwf
    rcases nm with _ | ⟨c, cs⟩
    · simp at hwf
    · refine ⟨c, cs, rfl, Or.inl ?_, by simp [tSize]⟩
      simp only [Bool.and_eq_true] at hwf
      unfold isAlnumChar
      rcases (Bool.or_eq_true _ _).mp hwf.1 with h | h <;> simp [h]

theorem fieldsTail_total (fs : Fields) : ∀ ml : Bool, wfFields ml fs = true →
    ∃ ft, fieldsTail ml fs = Option.some ft ∧ (fs ≠ .nil → fsSize fs ≤ ft.length + 1) := by
  cases fs with
  | nil => intro ml hwf; exact ⟨[], rfl, by simp⟩
  | cons n t r =>
    intro ml hwf
    unfold wfFields at hwf
    simp only [Bool.and_eq_true] at hwf
    obtain ⟨⟨hn, hwt⟩, hwr⟩ := hwf
    obtain ⟨c, cs, hr, hcls, hsz⟩ := renderType_total t ml hwt
    obtain ⟨ft2, hft2, hsz2⟩ := fieldsTail_total r ml hwr
    have hnlen : 1 ≤ n.length := by
      unfold wfFieldName at hn
      rcases n with _ | _
      · simp at hn
      · simp
    rcases hrr : r with _ | ⟨n2, t2, r2⟩
    · subst hrr
      refine ⟨n ++ ':' :: ' ' :: ((c :: cs) ++ []), ?_, ?_⟩
      · unfold fieldsTail
        rw [hr]
        rfl
      · intro
        simp only [List.length_cons] at hsz
        simp only [fsSize, List.length_append, List.length_cons, List.length_nil]
        omega
    · subst hrr
      have hsz3 := hsz2 (by simp)
      refine ⟨n ++ ':' :: ' ' :: ((c :: cs) ++ (sepInd ml ++ ft2)), ?_, ?_⟩
      · unfold fieldsTail
        rw [hr, hft2]
        rfl
      · intro
        have hsep : 2 ≤ (sepInd ml).length := by
          unfold sepInd
          rcases ml <;> simp
        simp only [List.length_cons] at hsz
        simp only [fsSize] at hsz3
        simp only [fsSize, List.length_append, List.length_cons]
        omega

end

/-! Character-class facts used by the round-trip parse lemmas. -/

theorem GoRes_bind_ok {a b : Type} (x : a) (f : a → GoRes b) :
    Bind.bind (GoRes.ok x) f = f x := rfl

theorem GoRes_pure {a : Type} (x : a) : (pure x : GoRes a) = GoRes.ok x := rfl

theorem GoRes_bind_ok2 {a b : Type} (x : a) (f : a → GoRes b) :
    GoRes.bind (GoRes.ok x) f = f x := rfl

theorem lower_alnum {c : Char} (h : isLowerAZ c = true) : isAlnumChar c = true := by
  simp [isAlnumChar, h]

theorem notHead_lower {rest : Str} (h : NotHead isAlnumChar rest) :
    NotHead isLowerAZ rest := by
  unfold NotHead at h ⊢
  rcases rest with _ | ⟨c, r⟩
  · trivial
  · simp only [List.head?_cons] at h ⊢
    rcases h2 : isLowerAZ c
    · rfl
    · rw [lower_alnum h2] at h
      exact absurd h (by decide)

theorem safe_notHead {rest : Str} (h : SafeAfterType rest) :
    NotHead isAlnumChar rest := by
  unfold SafeAfterType at h
  unfold NotHead
  rcases rest with _ | ⟨c, r⟩
  · trivial
  · simp only [List.head?_cons] at h ⊢
    exact h.1

theorem upperDigit_not_lower {c : Char}
    (h : isUpperAZ c = true ∨ isDigit09 c = true) : isLowerAZ c = false := by
  unfold isLowerAZ
  simp only [Bool.and_eq_false_iff, decide_eq_false_iff_not]
  left
  intro hc
  rcases h with h | h
  · unfold isUpperAZ at h
    simp only [Bool.and_eq_true, decide_eq_true_eq] at h
    exact absurd (le_trans hc h.2) (by decide)
  · unfold isDigit09 at h
    simp only [Bool.and_eq_true, decide_eq_true_eq] at h
    exact absurd (le_trans hc h.2) (by decide)

theorem alnum_nonskip {c : Char} (h : isAlnumChar c = true ∨ c = '(') :
    NonSkipHead c := by
  rcases h with h | h
  · refine ⟨?_, ?_, ?_⟩ <;>
      · intro h2
        subst h2
        exact absurd h (by decide)
  · subst h
    exact ⟨by decide, by decide, by decide⟩

theorem fieldStart_nonskip {c : Char} (h : isFieldStart c = true) :
    NonSkipHead c := by
  unfold isFieldStart at h
  rcases (Bool.or_eq_true _ _).mp h with h | h
  · exact alnum_nonskip (Or.inl (lower_alnum h))
  · simp only [decide_eq_true_eq] at h
    subst h
    exact ⟨by decide, by decide, by decide⟩

theorem fieldStart_ne_rparen {c : Char} (h : isFieldStart c = true) : c ≠ ')' := by
  intro h2
  subst h2
  exact absurd h (by decide)

theorem appendF_cons_eq (acc : Fields) (n : Str) (t : GoType) (r : Fields) :
    Fields.appendF acc (.cons n t r) = Fields.appendF (acc.snoc n t) r := rfl

theorem appendF_cons_left (fs : Fields) :
    ∀ (m : Str) (u : GoType) (r : Fields),
    Fields.appendF (.cons m u r) fs = .cons m u (Fields.appendF r fs) := by
  cases fs with
  | nil => intro m u r; rfl
  | cons n t g =>
    intro m u r
    have ih := appendF_cons_left g
    rw [appendF_cons_eq, appendF_cons_eq]
    show Fields.appendF (.cons m u (r.snoc n t)) g = _
    rw [ih m u (r.snoc n t)]

theorem appendF_nil_left (fs : Fields) : Fields.appendF .nil fs = fs := by
  cases fs with
  | nil => rfl
  | cons n t g =>
    rw [appendF_cons_eq]
    show Fields.appendF (.cons n t .nil) g = _
    rw [appendF_cons_left g n t .nil, appendF_nil_left g]

theorem tSize_strukt (fs : Fields) : tSize (.strukt fs) = 1 + fsSize fs := rfl

theorem tSize_array (e : OptTy) : tSize (.array e) = 1 + oSize e := rfl

theorem oSize_some (t : GoType) : oSize (.some t) = tSize t := rfl

theorem fsSize_cons (n : Str) (t : GoType) (r : Fields) :
    fsSize (.cons n t r) = 4 + tSize t + fsSize r := rfl

mutual

theorem readTypeBase_parse (t : GoType) :
    ∀ (ml : Bool) (inp rt rest : Str) (fuel p : Nat) (lc : Str),
    wfType ml t = true → isArrayTy t = false →
    renderType ml t = Option.some rt →
    inp.drop p = rt ++ rest → p ≤ inp.length →
    NotHead isAlnumChar rest →
    tSize t + 2 ≤ fuel →
    ∃ lc2, readTypeBase inp fuel ⟨p, lc⟩ =
      .ok (Option.some (OptTy.some t, ⟨p + rt.length, lc2⟩)) := by
  rcases t with _ | _ | _ | _ | e | fs | nm
  · -- bool
    intro ml inp rt rest fuel p lc hwf harr hrend hdrop hp hnh hfuel
    obtain ⟨f, rfl⟩ : ∃ f, fuel = f + 1 := ⟨fuel - 1, by omega⟩
    simp only [renderType, Option.some.injEq] at hrend
    subst hrend
    refine ⟨lc, ?_⟩
    simp only [readTypeBase]
    rw [readKeyword_spec hdrop hp (by decide) (notHead_lower hnh)]
    rfl
  · -- int
    intro ml inp rt rest fuel p lc hwf harr hrend hdrop hp hnh hfuel
    obtain ⟨f, rfl⟩ : ∃ f, fuel = f + 1 := ⟨fuel - 1, by omega⟩
    simp only [renderType, Option.some.injEq] at hrend
    subst hrend
    refine ⟨lc, ?_⟩
    simp only [readTypeBase]
    rw [readKeyword_spec hdrop hp (by decide) (notHead_lower hnh)]
    rfl
  · -- float
    intro ml inp rt rest fuel p lc hwf harr hrend hdrop hp hnh hfuel
    obtain ⟨f, rfl⟩ : ∃ f, fuel = f + 1 := ⟨fuel - 1, by omega⟩
    simp only [renderType, Option.some.injEq] at hrend
    subst hrend
    refine ⟨lc, ?_⟩
    simp only [readTypeBase]
    rw [readKeyword_spec hdrop hp (by decide) (notHead_lower hnh)]
    rfl
  · -- string
    intro ml inp rt rest fuel p lc hwf harr hrend hdrop hp hnh hfuel
    obtain ⟨f, rfl⟩ : ∃ f, fuel = f + 1 := ⟨fuel - 1, by omega⟩
    simp only [renderType, Option.some.injEq] at hrend
    subst hrend
    refine ⟨lc, ?_⟩
    simp only [readTypeBase]
    rw [readKeyword_spec hdrop hp (by decide) (notHead_lower hnh)]
    rfl
  · -- array: excluded
    intro ml inp rt rest fuel p lc hwf harr hrend hdrop hp hnh hfuel
    simp [isArrayTy] at harr
  · -- struct
    intro ml inp rt rest fuel p lc hwf harr hrend hdrop hp hnh hfuel
    obtain ⟨f, rfl⟩ : ∃ f, fuel = f + 1 := ⟨fuel - 1, by omega⟩
    unfold wfType at hwf
    simp only [Bool.and_eq_true] at hwf
    obtain ⟨hml, hwfs⟩ := hwf
    unfold renderType at hrend
    rcases hb : renderFieldsAux ml true fs with _ | body
    · rw [hb] at hrend
      simp at hrend
    · rw [hb] at hrend
      simp only [Option.bind_eq_bind, Option.some_bind, Option.pure_def,
        Option.some.injEq] at hrend
      subst hrend
      obtain ⟨g, rfl⟩ : ∃ g, f = g + 1 := ⟨f - 1, by simp only [tSize] at hfuel; omega⟩
      have hd0 : inp.drop p = ([] : Str) ++
          (('(' :: (body ++ (if ml then ['\n'] else []) ++ [')'])) ++ rest) := by
        simpa using hdrop
      have hkw : readKeyword inp ⟨p, lc⟩ = GoRes.ok (([] : Str), ⟨p, lc⟩) := by
        have h := @readKeyword_spec inp []
          (('(' :: (body ++ (if ml then ['\n'] else []) ++ [')'])) ++ rest) p lc hd0 hp
          (by simp) (by unfold NotHead; simp; decide)
        simpa using h
      have htn : readTypeName inp ⟨p, lc⟩ = GoRes.ok (([] : Str), ⟨p, lc⟩) := by
        have h := @readTypeName_spec inp []
          (('(' :: (body ++ (if ml then ['\n'] else []) ++ [')'])) ++ rest) p lc hd0 hp
          (by simp) (by unfold NotHead; simp; decide)
        simpa using h
      rcases fs with _ | ⟨n1, t1, r1⟩
      · -- the empty struct, single-line only
        have hmlf : ml = false := by
          rcases ml
          · rfl
          · simp [isNilFields] at hml
        subst hmlf
        simp only [renderFieldsAux, Option.some.injEq] at hb
        subst hb
        refine ⟨lc, ?_⟩
        simp only [readTypeBase]
        rw [hkw]
        simp only [GoRes_bind_ok]
        rw [if_pos trivial, htn]
        simp only [GoRes_bind_ok]
        rw [if_pos trivial]
        simp only [readStructTypeF]
        have hdA : inp.drop p = '(' :: (')' :: rest) := by simpa using hdrop
        have hdB : inp.drop (p + 1) = ')' :: rest := by
          have h := drop_next (x := ['(']) (p := p) (by simpa using hdA)
          simpa using h
        rw [get?_of_drop hdA, get?_of_drop hdB]
        rfl
      · -- a nonempty struct
        have haux : renderFieldsAux ml true (.cons n1 t1 r1) =
            Option.map (fun x => ind0 ml ++ x) (fieldsTail ml (.cons n1 t1 r1)) :=
          (renderFieldsAux_split ml (.cons n1 t1 r1)).1
        rcases hft : fieldsTail ml (.cons n1 t1 r1) with _ | ft
        · rw [hft] at haux
          rw [haux] at hb
          simp at hb
        · rw [hft] at haux
          simp only [Option.map_some'] at haux
          rw [haux] at hb
          simp only [Option.some.injEq] at hb
          simp only [wfFields, Bool.and_eq_true] at hwfs
          obtain ⟨⟨hn1, ht1⟩, hr1⟩ := hwfs
          obtain ⟨c1, cs1, hn1c, hc1⟩ :
              ∃ c1 cs1, n1 = c1 :: cs1 ∧ isFieldStart c1 = true := by
            rcases n1 with _ | ⟨c1, cs1⟩
            · simp [wfFieldName] at hn1
            · simp only [wfFieldName, Bool.and_eq_true] at hn1
              exact ⟨c1, cs1, rfl, hn1.1⟩
          have hftc := fieldsTail_cons ml n1 t1 r1
          rcases hrt1 : renderType ml t1 with _ | rt1
          · rw [hftc, hrt1] at hft
            simp at hft
          · rcases hft1 : fieldsTail ml r1 with _ | ft1
            · rw [hrt1, hft1] at hftc
              rw [hftc] at hft
              simp at hft
            · rw [hrt1, hft1] at hftc
              simp only [Option.some_bind] at hftc
              have hftShape := Option.some.inj (hftc.symm.trans hft)
              have hfuelLoop : fsSize (Fields.cons n1 t1 r1) + 1 ≤ g := by
                have h9 : tSize (GoType.strukt (Fields.cons n1 t1 r1)) =
                    1 + fsSize (Fields.cons n1 t1 r1) := rfl
                omega
              rw [← hb] at hdrop
              have hp1 : p + 1 ≤ inp.length := by
                have hd1 : inp.drop p = ['('] ++
                    (((ind0 ml ++ ft) ++ (if ml then ['\n'] else [])) ++ [')'] ++ rest) := by
                  simpa [List.append_assoc] using hdrop
                have := pos_next_le hd1 hp
                simpa using this
              have hne1 : (Fields.cons n1 t1 r1) ≠ Fields.nil := by simp
              have hwfs2 : wfFields ml (Fields.cons n1 t1 r1) = true := by
                simp only [wfFields, Bool.and_eq_true]
                exact ⟨⟨hn1, ht1⟩, hr1⟩
              rcases hml2 : ml
              · -- single line
                subst hml2
                have hdA : inp.drop p = '(' :: (ft ++ (')' :: rest)) := by
                  simpa [List.append_assoc, ind0] using hdrop
                have hdropIn : inp.drop (p + 1) =
                    itemsChars [] ++ (ft ++ (([] : Str) ++ (')' :: rest))) := by
                  have h := drop_next (x := ['(']) (p := p) (by simpa using hdA)
                  simpa [itemsChars] using h
                obtain ⟨lc2, hloop⟩ :=
                  readFieldsF_parse (.cons n1 t1 r1) false inp .nil [] g (p + 1) lc ft rest
                    hwfs2 hne1 hft (by intro it hit; simp at hit) hdropIn hp1 hfuelLoop
                refine ⟨lc2, ?_⟩
                simp only [readTypeBase]
                rw [hkw]
                simp only [GoRes_bind_ok]
                rw [if_pos trivial, htn]
                simp only [GoRes_bind_ok]
                rw [if_pos trivial]
                simp only [readStructTypeF]
                obtain ⟨tl, hdB⟩ : ∃ tl, inp.drop (p + 1) = c1 :: tl := by
                  have h := drop_next (x := ['(']) (p := p) (by simpa using hdA)
                  rw [← hftShape, hn1c] at h
                  exact ⟨_, by simpa [List.append_assoc] using h⟩
                have hcne : ¬(c1 = ')') := fieldStart_ne_rparen hc1
                rw [get?_of_drop hdA]
                simp only [get?_of_drop hdB, hcne]
                rw [hloop, appendF_nil_left, ← hb]
                simp [GoRes_bind_ok, GoRes_bind_ok2, GoRes_pure, itemsChars, ind0,
                  List.length_append]
                try omega
              · -- multiline
                subst hml2
                have hdA : inp.drop p = '(' ::
                    ('\n' :: (' ' :: ' ' :: (ft ++ ('\n' :: ')' :: rest)))) := by
                  simpa [List.append_assoc, ind0] using hdrop
                have hdropIn : inp.drop (p + 1) =
                    itemsChars [SkipItem.nl, SkipItem.sp, SkipItem.sp] ++
                      (ft ++ ((['\n'] : Str) ++ (')' :: rest))) := by
                  have h := drop_next (x := ['(']) (p := p) (by simpa using hdA)
                  simpa [itemsChars, itemChars, List.append_assoc] using h
                obtain ⟨lc2, hloop⟩ :=
                  readFieldsF_parse (.cons n1 t1 r1) true inp .nil
                    [SkipItem.nl, SkipItem.sp, SkipItem.sp] g (p + 1) lc ft rest
                    hwfs2 hne1 hft
                    (by
                      intro it hit
                      simp only [List.mem_cons, List.not_mem_nil, or_false] at hit
                      rcases hit with rfl | rfl | rfl
                      · exact Or.inr rfl
                      · exact Or.inl rfl
                      · exact Or.inl rfl)
                    hdropIn hp1 hfuelLoop
                refine ⟨lc2, ?_⟩
                simp only [readTypeBase]
                rw [hkw]
                simp only [GoRes_bind_ok]
                rw [if_pos trivial, htn]
                simp only [GoRes_bind_ok]
                rw [if_pos trivial]
                simp only [readStructTypeF]
                have hdB : inp.drop (p + 1) =
                    '\n' :: (' ' :: ' ' :: (ft ++ ('\n' :: ')' :: rest))) := by
                  have h := drop_next (x := ['(']) (p := p) (by simpa using hdA)
                  simpa using h
                rw [get?_of_drop hdA]
                simp only [get?_of_drop hdB]
                rw [hloop, appendF_nil_left, ← hb]
                simp [GoRes_bind_ok, GoRes_bind_ok2, GoRes_pure, itemsChars, itemChars, ind0,
                  List.length_append]
                try omega
  · -- alias
    intro ml inp rt rest fuel p lc hwf harr hrend hdrop hp hnh hfuel
    obtain ⟨f, rfl⟩ : ∃ f, fuel = f + 1 := ⟨fuel - 1, by omega⟩
    simp only [renderType, Option.some.injEq] at hrend
    subst hrend
    unfold wfType wfAliasRef at hwf
    rcases nm with _ | ⟨c, cs⟩
    · simp at hwf
    · simp only [Bool.and_eq_true] at hwf
      obtain ⟨h1, h2⟩ := hwf
      refine ⟨lc, ?_⟩
      simp only [readTypeBase]
      have hd0 : inp.drop p = ([] : Str) ++ ((c :: cs) ++ rest) := by simpa using hdrop
      have hstop0 : NotHead isLowerAZ ((c :: cs) ++ rest) := by
        unfold NotHead
        simp only [List.cons_append, List.head?_cons]
        exact upperDigit_not_lower ((Bool.or_eq_true _ _).mp h1)
      have hkw : readKeyword inp ⟨p, lc⟩ = GoRes.ok (([] : Str), ⟨p, lc⟩) := by
        have h := @readKeyword_spec inp [] ((c :: cs) ++ rest) p lc hd0 hp (by simp) hstop0
        simpa using h
      rw [hkw]
      simp only [GoRes_bind_ok]
      have hall : ∀ d ∈ (c :: cs), isAlnumChar d = true := by
        intro d hd
        rcases List.mem_cons.mp hd with rfl | hd2
        · rcases (Bool.or_eq_true _ _).mp h1 with h | h <;> simp [isAlnumChar, h]
        · exact List.all_eq_true.mp h2 d hd2
      have htn : readTypeName inp ⟨p, lc⟩ =
          GoRes.ok (c :: cs, ⟨p + (c :: cs).length, lc⟩) :=
        readTypeName_spec hdrop hp hall hnh
      rw [if_pos trivial, htn]
      simp [GoRes_pure, GoRes_bind_ok]
termination_by 3 * tSize t
decreasing_by all_goals
  first
    | omega
    | (simp [tSize_strukt, tSize_array, oSize_some, fsSize_cons]; omega)
    | simp [tSize_strukt, tSize_array, oSize_some, fsSize_cons]

theorem readTypeF_parse (t : GoType) :
    ∀ (ml : Bool) (inp rt rest : Str) (fuel p : Nat) (lc : Str),
    wfType ml t = true →
    renderType ml t = Option.some rt →
    inp.drop p = rt ++ rest → p ≤ inp.length →
    SafeAfterType rest →
    tSize t + 3 ≤ fuel →
    ∃ lc2, readTypeF inp fuel ⟨p, lc⟩ = .ok (OptTy.some t, ⟨p + rt.length, lc2⟩) := by
  rcases t with _ | _ | _ | _ | e | fs | nm
  · intro ml inp rt rest fuel p lc hwf hrend hdrop hp hsafe hfuel
    obtain ⟨f, rfl⟩ : ∃ f, fuel = f + 1 := ⟨fuel - 1, by omega⟩
    obtain ⟨lc2, hbase⟩ :=
      readTypeBase_parse _ ml inp rt rest f p lc hwf rfl hrend hdrop hp
        (safe_notHead hsafe) (by omega)
    refine ⟨lc2, ?_⟩
    simp only [readTypeF]
    rw [hbase]
    simp only [GoRes_bind_ok]
    have hdr : inp.drop (p + rt.length) = rest := drop_next hdrop
    rcases hrest : rest with _ | ⟨c, r⟩
    · subst hrest
      rw [get?_none_of_drop hdr]
      rfl
    · subst hrest
      rw [get?_of_drop hdr]
      unfold SafeAfterType at hsafe
      simp only [List.head?_cons] at hsafe
      simp [hsafe.2, GoRes_pure]
  · intro ml inp rt rest fuel p lc hwf hrend hdrop hp hsafe hfuel
    obtain ⟨f, rfl⟩ : ∃ f, fuel = f + 1 := ⟨fuel - 1, by omega⟩
    obtain ⟨lc2, hbase⟩ :=
      readTypeBase_parse _ ml inp rt rest f p lc hwf rfl hrend hdrop hp
        (safe_notHead hsafe) (by omega)
    refine ⟨lc2, ?_⟩
    simp only [readTypeF]
    rw [hbase]
    simp only [GoRes_bind_ok]
    have hdr : inp.drop (p + rt.length) = rest := drop_next hdrop
    rcases hrest : rest with _ | ⟨c, r⟩
    · subst hrest
      rw [get?_none_of_drop hdr]
      rfl
    · subst hrest
      rw [get?_of_drop hdr]
      unfold SafeAfterType at hsafe
      simp only [List.head?_cons] at hsafe
      simp [hsafe.2, GoRes_pure]
  · intro ml inp rt rest fuel p lc hwf hrend hdrop hp hsafe hfuel
    obtain ⟨f, rfl⟩ : ∃ f, fuel = f + 1 := ⟨fuel - 1, by omega⟩
    obtain ⟨lc2, hbase⟩ :=
      readTypeBase_parse _ ml inp rt rest f p lc hwf rfl hrend hdrop hp
        (safe_notHead hsafe) (by omega)
    refine ⟨lc2, ?_⟩
    simp only [readTypeF]
    rw [hbase]
    simp only [GoRes_bind_ok]
    have hdr : inp.drop (p + rt.length) = rest := drop_next hdrop
    rcases hrest : rest with _ | ⟨c, r⟩
    · subst hrest
      rw [get?_none_of_drop hdr]
      rfl
    · subst hrest
      rw [get?_of_drop hdr]
      unfold SafeAfterType at hsafe
      simp only [List.head?_cons] at hsafe
      simp [hsafe.2, GoRes_pure]
  · intro ml inp rt rest fuel p lc hwf hrend hdrop hp hsafe hfuel
    obtain ⟨f, rfl⟩ : ∃ f, fuel = f + 1 := ⟨fuel - 1, by omega⟩
    obtain ⟨lc2, hbase⟩ :=
      readTypeBase_parse _ ml inp rt rest f p lc hwf rfl hrend hdrop hp
        (safe_notHead hsafe) (by omega)
    refine ⟨lc2, ?_⟩
    simp only [readTypeF]
    rw [hbase]
    simp only [GoRes_bind_ok]
    have hdr : inp.drop (p + rt.length) = rest := drop_next hdrop
    rcases hrest : rest with _ | ⟨c, r⟩
    · subst hrest
      rw [get?_none_of_drop hdr]
      rfl
    · subst hrest
      rw [get?_of_drop hdr]
      unfold SafeAfterType at hsafe
      simp only [List.head?_cons] at hsafe
      simp [hsafe.2, GoRes_pure]
  · -- array
    intro ml inp rt rest fuel p lc hwf hrend hdrop hp hsafe hfuel
    obtain ⟨f, rfl⟩ : ∃ f, fuel = f + 1 := ⟨fuel - 1, by omega⟩
    rcases e with _ | b
    · simp [wfType, wfElem] at hwf
    · unfold wfType wfElem at hwf
      simp only [Bool.and_eq_true] at hwf
      obtain ⟨hnb, hwb⟩ := hwf
      have harrb : isArrayTy b = false := by
        rcases hb2 : isArrayTy b
        · rfl
        · rw [hb2] at hnb
          simp at hnb
      unfold renderType renderOptTy at hrend
      rcases hrb : renderType ml b with _ | rb
      · rw [hrb] at hrend
        simp at hrend
      · rw [hrb] at hrend
        simp only [Option.bind_eq_bind, Option.some_bind, Option.pure_def,
          Option.some.injEq] at hrend
        subst hrend
        have hdropb : inp.drop p = rb ++ ('[' :: ']' :: rest) := by
          simpa [List.append_assoc] using hdrop
        obtain ⟨lc2, hbase⟩ :=
          readTypeBase_parse b ml inp rb ('[' :: ']' :: rest) f p lc hwb harrb hrb hdropb hp
            (by unfold NotHead; simp; decide)
            (by simp only [tSize, oSize] at hfuel; omega)
        refine ⟨lc2, ?_⟩
        simp only [readTypeF]
        rw [hbase]
        simp only [GoRes_bind_ok]
        have hdr1 : inp.drop (p + rb.length) = '[' :: ']' :: rest := drop_next hdropb
        have hdr2 : inp.drop (p + rb.length + 1) = ']' :: rest := by
          have h := drop_next (x := ['[']) (p := p + rb.length) (by simpa using hdr1)
          simpa using h
        rw [get?_of_drop hdr1, get?_of_drop hdr2]
        rw [(by simp only [List.length_append, List.length_cons, List.length_nil]; omega :
          p + (rb ++ ['[', ']']).length = p + rb.length + 2)]
        rfl
  · intro ml inp rt rest fuel p lc hwf hrend hdrop hp hsafe hfuel
    obtain ⟨f, rfl⟩ : ∃ f, fuel = f + 1 := ⟨fuel - 1, by omega⟩
    obtain ⟨lc2, hbase⟩ :=
      readTypeBase_parse _ ml inp rt rest f p lc hwf rfl hrend hdrop hp
        (safe_notHead hsafe) (by omega)
    refine ⟨lc2, ?_⟩
    simp only [readTypeF]
    rw [hbase]
    simp only [GoRes_bind_ok]
    have hdr : inp.drop (p + rt.length) = rest := drop_next hdrop
    rcases hrest : rest with _ | ⟨c, r⟩
    · subst hrest
      rw [get?_none_of_drop hdr]
      rfl
    · subst hrest
      rw [get?_of_drop hdr]
      unfold SafeAfterType at hsafe
      simp only [List.head?_cons] at hsafe
      simp [hsafe.2, GoRes_pure]
  · intro ml inp rt rest fuel p lc hwf hrend hdrop hp hsafe hfuel
    obtain ⟨f, rfl⟩ : ∃ f, fuel = f + 1 := ⟨fuel - 1, by omega⟩
    obtain ⟨lc2, hbase⟩ :=
      readTypeBase_parse _ ml inp rt rest f p lc hwf rfl hrend hdrop hp
        (safe_notHead hsafe) (by omega)
    refine ⟨lc2, ?_⟩
    simp only [readTypeF]
    rw [hbase]
    simp only [GoRes_bind_ok]
    have hdr : inp.drop (p + rt.length) = rest := drop_next hdrop
    rcases hrest : rest with _ | ⟨c, r⟩
    · subst hrest
      rw [get?_none_of_drop hdr]
      rfl
    · subst hrest
      rw [get?_of_drop hdr]
      unfold SafeAfterType at hsafe
      simp only [List.head?_cons] at hsafe
      simp [hsafe.2, GoRes_pure]
termination_by 3 * tSize t + 1
decreasing_by all_goals
  first
    | omega
    | (simp [tSize_strukt, tSize_array, oSize_some, fsSize_cons]; omega)
    | simp [tSize_strukt, tSize_array, oSize_some, fsSize_cons]

theorem readFieldsF_parse (fs : Fields) :
    ∀ (ml : Bool) (inp : Str) (acc : Fields) (lead : List SkipItem)
      (fuel p : Nat) (lc ft rest : Str),
    wfFields ml fs = true → fs ≠ .nil →
    fieldsTail ml fs = Option.some ft →
    (∀ it ∈ lead, it = SkipItem.sp ∨ it = SkipItem.nl) →
    inp.drop p = itemsChars lead ++ (ft ++ ((if ml then ['\n'] else []) ++ (')' :: rest))) →
    p ≤ inp.length →
    fsSize fs + 1 ≤ fuel →
    ∃ lc2, readFieldsF inp fuel acc ⟨p, lc⟩ =
      .ok (OptTy.some (.strukt (Fields.appendF acc fs)),
        ⟨p + (itemsChars lead).length + ft.length + (if ml then 1 else 0) + 1, lc2⟩) := by
  cases fs with
  | nil => intro ml inp acc lead fuel p lc ft rest hwf hne; exact absurd rfl hne
  | cons n t r =>
    intro ml inp acc lead fuel p lc ft rest hwf hne hft hlead hdrop hp hfuel
    obtain ⟨f, rfl⟩ : ∃ f, fuel = f + 1 := ⟨fuel - 1, by omega⟩
    simp only [wfFields, Bool.and_eq_true] at hwf
    obtain ⟨⟨hn, hwt⟩, hwr⟩ := hwf
    rcases n with _ | ⟨c0, cs0⟩
    · simp [wfFieldName] at hn
    simp only [wfFieldName, Bool.and_eq_true] at hn
    obtain ⟨hc0, hcs0⟩ := hn
    have hftc := fieldsTail_cons ml (c0 :: cs0) t r
    rcases hrt : renderType ml t with _ | rt
    · rw [hftc, hrt] at hft
      simp at hft
    rcases hftr : fieldsTail ml r with _ | ftr
    · rw [hrt, hftr] at hftc
      rw [hftc] at hft
      simp at hft
    rw [hrt, hftr] at hftc
    simp only [Option.some_bind] at hftc
    have hftShape := Option.some.inj (hftc.symm.trans hft)
    obtain ⟨tc, tcs, hrtEq, hcls, hszT⟩ := renderType_total t ml hwt
    have hrtHead : rt = tc :: tcs := Option.some.inj (hrt.symm.trans hrtEq)
    have hgood : ∀ it ∈ lead, goodItemP it := by
      intro it hit
      rcases hlead it hit with rfl | rfl <;> trivial
    have hfs9 : fsSize (Fields.cons (c0 :: cs0) t r) = 4 + tSize t + fsSize r := rfl
    rcases r with _ | ⟨n2, t2, r2⟩
    · -- the last field
      have hftS : (c0 :: cs0) ++ ':' :: ' ' :: (rt ++ ([] : Str)) = ft := hftShape
      have hfs8 : fsSize (Fields.cons (c0 :: cs0) t Fields.nil) =
          4 + tSize t + fsSize Fields.nil := hfs9
      have hheadA : ∀ c, (ft ++ ((if ml then ['\n'] else []) ++ (')' :: rest))).head? =
          Option.some c → NonSkipHead c := by
        rw [← hftS]
        intro c hc
        simp only [List.cons_append, List.head?_cons, Option.some.injEq] at hc
        subst hc
        exact fieldStart_nonskip hc0
      have hnerA : (ft ++ ((if ml then ['\n'] else []) ++ (')' :: rest))).isEmpty = false := by
        rw [← hftS]
        rfl
      have hadv1 : advanceA inp ⟨p, lc⟩ = GoRes.ok (true,
          ⟨p + (itemsChars lead).length, itemsLC lead lc⟩) := by
        have h := @advanceA_items inp lead p lc
          (ft ++ ((if ml then ['\n'] else []) ++ (')' :: rest))) hdrop hgood hp hheadA
        rw [h]
        simp [hnerA]
      have hdp1 : inp.drop (p + (itemsChars lead).length) =
          ft ++ ((if ml then ['\n'] else []) ++ (')' :: rest)) := drop_next hdrop
      have hp1 : p + (itemsChars lead).length ≤ inp.length := pos_next_le hdrop hp
      have hdp1b : inp.drop (p + (itemsChars lead).length) =
          (c0 :: cs0) ++ (':' :: ' ' :: ((rt ++ ([] : Str)) ++ ((if ml then ['\n'] else []) ++ (')' :: rest)))) := by
        rw [hdp1, ← hftS]
        simp [List.append_assoc]
      have hname : readFieldName inp ⟨p + (itemsChars lead).length, itemsLC lead lc⟩ =
          GoRes.ok (c0 :: cs0, ⟨p + (itemsChars lead).length + (c0 :: cs0).length, itemsLC lead lc⟩) :=
        readFieldName_spec hdp1b hp1 hc0
          (fun d hd => List.all_eq_true.mp hcs0 d hd)
          (by
            unfold NotHead
            simp only [List.cons_append, List.head?_cons]
            exact (show isFieldChar ':' = false by decide))
      have hp2 : p + (itemsChars lead).length + (c0 :: cs0).length ≤ inp.length := pos_next_le hdp1b hp1
      have hdp2 : inp.drop (p + (itemsChars lead).length + (c0 :: cs0).length) =
          ':' :: ' ' :: ((rt ++ ([] : Str)) ++ ((if ml then ['\n'] else []) ++ (')' :: rest))) := drop_next hdp1b
      have hadv2 : advanceA inp ⟨p + (itemsChars lead).length + (c0 :: cs0).length, itemsLC lead lc⟩ =
          GoRes.ok (true, ⟨p + (itemsChars lead).length + (c0 :: cs0).length, itemsLC lead lc⟩) := by
        have hdX : inp.drop (p + (itemsChars lead).length + (c0 :: cs0).length) =
            itemsChars [] ++ (':' :: ' ' :: ((rt ++ ([] : Str)) ++ ((if ml then ['\n'] else []) ++ (')' :: rest)))) := by
          simpa [itemsChars] using hdp2
        have h := @advanceA_items inp []
          (p + (itemsChars lead).length + (c0 :: cs0).length) (itemsLC lead lc)
          (':' :: ' ' :: ((rt ++ ([] : Str)) ++ ((if ml then ['\n'] else []) ++ (')' :: rest))))
          hdX (by intro it hit; simp at hit) hp2
          (by
            intro c hc
            simp only [List.head?_cons, Option.some.injEq] at hc
            subst hc
            exact ⟨by decide, by decide, by decide⟩)
        simpa [itemsChars, itemsLC] using h
      have hdp3 : inp.drop (p + (itemsChars lead).length + (c0 :: cs0).length + 1) =
          ' ' :: ((rt ++ ([] : Str)) ++ ((if ml then ['\n'] else []) ++ (')' :: rest))) :=
        drop_cons hdp2
      have hp3 : p + (itemsChars lead).length + (c0 :: cs0).length + 1 ≤ inp.length :=
        le_cons hdp2 hp2
      have hner3 : ((rt ++ ([] : Str)) ++ ((if ml then ['\n'] else []) ++ (')' :: rest))).isEmpty = false := by
        rw [hrtHead]
        rfl
      have hadv3 : advanceA inp ⟨p + (itemsChars lead).length + (c0 :: cs0).length + 1, itemsLC lead lc⟩ =
          GoRes.ok (true, ⟨p + (itemsChars lead).length + (c0 :: cs0).length + 1 + 1, itemsLC lead lc⟩) := by
        have hdX : inp.drop (p + (itemsChars lead).length + (c0 :: cs0).length + 1) =
            itemsChars [SkipItem.sp] ++ ((rt ++ ([] : Str)) ++ ((if ml then ['\n'] else []) ++ (')' :: rest))) := by
          simpa [itemsChars, itemChars] using hdp3
        have h := @advanceA_items inp [SkipItem.sp]
          (p + (itemsChars lead).length + (c0 :: cs0).length + 1) (itemsLC lead lc)
          ((rt ++ ([] : Str)) ++ ((if ml then ['\n'] else []) ++ (')' :: rest)))
          hdX (by intro it hit; simp at hit; subst hit; trivial) hp3
          (by
            intro c hc
            rw [hrtHead] at hc
            simp only [List.cons_append, List.append_assoc, List.head?_cons,
              Option.some.injEq] at hc
            subst hc
            exact alnum_nonskip hcls)
        rw [h]
        simp [hner3, itemsChars, itemChars, itemsLC, itemStepLC]
      have hdropT : inp.drop (p + (itemsChars lead).length + (c0 :: cs0).length + 1 + 1) =
          rt ++ (([] : Str) ++ ((if ml then ['\n'] else []) ++ (')' :: rest))) := by
        have h := drop_cons hdp3
        simpa [List.append_assoc] using h
      have hpT : p + (itemsChars lead).length + (c0 :: cs0).length + 1 + 1 ≤ inp.length :=
        le_cons hdp3 hp3
      have hfuelT : tSize t + 3 ≤ f := by omega

      have hsafeT : SafeAfterType (([] : Str) ++ ((if ml then ['\n'] else []) ++ (')' :: rest))) := by
        rcases ml
        · exact (show isAlnumChar ')' = false ∧ (')' : Char) ≠ '[' by decide)
        · exact (show isAlnumChar '\n' = false ∧ ('\n' : Char) ≠ '[' by decide)
      obtain ⟨lcT, hT⟩ := readTypeF_parse t ml inp rt
        (([] : Str) ++ ((if ml then ['\n'] else []) ++ (')' :: rest))) f
        (p + (itemsChars lead).length + (c0 :: cs0).length + 1 + 1) (itemsLC lead lc) hwt hrt hdropT hpT hsafeT hfuelT
      have hdp5 : inp.drop (p + (itemsChars lead).length + (c0 :: cs0).length + 1 + 1 + rt.length) =
          ([] : Str) ++ ((if ml then ['\n'] else []) ++ (')' :: rest)) := drop_next hdropT
      have hp5 : p + (itemsChars lead).length + (c0 :: cs0).length + 1 + 1 + rt.length ≤ inp.length := pos_next_le hdropT hpT
      rcases hml9 : ml
      · -- single line: the close paren follows directly
        subst hml9
        have hdp5b : inp.drop (p + (itemsChars lead).length + (c0 :: cs0).length + 1 + 1 + rt.length) = ')' :: rest := by simpa using hdp5
        have hadv4 : advanceA inp ⟨p + (itemsChars lead).length + (c0 :: cs0).length + 1 + 1 + rt.length, lcT⟩ =
            GoRes.ok (true, ⟨p + (itemsChars lead).length + (c0 :: cs0).length + 1 + 1 + rt.length, lcT⟩) := by
          have hdX : inp.drop (p + (itemsChars lead).length + (c0 :: cs0).length + 1 + 1 + rt.length) =
              itemsChars [] ++ (')' :: rest) := by simpa [itemsChars] using hdp5b
          have h := @advanceA_items inp []
            (p + (itemsChars lead).length + (c0 :: cs0).length + 1 + 1 + rt.length) lcT
            (')' :: rest)
            hdX (by intro it hit; simp at hit) hp5
            (by
              intro c hc
              simp only [List.head?_cons, Option.some.injEq] at hc
              subst hc
              exact ⟨by decide, by decide, by decide⟩)
          simpa [itemsChars, itemsLC] using h
        refine ⟨lcT, ?_⟩
        simp only [readFieldsF]
        rw [hadv1]
        simp only [GoRes_bind_ok, GoRes_bind_ok2]
        rw [hname]
        simp only [GoRes_bind_ok, GoRes_bind_ok2]
        rw [if_neg (show ¬((c0 :: cs0 : Str) = []) by simp)]
        rw [hadv2]
        simp only [GoRes_bind_ok, GoRes_bind_ok2]
        rw [get?_of_drop hdp2]
        simp only [GoRes_bind_ok, GoRes_bind_ok2]
        rw [hadv3]
        simp only [GoRes_bind_ok, GoRes_bind_ok2]
        rw [hT]
        simp only [GoRes_bind_ok, GoRes_bind_ok2]
        rw [hadv4]
        simp only [GoRes_bind_ok, GoRes_bind_ok2]
        rw [get?_of_drop hdp5b]
        rw [show Fields.appendF acc (Fields.cons (c0 :: cs0) t Fields.nil) =
          Fields.snoc acc (c0 :: cs0) t from rfl]
        rw [← hftS]
        simp [GoRes_bind_ok, GoRes_bind_ok2, GoRes_pure, List.length_append]
        try omega
      · -- multiline: a newline precedes the close paren
        subst hml9
        have hdp5b : inp.drop (p + (itemsChars lead).length + (c0 :: cs0).length + 1 + 1 + rt.length) = '\n' :: (')' :: rest) := by
          simpa using hdp5
        have hdp6 : inp.drop (p + (itemsChars lead).length + (c0 :: cs0).length + 1 + 1 + rt.length + 1) = ')' :: rest :=
          drop_cons hdp5b
        have hadv4 : advanceA inp ⟨p + (itemsChars lead).length + (c0 :: cs0).length + 1 + 1 + rt.length, lcT⟩ =
            GoRes.ok (true, ⟨p + (itemsChars lead).length + (c0 :: cs0).length + 1 + 1 + rt.length + 1, []⟩) := by
          have hdX : inp.drop (p + (itemsChars lead).length + (c0 :: cs0).length + 1 + 1 + rt.length) =
              itemsChars [SkipItem.nl] ++ (')' :: rest) := by
            simpa [itemsChars, itemChars] using hdp5b
          have h := @advanceA_items inp [SkipItem.nl]
            (p + (itemsChars lead).length + (c0 :: cs0).length + 1 + 1 + rt.length) lcT
            (')' :: rest)
            hdX (by intro it hit; simp at hit; subst hit; trivial) hp5
            (by
              intro c hc
              simp only [List.head?_cons, Option.some.injEq] at hc
              subst hc
              exact ⟨by decide, by decide, by decide⟩)
          rw [h]
          simp [itemsChars, itemChars, itemsLC, itemStepLC]
        refine ⟨[], ?_⟩
        simp only [readFieldsF]
        rw [hadv1]
        simp only [GoRes_bind_ok, GoRes_bind_ok2]
        rw [hname]
        simp only [GoRes_bind_ok, GoRes_bind_ok2]
        rw [if_neg (show ¬((c0 :: cs0 : Str) = []) by simp)]
        rw [hadv2]
        simp only [GoRes_bind_ok, GoRes_bind_ok2]
        rw [get?_of_drop hdp2]
        simp only [GoRes_bind_ok, GoRes_bind_ok2]
        rw [hadv3]
        simp only [GoRes_bind_ok, GoRes_bind_ok2]
        rw [hT]
        simp only [GoRes_bind_ok, GoRes_bind_ok2]
        rw [hadv4]
        simp only [GoRes_bind_ok, GoRes_bind_ok2]
        rw [get?_of_drop hdp6]
        rw [show Fields.appendF acc (Fields.cons (c0 :: cs0) t Fields.nil) =
          Fields.snoc acc (c0 :: cs0) t from rfl]
        rw [← hftS]
        simp [GoRes_bind_ok, GoRes_bind_ok2, GoRes_pure, List.length_append]
        try omega
    · -- more fields follow: a separator then the loop continues
      have hftS : (c0 :: cs0) ++ ':' :: ' ' :: (rt ++ (sepInd ml ++ ftr)) = ft := hftShape
      have hheadA : ∀ c, (ft ++ ((if ml then ['\n'] else []) ++ (')' :: rest))).head? =
          Option.some c → NonSkipHead c := by
        rw [← hftS]
        intro c hc
        simp only [List.cons_append, List.head?_cons, Option.some.injEq] at hc
        subst hc
        exact fieldStart_nonskip hc0
      have hnerA : (ft ++ ((if ml then ['\n'] else []) ++ (')' :: rest))).isEmpty = false := by
        rw [← hftS]
        rfl
      have hadv1 : advanceA inp ⟨p, lc⟩ = GoRes.ok (true,
          ⟨p + (itemsChars lead).length, itemsLC lead lc⟩) := by
        have h := @advanceA_items inp lead p lc
          (ft ++ ((if ml then ['\n'] else []) ++ (')' :: rest))) hdrop hgood hp hheadA
        rw [h]
        simp [hnerA]
      have hdp1 : inp.drop (p + (itemsChars lead).length) =
          ft ++ ((if ml then ['\n'] else []) ++ (')' :: rest)) := drop_next hdrop
      have hp1 : p + (itemsChars lead).length ≤ inp.length := pos_next_le hdrop hp
      have hdp1b : inp.drop (p + (itemsChars lead).length) =
          (c0 :: cs0) ++ (':' :: ' ' :: ((rt ++ (sepInd ml ++ ftr)) ++ ((if ml then ['\n'] else []) ++ (')' :: rest)))) := by
        rw [hdp1, ← hftS]
        simp [List.append_assoc]
      have hname : readFieldName inp ⟨p + (itemsChars lead).length, itemsLC lead lc⟩ =
          GoRes.ok (c0 :: cs0, ⟨p + (itemsChars lead).length + (c0 :: cs0).length, itemsLC lead lc⟩) :=
        readFieldName_spec hdp1b hp1 hc0
          (fun d hd => List.all_eq_true.mp hcs0 d hd)
          (by
            unfold NotHead
            simp only [List.cons_append, List.head?_cons]
            exact (show isFieldChar ':' = false by decide))
      have hp2 : p + (itemsChars lead).length + (c0 :: cs0).length ≤ inp.length := pos_next_le hdp1b hp1
      have hdp2 : inp.drop (p + (itemsChars lead).length + (c0 :: cs0).length) =
          ':' :: ' ' :: ((rt ++ (sepInd ml ++ ftr)) ++ ((if ml then ['\n'] else []) ++ (')' :: rest))) := drop_next hdp1b
      have hadv2 : advanceA inp ⟨p + (itemsChars lead).length + (c0 :: cs0).length, itemsLC lead lc⟩ =
          GoRes.ok (true, ⟨p + (itemsChars lead).length + (c0 :: cs0).length, itemsLC lead lc⟩) := by
        have hdX : inp.drop (p + (itemsChars lead).length + (c0 :: cs0).length) =
            itemsChars [] ++ (':' :: ' ' :: ((rt ++ (sepInd ml ++ ftr)) ++ ((if ml then ['\n'] else []) ++ (')' :: rest)))) := by
          simpa [itemsChars] using hdp2
        have h := @advanceA_items inp []
          (p + (itemsChars lead).length + (c0 :: cs0).length) (itemsLC lead lc)
          (':' :: ' ' :: ((rt ++ (sepInd ml ++ ftr)) ++ ((if ml then ['\n'] else []) ++ (')' :: rest))))
          hdX (by intro it hit; simp at hit) hp2
          (by
            intro c hc
            simp only [List.head?_cons, Option.some.injEq] at hc
            subst hc
            exact ⟨by decide, by decide, by decide⟩)
        simpa [itemsChars, itemsLC] using h
      have hdp3 : inp.drop (p + (itemsChars lead).length + (c0 :: cs0).length + 1) =
          ' ' :: ((rt ++ (sepInd ml ++ ftr)) ++ ((if ml then ['\n'] else []) ++ (')' :: rest))) :=
        drop_cons hdp2
      have hp3 : p + (itemsChars lead).length + (c0 :: cs0).length + 1 ≤ inp.length :=
        le_cons hdp2 hp2
      have hner3 : ((rt ++ (sepInd ml ++ ftr)) ++ ((if ml then ['\n'] else []) ++ (')' :: rest))).isEmpty = false := by
        rw [hrtHead]
        rfl
      have hadv3 : advanceA inp ⟨p + (itemsChars lead).length + (c0 :: cs0).length + 1, itemsLC lead lc⟩ =
          GoRes.ok (true, ⟨p + (itemsChars lead).length + (c0 :: cs0).length + 1 + 1, itemsLC lead lc⟩) := by
        have hdX : inp.drop (p + (itemsChars lead).length + (c0 :: cs0).length + 1) =
            itemsChars [SkipItem.sp] ++ ((rt ++ (sepInd ml ++ ftr)) ++ ((if ml then ['\n'] else []) ++ (')' :: rest))) := by
          simpa [itemsChars, itemChars] using hdp3
        have h := @advanceA_items inp [SkipItem.sp]
          (p + (itemsChars lead).length + (c0 :: cs0).length + 1) (itemsLC lead lc)
          ((rt ++ (sepInd ml ++ ftr)) ++ ((if ml then ['\n'] else []) ++ (')' :: rest)))
          hdX (by intro it hit; simp at hit; subst hit; trivial) hp3
          (by
            intro c hc
            rw [hrtHead] at hc
            simp only [List.cons_append, List.append_assoc, List.head?_cons,
              Option.some.injEq] at hc
            subst hc
            exact alnum_nonskip hcls)
        rw [h]
        simp [hner3, itemsChars, itemChars, itemsLC, itemStepLC]
      have hdropT : inp.drop (p + (itemsChars lead).length + (c0 :: cs0).length + 1 + 1) =
          rt ++ ((sepInd ml ++ ftr) ++ ((if ml then ['\n'] else []) ++ (')' :: rest))) := by
        have h := drop_cons hdp3
        simpa [List.append_assoc] using h
      have hpT : p + (itemsChars lead).length + (c0 :: cs0).length + 1 + 1 ≤ inp.length :=
        le_cons hdp3 hp3
      have hfuelT : tSize t + 3 ≤ f := by omega

      have hsafeT : SafeAfterType ((sepInd ml ++ ftr) ++ ((if ml then ['\n'] else []) ++ (')' :: rest))) := by
        rcases ml
        · exact (show isAlnumChar ',' = false ∧ (',' : Char) ≠ '[' by decide)
        · exact (show isAlnumChar ',' = false ∧ (',' : Char) ≠ '[' by decide)
      obtain ⟨lcT, hT⟩ := readTypeF_parse t ml inp rt
        ((sepInd ml ++ ftr) ++ ((if ml then ['\n'] else []) ++ (')' :: rest))) f
        (p + (itemsChars lead).length + (c0 :: cs0).length + 1 + 1) (itemsLC lead lc) hwt hrt hdropT hpT hsafeT hfuelT
      have hdp5 : inp.drop (p + (itemsChars lead).length + (c0 :: cs0).length + 1 + 1 + rt.length) =
          (sepInd ml ++ ftr) ++ ((if ml then ['\n'] else []) ++ (')' :: rest)) := drop_next hdropT
      have hp5 : p + (itemsChars lead).length + (c0 :: cs0).length + 1 + 1 + rt.length ≤ inp.length := pos_next_le hdropT hpT
      have hfuelR : fsSize (Fields.cons n2 t2 r2) + 1 ≤ f := by omega
      have hner2 : (Fields.cons n2 t2 r2) ≠ Fields.nil := by simp
      rcases hml9 : ml
      · -- single line: comma and space separate the fields
        subst hml9
        have hdp5b : inp.drop (p + (itemsChars lead).length + (c0 :: cs0).length + 1 + 1 + rt.length) =
            ',' :: (' ' :: (ftr ++ (')' :: rest))) := by
          simpa [sepInd, List.append_assoc] using hdp5
        have hadv4 : advanceA inp ⟨p + (itemsChars lead).length + (c0 :: cs0).length + 1 + 1 + rt.length, lcT⟩ =
            GoRes.ok (true, ⟨p + (itemsChars lead).length + (c0 :: cs0).length + 1 + 1 + rt.length, lcT⟩) := by
          have hdX : inp.drop (p + (itemsChars lead).length + (c0 :: cs0).length + 1 + 1 + rt.length) =
              itemsChars [] ++ (',' :: (' ' :: (ftr ++ (')' :: rest)))) := by
            simpa [itemsChars] using hdp5b
          have h := @advanceA_items inp []
            (p + (itemsChars lead).length + (c0 :: cs0).length + 1 + 1 + rt.length) lcT
            (',' :: (' ' :: (ftr ++ (')' :: rest))))
            hdX (by intro it hit; simp at hit) hp5
            (by
              intro c hc
              simp only [List.head?_cons, Option.some.injEq] at hc
              subst hc
              exact ⟨by decide, by decide, by decide⟩)
          simpa [itemsChars, itemsLC] using h
        have hdropR : inp.drop (p + (itemsChars lead).length + (c0 :: cs0).length + 1 + 1 + rt.length + 1) =
            itemsChars [SkipItem.sp] ++ (ftr ++
              ((if false then ['\n'] else []) ++ (')' :: rest))) := by
          have h := drop_cons hdp5b
          simpa [itemsChars, itemChars] using h
        have hpR : p + (itemsChars lead).length + (c0 :: cs0).length + 1 + 1 + rt.length + 1 ≤ inp.length :=
          le_cons hdp5b hp5
        obtain ⟨lc2, hloop⟩ :=
          readFieldsF_parse (.cons n2 t2 r2) false inp (Fields.snoc acc (c0 :: cs0) t)
            [SkipItem.sp] f (p + (itemsChars lead).length + (c0 :: cs0).length + 1 + 1 + rt.length + 1) lcT ftr rest hwr hner2 hftr
            (by intro it hit; simp at hit; subst hit; exact Or.inl rfl)
            hdropR hpR hfuelR
        refine ⟨lc2, ?_⟩
        simp only [readFieldsF]
        rw [hadv1]
        simp only [GoRes_bind_ok, GoRes_bind_ok2]
        rw [hname]
        simp only [GoRes_bind_ok, GoRes_bind_ok2]
        rw [if_neg (show ¬((c0 :: cs0 : Str) = []) by simp)]
        rw [hadv2]
        simp only [GoRes_bind_ok, GoRes_bind_ok2]
        rw [get?_of_drop hdp2]
        simp only [GoRes_bind_ok, GoRes_bind_ok2]
        rw [hadv3]
        simp only [GoRes_bind_ok, GoRes_bind_ok2]
        rw [hT]
        simp only [GoRes_bind_ok, GoRes_bind_ok2]
        rw [hadv4]
        simp only [GoRes_bind_ok, GoRes_bind_ok2]
        rw [get?_of_drop hdp5b]
        simp only [GoRes_bind_ok, GoRes_bind_ok2]
        rw [hloop]
        rw [appendF_cons_eq]
        rw [← hftS]
        simp [GoRes_bind_ok, GoRes_bind_ok2, GoRes_pure, sepInd, itemsChars, itemChars,
          List.length_append]
        first
          | omega
          | exact ⟨rfl, by omega⟩
          | (refine ⟨?_, ?_⟩ <;> first | rfl | omega)
      · -- multiline: comma, newline and indentation separate the fields
        subst hml9
        have hdp5b : inp.drop (p + (itemsChars lead).length + (c0 :: cs0).length + 1 + 1 + rt.length) =
            ',' :: ('\n' :: (' ' :: (' ' :: (ftr ++ ('\n' :: (')' :: rest)))))) := by
          simpa [sepInd, List.append_assoc] using hdp5
        have hadv4 : advanceA inp ⟨p + (itemsChars lead).length + (c0 :: cs0).length + 1 + 1 + rt.length, lcT⟩ =
            GoRes.ok (true, ⟨p + (itemsChars lead).length + (c0 :: cs0).length + 1 + 1 + rt.length, lcT⟩) := by
          have hdX : inp.drop (p + (itemsChars lead).length + (c0 :: cs0).length + 1 + 1 + rt.length) =
              itemsChars [] ++ (',' :: ('\n' :: (' ' :: (' ' ::
                (ftr ++ ('\n' :: (')' :: rest))))))) := by
            simpa [itemsChars] using hdp5b
          have h := @advanceA_items inp []
            (p + (itemsChars lead).length + (c0 :: cs0).length + 1 + 1 + rt.length) lcT
            (',' :: ('\n' :: (' ' :: (' ' :: (ftr ++ ('\n' :: (')' :: rest)))))))
            hdX (by intro it hit; simp at hit) hp5
            (by
              intro c hc
              simp only [List.head?_cons, Option.some.injEq] at hc
              subst hc
              exact ⟨by decide, by decide, by decide⟩)
          simpa [itemsChars, itemsLC] using h
        have hdropR : inp.drop (p + (itemsChars lead).length + (c0 :: cs0).length + 1 + 1 + rt.length + 1) =
            itemsChars [SkipItem.nl, SkipItem.sp, SkipItem.sp] ++ (ftr ++
              ((if true then ['\n'] else []) ++ (')' :: rest))) := by
          have h := drop_cons hdp5b
          simpa [itemsChars, itemChars, List.append_assoc] using h
        have hpR : p + (itemsChars lead).length + (c0 :: cs0).length + 1 + 1 + rt.length + 1 ≤ inp.length :=
          le_cons hdp5b hp5
        obtain ⟨lc2, hloop⟩ :=
          readFieldsF_parse (.cons n2 t2 r2) true inp (Fields.snoc acc (c0 :: cs0) t)
            [SkipItem.nl, SkipItem.sp, SkipItem.sp] f (p + (itemsChars lead).length + (c0 :: cs0).length + 1 + 1 + rt.length + 1) lcT ftr rest
            hwr hner2 hftr
            (by
              intro it hit
              simp only [List.mem_cons, List.not_mem_nil, or_false] at hit
              rcases hit with rfl | rfl | rfl
              · exact Or.inr rfl
              · exact Or.inl rfl
              · exact Or.inl rfl)
            hdropR hpR hfuelR
        refine ⟨lc2, ?_⟩
        simp only [readFieldsF]
        rw [hadv1]
        simp only [GoRes_bind_ok, GoRes_bind_ok2]
        rw [hname]
        simp only [GoRes_bind_ok, GoRes_bind_ok2]
        rw [if_neg (show ¬((c0 :: cs0 : Str) = []) by simp)]
        rw [hadv2]
        simp only [GoRes_bind_ok, GoRes_bind_ok2]
        rw [get?_of_drop hdp2]
        simp only [GoRes_bind_ok, GoRes_bind_ok2]
        rw [hadv3]
        simp only [GoRes_bind_ok, GoRes_bind_ok2]
        rw [hT]
        simp only [GoRes_bind_ok, GoRes_bind_ok2]
        rw [hadv4]
        simp only [GoRes_bind_ok, GoRes_bind_ok2]
        rw [get?_of_drop hdp5b]
        simp only [GoRes_bind_ok, GoRes_bind_ok2]
        rw [hloop]
        rw [appendF_cons_eq]
        rw [← hftS]
        simp [GoRes_bind_ok, GoRes_bind_ok2, GoRes_pure, sepInd, itemsChars, itemChars,
          List.length_append]
        first
          | omega
          | exact ⟨rfl, by omega⟩
          | (refine ⟨?_, ?_⟩ <;> first | rfl | omega)
termination_by 3 * fsSize fs
decreasing_by all_goals
  first
    | omega
    | (simp [tSize_strukt, tSize_array, oSize_some, fsSize_cons]; omega)
    | simp [tSize_strukt, tSize_array, oSize_some, fsSize_cons]

end

theorem renderType_paren (t : GoType) : ∀ (ml : Bool) (rt : Str), startsParen t = true →
    renderType ml t = Option.some rt → ∃ z, rt = '(' :: z := by
  rcases t with _ | _ | _ | _ | e | fs | nm
  · intro ml rt hsp
    simp [startsParen] at hsp
  · intro ml rt hsp
    simp [startsParen] at hsp
  · intro ml rt hsp
    simp [startsParen] at hsp
  · intro ml rt hsp
    simp [startsParen] at hsp
  · intro ml rt hsp hrend
    rcases e with _ | b
    · simp [startsParen] at hsp
    · have hsp2 : startsParen b = true := hsp
      unfold renderType renderOptTy at hrend
      rcases hrb : renderType ml b with _ | rb
      · rw [hrb] at hrend
        simp at hrend
      · rw [hrb] at hrend
        simp only [Option.bind_eq_bind, Option.some_bind, Option.pure_def,
          Option.some.injEq] at hrend
        obtain ⟨z, hz⟩ := renderType_paren b ml rb hsp2 hrb
        refine ⟨z ++ ['[', ']'], ?_⟩
        rw [← hrend, hz]
        rfl
  · intro ml rt hsp hrend
    unfold renderType at hrend
    rcases hb : renderFieldsAux ml true fs with _ | body
    · rw [hb] at hrend
      simp at hrend
    · rw [hb] at hrend
      simp only [Option.bind_eq_bind, Option.some_bind, Option.pure_def,
        Option.some.injEq] at hrend
      exact ⟨_, hrend.symm⟩
  · intro ml rt hsp
    simp [startsParen] at hsp
termination_by tSize t
decreasing_by all_goals
  first
    | omega
    | (simp [tSize_array, oSize_some]; omega)
    | simp [tSize_array, oSize_some]

/-- A character at which readType immediately fails sideways: the keyword
and name scans read nothing and the struct branch sees no parenthesis, so
the Go readType returns the nil type at the original position. -/
theorem readTypeF_none (inp rest : Str) (fuel p : Nat) (lc : Str)
    (hdrop : inp.drop p = rest) (hp : p ≤ inp.length)
    (hhead : ∀ c r2, rest = c :: r2 → isAlnumChar c = false ∧ c ≠ '(')
    (hfuel : 3 ≤ fuel) :
    readTypeF inp fuel ⟨p, lc⟩ = .ok (OptTy.none, ⟨p, lc⟩) := by
  obtain ⟨f, rfl⟩ : ∃ f, fuel = f + 1 := ⟨fuel - 1, by omega⟩
  obtain ⟨f2, rfl⟩ : ∃ f2, f = f2 + 1 := ⟨f - 1, by omega⟩
  obtain ⟨f3, rfl⟩ : ∃ f3, f2 = f3 + 1 := ⟨f2 - 1, by omega⟩
  have hstopL : NotHead isLowerAZ rest := by
    rcases hrest : rest with _ | ⟨c, r2⟩
    · trivial
    · unfold NotHead
      simp only [List.head?_cons]
      have h2 := (hhead c r2 hrest).1
      rcases h3 : isLowerAZ c
      · rfl
      · rw [lower_alnum h3] at h2
        exact absurd h2 (by decide)
  have hstopA : NotHead isAlnumChar rest := by
    rcases hrest : rest with _ | ⟨c, r2⟩
    · trivial
    · unfold NotHead
      simp only [List.head?_cons]
      exact (hhead c r2 hrest).1
  have hkw : readKeyword inp ⟨p, lc⟩ = GoRes.ok (([] : Str), ⟨p, lc⟩) := by
    have h := @readKeyword_spec inp [] rest p lc (by simpa using hdrop) hp (by simp) hstopL
    simpa using h
  have htn : readTypeName inp ⟨p, lc⟩ = GoRes.ok (([] : Str), ⟨p, lc⟩) := by
    have h := @readTypeName_spec inp [] rest p lc (by simpa using hdrop) hp (by simp) hstopA
    simpa using h
  simp only [readTypeF, readTypeBase]
  rw [hkw]
  simp only [GoRes_bind_ok]
  rw [if_pos trivial, htn]
  simp only [GoRes_bind_ok]
  rw [if_pos trivial]
  simp only [readStructTypeF]
  rcases hrest : rest with _ | ⟨c, r2⟩
  · subst hrest
    rw [get?_none_of_drop hdrop]
    rfl
  · subst hrest
    rw [get?_of_drop hdrop]
    have hc2 := (hhead c r2 rfl).2
    simp [hc2, GoRes_pure, GoRes_bind_ok, GoRes_bind_ok2]

theorem renderMember_alias_eq (a : TypeAliasR) :
    renderMember (.alias a) = (renderType true a.ty).bind fun rt =>
      Option.some (renderComment a.description ++ String.toList "type " ++ a.name ++
        ' ' :: rt) := rfl

theorem renderMember_method_eq (m : MethodR) :
    renderMember (.method m) = (renderType false m.tin).bind fun ri =>
      (renderType false m.tout).bind fun ro =>
        Option.some (renderComment m.description ++ String.toList "method " ++ m.name ++
          ri ++ String.toList " -> " ++ ro) := rfl

theorem renderMember_err_none_eq (nm dsc : Str) :
    renderMember (.err ⟨nm, dsc, .none⟩) =
      Option.some (renderComment dsc ++ String.toList "error " ++ nm ++ []) := rfl

theorem renderMember_err_some_eq (nm dsc : Str) (t : GoType) :
    renderMember (.err ⟨nm, dsc, .some t⟩) =
      (renderType true t).bind fun rt =>
        Option.some (renderComment dsc ++ String.toList "error " ++ nm ++ ' ' :: rt) := rfl

/-- Rendering a well-formed member succeeds. -/
theorem renderMember_total (m : GoMember) (h : wfMember m = true) :
    ∃ rm, renderMember m = Option.some rm := by
  rcases m with a | me | e
  · simp only [wfMember, Bool.and_eq_true] at h
    obtain ⟨tc, tcs, hr, _, _⟩ := renderType_total a.ty true h.2
    exact ⟨_, by rw [renderMember_alias_eq, hr]; rfl⟩
  · simp only [wfMember, Bool.and_eq_true] at h
    obtain ⟨tc, tcs, hr1, _, _⟩ := renderType_total me.tin false h.1.1.2
    obtain ⟨tc2, tcs2, hr2, _, _⟩ := renderType_total me.tout false h.2
    exact ⟨_, by rw [renderMember_method_eq, hr1, hr2]; rfl⟩
  · obtain ⟨nm, dsc, ty⟩ := e
    simp only [wfMember, Bool.and_eq_true] at h
    rcases ty with _ | t
    · exact ⟨_, renderMember_err_none_eq nm dsc⟩
    · have hwt : wfType true t = true := h.2
      obtain ⟨tc, tcs, hr, _, _⟩ := renderType_total t true hwt
      exact ⟨_, by rw [renderMember_err_some_eq, hr]; rfl⟩

/-- Rendering a list of well-formed members succeeds elementwise. -/
theorem mapM_renderMember (ms : List GoMember) :
    (∀ m ∈ ms, wfMember m = true) →
    ∃ rms, ms.mapM renderMember = Option.some rms ∧
      List.Forall₂ (fun m rm => renderMember m = Option.some rm) ms rms := by
  induction ms with
  | nil => intro _; exact ⟨[], rfl, List.Forall₂.nil⟩
  | cons m ms ih =>
    intro hall
    obtain ⟨rm, hrm⟩ := renderMember_total m (hall m (by simp))
    obtain ⟨rms, hrms, hf2⟩ := ih (fun x hx => hall x (by simp [hx]))
    refine ⟨rm :: rms, ?_, List.Forall₂.cons hrm hf2⟩
    rw [List.mapM_cons, hrm, hrms]
    rfl

theorem itemsChars_append (xs ys : List SkipItem) :
    itemsChars (xs ++ ys) = itemsChars xs ++ itemsChars ys := by
  simp [itemsChars]

theorem itemsLC_append (xs ys : List SkipItem) (lc : Str) :
    itemsLC (xs ++ ys) lc = itemsLC ys (itemsLC xs lc) := by
  simp [itemsLC, List.foldl_append]

/-- The member separator: two newlines and the rendered comment block of the
next member.  parser.advance consumes them, leaving the comment buffer equal
to the description. -/
theorem member_sep_advance {inp : Str} (d : Str) {p : Nat} (lc : Str) {tail : Str}
    (hwd : wfDesc d = true)
    (hdrop : inp.drop p = '\n' :: ('\n' :: (renderComment d ++ tail)))
    (hp : p ≤ inp.length)
    (hne : tail ≠ [])
    (hhead : ∀ c r2, tail = c :: r2 → NonSkipHead c) :
    advanceA inp ⟨p, lc⟩ =
      GoRes.ok (true, ⟨p + (2 + (renderComment d).length), d⟩) ∧
    inp.drop (p + (2 + (renderComment d).length)) = tail ∧
    p + (2 + (renderComment d).length) ≤ inp.length := by
  have hx : inp.drop p = ('\n' :: '\n' :: renderComment d) ++ tail := by
    simpa using hdrop
  have hlen : ('\n' :: '\n' :: renderComment d).length = 2 + (renderComment d).length := by
    simp [List.length_cons]
    omega
  have hd1 := drop_next hx
  rw [hlen] at hd1
  have hple := pos_next_le hx hp
  rw [hlen] at hple
  have hdX : inp.drop p =
      itemsChars ([SkipItem.nl, SkipItem.nl] ++ commentItems d) ++ tail := by
    rw [itemsChars_append]
    rw [show itemsChars [SkipItem.nl, SkipItem.nl] = ['\n', '\n'] from rfl]
    rw [← renderComment_eq_items]
    simpa [List.append_assoc] using hdrop
  have hgood : ∀ it ∈ [SkipItem.nl, SkipItem.nl] ++ commentItems d, goodItemP it := by
    intro it hit
    rcases List.mem_append.mp hit with h | h
    · simp only [List.mem_cons, List.not_mem_nil, or_false] at h
      rcases h with rfl | rfl <;> trivial
    · exact commentItems_good d it h
  have hheadX : ∀ c, tail.head? = Option.some c → NonSkipHead c := by
    intro c hc
    rcases htail : tail with _ | ⟨c2, r2⟩
    · rw [htail] at hc
      simp at hc
    · rw [htail] at hc
      simp only [List.head?_cons, Option.some.injEq] at hc
      exact hc ▸ hhead c2 r2 htail
  have h := @advanceA_items inp ([SkipItem.nl, SkipItem.nl] ++ commentItems d) p lc tail
    hdX hgood hp hheadX
  have hlen2 : (itemsChars ([SkipItem.nl, SkipItem.nl] ++ commentItems d)).length =
      2 + (renderComment d).length := by
    rw [itemsChars_append]
    rw [show itemsChars [SkipItem.nl, SkipItem.nl] = ['\n', '\n'] from rfl]
    rw [← renderComment_eq_items]
    simp [List.length_append]
    omega
  have hlc : itemsLC ([SkipItem.nl, SkipItem.nl] ++ commentItems d) lc = d := by
    rw [itemsLC_append]
    rw [show itemsLC [SkipItem.nl, SkipItem.nl] lc = [] from rfl]
    exact itemsLC_commentItems d hwd
  have hbool : tail.isEmpty = false := by
    rcases htail : tail with _ | ⟨c2, r2⟩
    · exact absurd htail hne
    · rfl
  refine ⟨?_, hd1, hple⟩
  rw [h, hlen2, hlc, hbool]
  rfl

/-- The head of the remaining rendered member text is a newline. -/
theorem flatten_members_head (rms : List Str) :
    ∀ c r2, (rms.map (fun rm => '\n' :: '\n' :: rm)).flatten = c :: r2 → c = '\n' := by
  intro c r2 h
  rcases rms with _ | ⟨rm, rest⟩
  · simp at h
  · simp only [List.map_cons, List.flatten_cons, List.cons_append] at h
    injection h with h1 h2
    exact h1.symm

theorem safe_after_members (rms : List Str) :
    SafeAfterType ((rms.map (fun rm => '\n' :: '\n' :: rm)).flatten) := by
  rcases rms with _ | ⟨rm, rest⟩
  · exact trivial
  · exact (show isAlnumChar '\n' = false ∧ ('\n' : Char) ≠ '[' by decide)

theorem nohead_members (rms : List Str) :
    NotHead isAlnumChar ((rms.map (fun rm => '\n' :: '\n' :: rm)).flatten) := by
  rcases rms with _ | ⟨rm, rest⟩
  · exact trivial
  · exact (show isAlnumChar '\n' = false by decide)

/-- The member loop of readInterface re-reads rendered members: it ends at
the end of input with the members appended in order and the name and
description untouched. -/
theorem readMembersF_render (ms : List GoMember) :
    ∀ (inp : Str) (ifc : GoInterface) (rms : List Str) (fuel p : Nat) (lc : Str),
    (∀ m ∈ ms, wfMember m = true) →
    List.Forall₂ (fun m rm => renderMember m = Option.some rm) ms rms →
    inp.drop p = (rms.map (fun rm => '\n' :: '\n' :: rm)).flatten →
    2 ≤ p → p ≤ inp.length →
    ms.length + 1 ≤ fuel →
    ∃ j lc2, readMembersF inp fuel ifc ⟨p, lc⟩ =
        .ok (Option.some j, ⟨inp.length, lc2⟩) ∧
      j.name = ifc.name ∧ j.description = ifc.description ∧
      j.members = ifc.members ++ ms := by
  induction ms with
  | nil =>
    intro inp ifc rms fuel p lc hall hf2 hdrop hp2 hp hfuel
    obtain ⟨f, rfl⟩ : ∃ f, fuel = f + 1 := ⟨fuel - 1, by omega⟩
    cases hf2
    simp only [List.map_nil, List.flatten_nil] at hdrop
    have hpl : p = inp.length := by
      have h2 := congrArg List.length hdrop
      rw [List.length_drop] at h2
      simp at h2
      omega
    subst hpl
    refine ⟨ifc, lc, ?_, rfl, rfl, by simp⟩
    simp only [readMembersF]
    have hadv : advanceA inp ⟨inp.length, lc⟩ = GoRes.ok (false, ⟨inp.length, lc⟩) := by
      have h := @advanceA_items inp [] inp.length lc [] (by simpa [itemsChars] using hdrop)
        (by intro it hit; simp at hit) hp (by intro c hc; simp at hc)
      simpa [itemsChars, itemsLC] using h
    rw [hadv]
    rfl
  | cons m ms2 ih =>
    intro inp ifc rms fuel p lc hall hf2 hdrop hp2 hp hfuel
    obtain ⟨f, rfl⟩ : ∃ f, fuel = f + 1 := ⟨fuel - 1, by omega⟩
    obtain ⟨rm, rms2, rfl, hm, hf2t⟩ :
        ∃ rm rms2, rms = rm :: rms2 ∧ renderMember m = Option.some rm ∧
          List.Forall₂ (fun m rm => renderMember m = Option.some rm) ms2 rms2 := by
      cases hf2 with
      | cons h t => exact ⟨_, _, rfl, h, t⟩
    have hdropm : inp.drop p = ('\n' :: ('\n' :: rm)) ++
        (rms2.map (fun x => '\n' :: '\n' :: x)).flatten := by
      simpa using hdrop
    have hwm : wfMember m = true := hall m (by simp)
    have hall2 : ∀ x ∈ ms2, wfMember x = true := fun x hx => hall x (by simp [hx])
    have hfuel2 : ms2.length + 1 ≤ f := by
      simp only [List.length_cons] at hfuel
      omega
    rcases m with a | me | e
    · -- a type alias member
      rw [renderMember_alias_eq] at hm
      rcases hrt : renderType true a.ty with _ | rt
      · rw [hrt] at hm
        simp at hm
      rw [hrt] at hm
      simp only [Option.some_bind, Option.some.injEq] at hm
      simp only [wfMember, Bool.and_eq_true] at hwm
      obtain ⟨⟨hwn, hwd⟩, hwt⟩ := hwm
      obtain ⟨nc, ncs, hnc⟩ : ∃ nc ncs, a.name = nc :: ncs := by
        rcases hn2 : a.name with _ | ⟨nc, ncs⟩
        · rw [hn2] at hwn
          simp [wfTypeName] at hwn
        · exact ⟨nc, ncs, rfl⟩
      have hwnc : isAlnumChar nc = true ∧ ncs.all isAlnumChar = true := by
        rw [hnc] at hwn
        simpa [wfTypeName, Bool.and_eq_true] using hwn
      obtain ⟨tc, tcs, hrtEq, hcls, hszT⟩ := renderType_total a.ty true hwt
      have hrtH : rt = tc :: tcs := Option.some.inj (hrt.symm.trans hrtEq)
      have hdropSep : inp.drop p = '\n' :: ('\n' :: (renderComment a.description ++
          (['t','y','p','e',' '] ++ (a.name ++ ((' ' :: rt) ++ (rms2.map (fun x => '\n' :: '\n' :: x)).flatten))))) := by
        rw [← hm] at hdropm
        rw [show String.toList "type " = ['t','y','p','e',' '] from rfl] at hdropm
        simpa [List.append_assoc] using hdropm
      obtain ⟨hadv1, hd1, hp1⟩ := member_sep_advance a.description lc hwd hdropSep hp
        (by simp)
        (by
          intro c r2 hEq
          have hEq2 : 't' :: (['y','p','e',' '] ++ (a.name ++ ((' ' :: rt) ++ (rms2.map (fun x => '\n' :: '\n' :: x)).flatten))) =
              c :: r2 := hEq
          injection hEq2 with h1 _
          subst h1
          exact ⟨by decide, by decide, by decide⟩)
      have hd1b : inp.drop (p + (2 + (renderComment a.description).length)) =
          ['t','y','p','e'] ++ (' ' :: (a.name ++ ((' ' :: rt) ++ (rms2.map (fun x => '\n' :: '\n' :: x)).flatten))) := by
        simpa [List.append_assoc] using hd1
      have hkw : readKeyword inp ⟨p + (2 + (renderComment a.description).length), a.description⟩ =
          GoRes.ok (['t','y','p','e'], ⟨p + (2 + (renderComment a.description).length) + 4, a.description⟩) := by
        have h := @readKeyword_spec inp ['t','y','p','e']
          (' ' :: (a.name ++ ((' ' :: rt) ++ (rms2.map (fun x => '\n' :: '\n' :: x)).flatten))) (p + (2 + (renderComment a.description).length)) a.description hd1b hp1
          (by decide)
          (by
            unfold NotHead
            simp only [List.cons_append, List.head?_cons]
            exact (show isLowerAZ ' ' = false by decide))
        simpa using h
      have hd2 : inp.drop (p + (2 + (renderComment a.description).length) + 4) = ' ' :: (a.name ++ ((' ' :: rt) ++ (rms2.map (fun x => '\n' :: '\n' :: x)).flatten)) := by
        have h := drop_next hd1b
        simpa using h
      have hp2b : p + (2 + (renderComment a.description).length) + 4 ≤ inp.length := by
        have h := pos_next_le hd1b hp1
        simpa using h
      have hadv2 : advanceA inp ⟨p + (2 + (renderComment a.description).length) + 4, a.description⟩ =
          GoRes.ok (true, ⟨p + (2 + (renderComment a.description).length) + 4 + 1, a.description⟩) := by
        have hdX : inp.drop (p + (2 + (renderComment a.description).length) + 4) =
            itemsChars [SkipItem.sp] ++ (a.name ++ ((' ' :: rt) ++ (rms2.map (fun x => '\n' :: '\n' :: x)).flatten)) := by
          simpa [itemsChars, itemChars] using hd2
        have h := @advanceA_items inp [SkipItem.sp] (p + (2 + (renderComment a.description).length) + 4) a.description
          (a.name ++ ((' ' :: rt) ++ (rms2.map (fun x => '\n' :: '\n' :: x)).flatten)) hdX
          (by intro it hit; simp at hit; subst hit; trivial) hp2b
          (by
            intro c hc
            rw [hnc] at hc
            simp only [List.cons_append, List.head?_cons, Option.some.injEq] at hc
            exact hc ▸ alnum_nonskip (Or.inl hwnc.1))
        have hbool : (a.name ++ ((' ' :: rt) ++ (rms2.map (fun x => '\n' :: '\n' :: x)).flatten)).isEmpty = false := by
          rw [hnc]
          rfl
        rw [h, hbool]
        simp [itemsChars, itemChars, itemsLC, itemStepLC]
      have hd3 : inp.drop (p + (2 + (renderComment a.description).length) + 4 + 1) = a.name ++ ((' ' :: rt) ++ (rms2.map (fun x => '\n' :: '\n' :: x)).flatten) :=
        drop_cons hd2
      have hp3 : p + (2 + (renderComment a.description).length) + 4 + 1 ≤ inp.length := le_cons hd2 hp2b
      have htn : readTypeName inp ⟨p + (2 + (renderComment a.description).length) + 4 + 1, a.description⟩ =
          GoRes.ok (a.name, ⟨p + (2 + (renderComment a.description).length) + 4 + 1 + a.name.length, a.description⟩) := by
        have h := @readTypeName_spec inp a.name ((' ' :: rt) ++ (rms2.map (fun x => '\n' :: '\n' :: x)).flatten)
          (p + (2 + (renderComment a.description).length) + 4 + 1) a.description hd3 hp3
          (by
            intro d hd
            rw [hnc] at hd
            rcases List.mem_cons.mp hd with rfl | hd2
            · exact hwnc.1
            · exact List.all_eq_true.mp hwnc.2 d hd2)
          (by
            unfold NotHead
            simp only [List.cons_append, List.head?_cons]
            exact (show isAlnumChar ' ' = false by decide))
        exact h
      have hd4 : inp.drop (p + (2 + (renderComment a.description).length) + 4 + 1 + a.name.length) = ' ' :: (rt ++ (rms2.map (fun x => '\n' :: '\n' :: x)).flatten) := by
        have h := drop_next hd3
        simpa using h
      have hp4 : p + (2 + (renderComment a.description).length) + 4 + 1 + a.name.length ≤ inp.length := pos_next_le hd3 hp3
      have hadv3 : advanceA inp ⟨p + (2 + (renderComment a.description).length) + 4 + 1 + a.name.length, a.description⟩ =
          GoRes.ok (true, ⟨p + (2 + (renderComment a.description).length) + 4 + 1 + a.name.length + 1, a.description⟩) := by
        have hdX : inp.drop (p + (2 + (renderComment a.description).length) + 4 + 1 + a.name.length) =
            itemsChars [SkipItem.sp] ++ (rt ++ (rms2.map (fun x => '\n' :: '\n' :: x)).flatten) := by
          simpa [itemsChars, itemChars] using hd4
        have h := @advanceA_items inp [SkipItem.sp] (p + (2 + (renderComment a.description).length) + 4 + 1 + a.name.length)
          a.description (rt ++ (rms2.map (fun x => '\n' :: '\n' :: x)).flatten) hdX
          (by intro it hit; simp at hit; subst hit; trivial) hp4
          (by
            intro c hc
            rw [hrtH] at hc
            simp only [List.cons_append, List.head?_cons, Option.some.injEq] at hc
            exact hc ▸ alnum_nonskip hcls)
        have hbool : (rt ++ (rms2.map (fun x => '\n' :: '\n' :: x)).flatten).isEmpty = false := by
          rw [hrtH]
          rfl
        rw [h, hbool]
        simp [itemsChars, itemChars, itemsLC, itemStepLC]
      have hd5 : inp.drop (p + (2 + (renderComment a.description).length) + 4 + 1 + a.name.length + 1) = rt ++ (rms2.map (fun x => '\n' :: '\n' :: x)).flatten :=
        drop_cons hd4
      have hp5 : p + (2 + (renderComment a.description).length) + 4 + 1 + a.name.length + 1 ≤ inp.length := le_cons hd4 hp4
      have hlenrt : rt.length + (p + (2 + (renderComment a.description).length) + 4 + 1 + a.name.length + 1) ≤ inp.length := by
        have h2 := congrArg List.length hd5
        rw [List.length_drop, List.length_append] at h2
        omega
      have hfuelW : tSize a.ty + 3 ≤ inp.length + 1 := by
        rw [hrtH] at hlenrt
        simp only [List.length_cons] at hlenrt hszT
        omega
      obtain ⟨lcT, hT⟩ := readTypeF_parse a.ty true inp rt ((rms2.map (fun x => '\n' :: '\n' :: x)).flatten) (inp.length + 1)
        (p + (2 + (renderComment a.description).length) + 4 + 1 + a.name.length + 1) a.description hwt hrt hd5 hp5
        (safe_after_members rms2) hfuelW
      have hTW : readTypeW inp ⟨p + (2 + (renderComment a.description).length) + 4 + 1 + a.name.length + 1, a.description⟩ =
          GoRes.ok (OptTy.some a.ty,
            ⟨p + (2 + (renderComment a.description).length) + 4 + 1 + a.name.length + 1 + rt.length, lcT⟩) := hT
      have hd6 : inp.drop (p + (2 + (renderComment a.description).length) + 4 + 1 + a.name.length + 1 + rt.length) = (rms2.map (fun x => '\n' :: '\n' :: x)).flatten :=
        drop_next hd5
      have hp6 : p + (2 + (renderComment a.description).length) + 4 + 1 + a.name.length + 1 + rt.length ≤ inp.length :=
        pos_next_le hd5 hp5
      obtain ⟨j, lc2, hrun, hjn, hjd, hjm⟩ := ih inp
        { ifc with
          members := ifc.members ++ [.alias ⟨a.name, a.description, a.ty⟩]
          aliases := mapPut ifc.aliases a.name ⟨a.name, a.description, a.ty⟩ }
        rms2 f (p + (2 + (renderComment a.description).length) + 4 + 1 + a.name.length + 1 + rt.length) lcT hall2 hf2t hd6
        (by omega) hp6 hfuel2
      refine ⟨j, lc2, ?_, ?_, ?_, ?_⟩
      · simp only [readMembersF]
        rw [hadv1]
        simp only [GoRes_bind_ok, GoRes_bind_ok2]
        rw [hkw]
        simp only [GoRes_bind_ok, GoRes_bind_ok2]
        rw [hadv2]
        simp only [GoRes_bind_ok, GoRes_bind_ok2]
        rw [htn]
        simp only [GoRes_bind_ok, GoRes_bind_ok2]
        rw [if_neg (show ¬(a.name = []) from by rw [hnc]; simp)]
        rw [hadv3]
        simp only [GoRes_bind_ok, GoRes_bind_ok2]
        rw [hTW]
        simp only [GoRes_bind_ok, GoRes_bind_ok2]
        exact hrun
      · exact hjn
      · exact hjd
      · rw [hjm]
        simp [List.append_assoc]
    · -- a method member
      rw [renderMember_method_eq] at hm
      rcases hrt1 : renderType false me.tin with _ | ri
      · rw [hrt1] at hm
        simp at hm
      rcases hrt2 : renderType false me.tout with _ | ro
      · rw [hrt1, hrt2] at hm
        simp at hm
      rw [hrt1, hrt2] at hm
      simp only [Option.some_bind, Option.some.injEq] at hm
      simp only [wfMember, Bool.and_eq_true] at hwm
      obtain ⟨⟨⟨⟨hwn, hwd⟩, hwtin⟩, hsp⟩, hwtout⟩ := hwm
      obtain ⟨nc, ncs, hnc⟩ : ∃ nc ncs, me.name = nc :: ncs := by
        rcases hn2 : me.name with _ | ⟨nc, ncs⟩
        · rw [hn2] at hwn
          simp [wfTypeName] at hwn
        · exact ⟨nc, ncs, rfl⟩
      have hwnc : isAlnumChar nc = true ∧ ncs.all isAlnumChar = true := by
        rw [hnc] at hwn
        simpa [wfTypeName, Bool.and_eq_true] using hwn
      obtain ⟨z, hriH⟩ := renderType_paren me.tin false ri hsp hrt1
      obtain ⟨tc1, tcs1, hrtEq1, hcls1, hszT1⟩ := renderType_total me.tin false hwtin
      have hriT : ri = tc1 :: tcs1 := Option.some.inj (hrt1.symm.trans hrtEq1)
      obtain ⟨tc2, tcs2, hrtEq2, hcls2, hszT2⟩ := renderType_total me.tout false hwtout
      have hroT : ro = tc2 :: tcs2 := Option.some.inj (hrt2.symm.trans hrtEq2)
      have hdropSep : inp.drop p = '\n' :: ('\n' :: (renderComment me.description ++
          (['m','e','t','h','o','d',' '] ++ (me.name ++ (ri ++ ([' ','-','>',' '] ++ (ro ++ (rms2.map (fun x => '\n' :: '\n' :: x)).flatten))))))) := by
        rw [← hm] at hdropm
        rw [show String.toList "method " = ['m','e','t','h','o','d',' '] from rfl] at hdropm
        rw [show String.toList " -> " = [' ','-','>',' '] from rfl] at hdropm
        simpa [List.append_assoc] using hdropm
      obtain ⟨hadv1, hd1, hp1⟩ := member_sep_advance me.description lc hwd hdropSep hp
        (by simp)
        (by
          intro c r2 hEq
          have hEq2 : 'm' :: (['e','t','h','o','d',' '] ++ (me.name ++ (ri ++ ([' ','-','>',' '] ++ (ro ++ (rms2.map (fun x => '\n' :: '\n' :: x)).flatten))))) = c :: r2 := hEq
          injection hEq2 with h1 _
          subst h1
          exact ⟨by decide, by decide, by decide⟩)
      have hd1b : inp.drop (p + (2 + (renderComment me.description).length)) =
          ['m','e','t','h','o','d'] ++ (' ' :: (me.name ++ (ri ++ ([' ','-','>',' '] ++ (ro ++ (rms2.map (fun x => '\n' :: '\n' :: x)).flatten))))) := by
        simpa [List.append_assoc] using hd1
      have hkw : readKeyword inp ⟨p + (2 + (renderComment me.description).length), me.description⟩ =
          GoRes.ok (['m','e','t','h','o','d'], ⟨p + (2 + (renderComment me.description).length) + 6, me.description⟩) := by
        have h := @readKeyword_spec inp ['m','e','t','h','o','d']
          (' ' :: (me.name ++ (ri ++ ([' ','-','>',' '] ++ (ro ++ (rms2.map (fun x => '\n' :: '\n' :: x)).flatten))))) (p + (2 + (renderComment me.description).length)) me.description hd1b hp1
          (by decide)
          (by
            unfold NotHead
            simp only [List.cons_append, List.head?_cons]
            exact (show isLowerAZ ' ' = false by decide))
        simpa using h
      have hd2 : inp.drop (p + (2 + (renderComment me.description).length) + 6) = ' ' :: (me.name ++ (ri ++ ([' ','-','>',' '] ++ (ro ++ (rms2.map (fun x => '\n' :: '\n' :: x)).flatten)))) := by
        have h := drop_next hd1b
        simpa using h
      have hp2b : p + (2 + (renderComment me.description).length) + 6 ≤ inp.length := by
        have h := pos_next_le hd1b hp1
        simpa using h
      have hadv2 : advanceA inp ⟨p + (2 + (renderComment me.description).length) + 6, me.description⟩ =
          GoRes.ok (true, ⟨p + (2 + (renderComment me.description).length) + 6 + 1, me.description⟩) := by
        have hdX : inp.drop (p + (2 + (renderComment me.description).length) + 6) = itemsChars [SkipItem.sp] ++ (me.name ++ (ri ++ ([' ','-','>',' '] ++ (ro ++ (rms2.map (fun x => '\n' :: '\n' :: x)).flatten)))) := by
          simpa [itemsChars, itemChars] using hd2
        have h := @advanceA_items inp [SkipItem.sp] (p + (2 + (renderComment me.description).length) + 6) me.description
          (me.name ++ (ri ++ ([' ','-','>',' '] ++ (ro ++ (rms2.map (fun x => '\n' :: '\n' :: x)).flatten)))) hdX
          (by intro it hit; simp at hit; subst hit; trivial) hp2b
          (by
            intro c hc
            rw [hnc] at hc
            simp only [List.cons_append, List.head?_cons, Option.some.injEq] at hc
            exact hc ▸ alnum_nonskip (Or.inl hwnc.1))
        have hbool : ((me.name ++ (ri ++ ([' ','-','>',' '] ++ (ro ++ (rms2.map (fun x => '\n' :: '\n' :: x)).flatten))))).isEmpty = false := by
          rw [hnc]
          rfl
        rw [h, hbool]
        simp [itemsChars, itemChars, itemsLC, itemStepLC]
      have hd3 : inp.drop (p + (2 + (renderComment me.description).length) + 6 + 1) = (me.name ++ (ri ++ ([' ','-','>',' '] ++ (ro ++ (rms2.map (fun x => '\n' :: '\n' :: x)).flatten)))) := drop_cons hd2
      have hp3 : p + (2 + (renderComment me.description).length) + 6 + 1 ≤ inp.length := le_cons hd2 hp2b
      have hd3b : inp.drop (p + (2 + (renderComment me.description).length) + 6 + 1) = me.name ++ (ri ++ ([' ','-','>',' '] ++ (ro ++ (rms2.map (fun x => '\n' :: '\n' :: x)).flatten))) := hd3
      have htn : readTypeName inp ⟨p + (2 + (renderComment me.description).length) + 6 + 1, me.description⟩ =
          GoRes.ok (me.name, ⟨p + (2 + (renderComment me.description).length) + 6 + 1 + me.name.length, me.description⟩) := by
        have h := @readTypeName_spec inp me.name (ri ++ ([' ','-','>',' '] ++ (ro ++ (rms2.map (fun x => '\n' :: '\n' :: x)).flatten)))
          (p + (2 + (renderComment me.description).length) + 6 + 1) me.description hd3b hp3
          (by
            intro d hd
            rw [hnc] at hd
            rcases List.mem_cons.mp hd with rfl | hd2
            · exact hwnc.1
            · exact List.all_eq_true.mp hwnc.2 d hd2)
          (by
            unfold NotHead
            rw [hriH]
            simp only [List.cons_append, List.head?_cons]
            exact (show isAlnumChar '(' = false by decide))
        exact h
      have hd4 : inp.drop (p + (2 + (renderComment me.description).length) + 6 + 1 + me.name.length) = ri ++ ([' ','-','>',' '] ++ (ro ++ (rms2.map (fun x => '\n' :: '\n' :: x)).flatten)) := drop_next hd3b
      have hp4 : p + (2 + (renderComment me.description).length) + 6 + 1 + me.name.length ≤ inp.length := pos_next_le hd3b hp3
      have hadv3 : advanceA inp ⟨p + (2 + (renderComment me.description).length) + 6 + 1 + me.name.length, me.description⟩ =
          GoRes.ok (true, ⟨p + (2 + (renderComment me.description).length) + 6 + 1 + me.name.length, me.description⟩) := by
        have hdX : inp.drop (p + (2 + (renderComment me.description).length) + 6 + 1 + me.name.length) = itemsChars [] ++ (ri ++ ([' ','-','>',' '] ++ (ro ++ (rms2.map (fun x => '\n' :: '\n' :: x)).flatten))) := by
          simpa [itemsChars] using hd4
        have h := @advanceA_items inp [] (p + (2 + (renderComment me.description).length) + 6 + 1 + me.name.length) me.description
          (ri ++ ([' ','-','>',' '] ++ (ro ++ (rms2.map (fun x => '\n' :: '\n' :: x)).flatten))) hdX
          (by intro it hit; simp at hit) hp4
          (by
            intro c hc
            rw [hriH] at hc
            simp only [List.cons_append, List.head?_cons, Option.some.injEq] at hc
            exact hc ▸ ⟨by decide, by decide, by decide⟩)
        have hbool : (ri ++ ([' ','-','>',' '] ++ (ro ++ (rms2.map (fun x => '\n' :: '\n' :: x)).flatten))).isEmpty = false := by
          rw [hriH]
          rfl
        rw [h, hbool]
        simp [itemsChars, itemsLC]
      have hlenri : ri.length + (p + (2 + (renderComment me.description).length) + 6 + 1 + me.name.length) ≤ inp.length := by
        have h2 := congrArg List.length hd4
        rw [List.length_drop, List.length_append] at h2
        omega
      have hfuelW1 : tSize me.tin + 3 ≤ inp.length + 1 := by
        rw [hriT] at hlenri
        simp only [List.length_cons] at hlenri hszT1
        omega
      obtain ⟨lcT1, hT1⟩ := readTypeF_parse me.tin false inp ri (([' ','-','>',' '] ++ (ro ++ (rms2.map (fun x => '\n' :: '\n' :: x)).flatten))) (inp.length + 1)
        (p + (2 + (renderComment me.description).length) + 6 + 1 + me.name.length) me.description hwtin hrt1 hd4 hp4
        (show SafeAfterType (([' ','-','>',' '] ++ (ro ++ (rms2.map (fun x => '\n' :: '\n' :: x)).flatten))) from
          (show isAlnumChar ' ' = false ∧ (' ' : Char) ≠ '[' by decide)) hfuelW1
      have hTW1 : readTypeW inp ⟨p + (2 + (renderComment me.description).length) + 6 + 1 + me.name.length, me.description⟩ =
          GoRes.ok (OptTy.some me.tin, ⟨p + (2 + (renderComment me.description).length) + 6 + 1 + me.name.length + ri.length, lcT1⟩) := hT1
      have hd5 : inp.drop (p + (2 + (renderComment me.description).length) + 6 + 1 + me.name.length + ri.length) = ([' ','-','>',' '] ++ (ro ++ (rms2.map (fun x => '\n' :: '\n' :: x)).flatten)) := drop_next hd4
      have hp5 : p + (2 + (renderComment me.description).length) + 6 + 1 + me.name.length + ri.length ≤ inp.length := pos_next_le hd4 hp4
      have hd5b : inp.drop (p + (2 + (renderComment me.description).length) + 6 + 1 + me.name.length + ri.length) = ' ' :: ('-' :: ('>' :: (' ' :: (ro ++ (rms2.map (fun x => '\n' :: '\n' :: x)).flatten)))) := by
        simpa [List.append_assoc] using hd5
      have hadv4 : advanceA inp ⟨p + (2 + (renderComment me.description).length) + 6 + 1 + me.name.length + ri.length, lcT1⟩ =
          GoRes.ok (true, ⟨p + (2 + (renderComment me.description).length) + 6 + 1 + me.name.length + ri.length + 1, lcT1⟩) := by
        have hdX : inp.drop (p + (2 + (renderComment me.description).length) + 6 + 1 + me.name.length + ri.length) =
            itemsChars [SkipItem.sp] ++ ('-' :: ('>' :: (' ' :: (ro ++ (rms2.map (fun x => '\n' :: '\n' :: x)).flatten)))) := by
          simpa [itemsChars, itemChars] using hd5b
        have h := @advanceA_items inp [SkipItem.sp] (p + (2 + (renderComment me.description).length) + 6 + 1 + me.name.length + ri.length) lcT1
          ('-' :: ('>' :: (' ' :: (ro ++ (rms2.map (fun x => '\n' :: '\n' :: x)).flatten)))) hdX
          (by intro it hit; simp at hit; subst hit; trivial) hp5
          (by
            intro c hc
            simp only [List.head?_cons, Option.some.injEq] at hc
            exact hc ▸ ⟨by decide, by decide, by decide⟩)
        rw [h]
        simp [itemsChars, itemChars, itemsLC, itemStepLC]
      have hdm1 : inp.drop (p + (2 + (renderComment me.description).length) + 6 + 1 + me.name.length + ri.length + 1) = '-' :: ('>' :: (' ' :: (ro ++ (rms2.map (fun x => '\n' :: '\n' :: x)).flatten))) :=
        drop_cons hd5b
      have hpm1 : p + (2 + (renderComment me.description).length) + 6 + 1 + me.name.length + ri.length + 1 ≤ inp.length := le_cons hd5b hp5
      have hget1 : inp.get? (p + (2 + (renderComment me.description).length) + 6 + 1 + me.name.length + ri.length + 1) = some '-' := get?_of_drop hdm1
      have hdm2 : inp.drop (p + (2 + (renderComment me.description).length) + 6 + 1 + me.name.length + ri.length + 1 + 1) = '>' :: (' ' :: (ro ++ (rms2.map (fun x => '\n' :: '\n' :: x)).flatten)) := drop_cons hdm1
      have hget2 : inp.get? (p + (2 + (renderComment me.description).length) + 6 + 1 + me.name.length + ri.length + 1 + 1) = some '>' := get?_of_drop hdm2
      have hdm3 : inp.drop (p + (2 + (renderComment me.description).length) + 6 + 1 + me.name.length + ri.length + 1 + 2) = ' ' :: (ro ++ (rms2.map (fun x => '\n' :: '\n' :: x)).flatten) := by
        rw [show (p + (2 + (renderComment me.description).length) + 6 + 1 + me.name.length + ri.length + 1 + 2) = (p + (2 + (renderComment me.description).length) + 6 + 1 + me.name.length + ri.length + 1 + 1 + 1) from by omega]
        exact drop_cons hdm2
      have hpm3 : p + (2 + (renderComment me.description).length) + 6 + 1 + me.name.length + ri.length + 1 + 2 ≤ inp.length := by
        have h := le_cons hdm2 (le_cons hdm1 hpm1)
        omega
      have hadv5 : advanceA inp ⟨p + (2 + (renderComment me.description).length) + 6 + 1 + me.name.length + ri.length + 1 + 2, lcT1⟩ =
          GoRes.ok (true, ⟨p + (2 + (renderComment me.description).length) + 6 + 1 + me.name.length + ri.length + 1 + 2 + 1, lcT1⟩) := by
        have hdX : inp.drop (p + (2 + (renderComment me.description).length) + 6 + 1 + me.name.length + ri.length + 1 + 2) =
            itemsChars [SkipItem.sp] ++ (ro ++ (rms2.map (fun x => '\n' :: '\n' :: x)).flatten) := by
          simpa [itemsChars, itemChars] using hdm3
        have h := @advanceA_items inp [SkipItem.sp] (p + (2 + (renderComment me.description).length) + 6 + 1 + me.name.length + ri.length + 1 + 2) lcT1
          (ro ++ (rms2.map (fun x => '\n' :: '\n' :: x)).flatten) hdX
          (by intro it hit; simp at hit; subst hit; trivial) hpm3
          (by
            intro c hc
            rw [hroT] at hc
            simp only [List.cons_append, List.head?_cons, Option.some.injEq] at hc
            exact hc ▸ alnum_nonskip hcls2)
        have hbool : (ro ++ (rms2.map (fun x => '\n' :: '\n' :: x)).flatten).isEmpty = false := by
          rw [hroT]
          rfl
        rw [h, hbool]
        simp [itemsChars, itemChars, itemsLC, itemStepLC]
      have hd7 : inp.drop (p + (2 + (renderComment me.description).length) + 6 + 1 + me.name.length + ri.length + 1 + 2 + 1) = ro ++ (rms2.map (fun x => '\n' :: '\n' :: x)).flatten := drop_cons hdm3
      have hp7 : p + (2 + (renderComment me.description).length) + 6 + 1 + me.name.length + ri.length + 1 + 2 + 1 ≤ inp.length := le_cons hdm3 hpm3
      have hlenro : ro.length + (p + (2 + (renderComment me.description).length) + 6 + 1 + me.name.length + ri.length + 1 + 2 + 1) ≤ inp.length := by
        have h2 := congrArg List.length hd7
        rw [List.length_drop, List.length_append] at h2
        omega
      have hfuelW2 : tSize me.tout + 3 ≤ inp.length + 1 := by
        rw [hroT] at hlenro
        simp only [List.length_cons] at hlenro hszT2
        omega
      obtain ⟨lcT2, hT2⟩ := readTypeF_parse me.tout false inp ro ((rms2.map (fun x => '\n' :: '\n' :: x)).flatten) (inp.length + 1)
        (p + (2 + (renderComment me.description).length) + 6 + 1 + me.name.length + ri.length + 1 + 2 + 1) lcT1 hwtout hrt2 hd7 hp7 (safe_after_members rms2) hfuelW2
      have hTW2 : readTypeW inp ⟨p + (2 + (renderComment me.description).length) + 6 + 1 + me.name.length + ri.length + 1 + 2 + 1, lcT1⟩ =
          GoRes.ok (OptTy.some me.tout, ⟨p + (2 + (renderComment me.description).length) + 6 + 1 + me.name.length + ri.length + 1 + 2 + 1 + ro.length, lcT2⟩) := hT2
      have hd8 : inp.drop (p + (2 + (renderComment me.description).length) + 6 + 1 + me.name.length + ri.length + 1 + 2 + 1 + ro.length) = (rms2.map (fun x => '\n' :: '\n' :: x)).flatten := drop_next hd7
      have hp8 : p + (2 + (renderComment me.description).length) + 6 + 1 + me.name.length + ri.length + 1 + 2 + 1 + ro.length ≤ inp.length := pos_next_le hd7 hp7
      obtain ⟨j, lc2, hrun, hjn, hjd, hjm⟩ := ih inp
        { ifc with
          members := ifc.members ++
            [.method ⟨me.name, me.description, me.tin, me.tout⟩]
          methods := mapPut ifc.methods me.name
            ⟨me.name, me.description, me.tin, me.tout⟩ }
        rms2 f (p + (2 + (renderComment me.description).length) + 6 + 1 + me.name.length + ri.length + 1 + 2 + 1 + ro.length) lcT2 hall2 hf2t hd8 (by omega) hp8 hfuel2
      refine ⟨j, lc2, ?_, ?_, ?_, ?_⟩
      · simp only [readMembersF]
        rw [hadv1]
        simp only [GoRes_bind_ok, GoRes_bind_ok2]
        rw [if_pos trivial]
        rw [hkw]
        simp only [GoRes_bind_ok, GoRes_bind_ok2]
        rw [if_neg (show ¬((['m','e','t','h','o','d'] : Str) = String.toList "type") from
          by decide)]
        rw [if_pos (show (['m','e','t','h','o','d'] : Str) = String.toList "method" from
          by decide)]
        rw [hadv2]
        simp only [GoRes_bind_ok, GoRes_bind_ok2]
        rw [htn]
        simp only [GoRes_bind_ok, GoRes_bind_ok2]
        rw [if_neg (show ¬(me.name = []) from by rw [hnc]; simp)]
        rw [hadv3]
        simp only [GoRes_bind_ok, GoRes_bind_ok2]
        rw [hTW1]
        simp only [GoRes_bind_ok, GoRes_bind_ok2]
        rw [hadv4]
        simp only [GoRes_bind_ok, GoRes_bind_ok2]
        rw [hget1, hget2]
        rw [if_pos (show (some '-' = some '-' ∧ some '>' = some '>') from ⟨rfl, rfl⟩)]
        rw [hadv5]
        simp only [GoRes_bind_ok, GoRes_bind_ok2]
        rw [hTW2]
        simp only [GoRes_bind_ok, GoRes_bind_ok2]
        exact hrun
      · exact hjn
      · exact hjd
      · rw [hjm]
        simp [List.append_assoc]
    · -- an error member
      obtain ⟨nm0, dsc0, ty0⟩ := e
      simp only [wfMember, Bool.and_eq_true] at hwm
      obtain ⟨⟨hwn, hwd⟩, hpay⟩ := hwm
      obtain ⟨nc, ncs, hnc⟩ : ∃ nc ncs, nm0 = nc :: ncs := by
        rcases hn2 : nm0 with _ | ⟨nc, ncs⟩
        · rw [hn2] at hwn
          simp [wfTypeName] at hwn
        · exact ⟨nc, ncs, rfl⟩
      have hwnc : isAlnumChar nc = true ∧ ncs.all isAlnumChar = true := by
        rw [hnc] at hwn
        simpa [wfTypeName, Bool.and_eq_true] using hwn
      rcases ty0 with _ | t
      · -- no payload type
        rw [renderMember_err_none_eq] at hm
        simp only [Option.some.injEq] at hm
        have hmb : renderComment dsc0 ++ String.toList "error " ++ nm0 = rm := by
          rw [← hm]
          simp
        have hdropSep : inp.drop p = '\n' :: ('\n' :: (renderComment dsc0 ++
            (['e','r','r','o','r',' '] ++ (nm0 ++ (([] : Str) ++ (rms2.map (fun x => '\n' :: '\n' :: x)).flatten))))) := by
          rw [← hmb] at hdropm
          rw [show String.toList "error " = ['e','r','r','o','r',' '] from rfl] at hdropm
          simpa [List.append_assoc] using hdropm
        obtain ⟨hadv1, hd1, hp1⟩ := member_sep_advance dsc0 lc hwd hdropSep hp
          (by simp)
          (by
            intro c r2 hEq
            have hEq2 : 'e' :: (['r','r','o','r',' '] ++ (nm0 ++ (([] : Str) ++ (rms2.map (fun x => '\n' :: '\n' :: x)).flatten))) =
                c :: r2 := hEq
            injection hEq2 with h1 _
            subst h1
            exact ⟨by decide, by decide, by decide⟩)
        have hd1b : inp.drop (p + (2 + (renderComment dsc0).length)) =
            ['e','r','r','o','r'] ++ (' ' :: (nm0 ++ (([] : Str) ++ (rms2.map (fun x => '\n' :: '\n' :: x)).flatten))) := by
          simpa [List.append_assoc] using hd1
        have hkw : readKeyword inp ⟨p + (2 + (renderComment dsc0).length), dsc0⟩ =
            GoRes.ok (['e','r','r','o','r'], ⟨p + (2 + (renderComment dsc0).length) + 5, dsc0⟩) := by
          have h := @readKeyword_spec inp ['e','r','r','o','r']
            (' ' :: (nm0 ++ (([] : Str) ++ (rms2.map (fun x => '\n' :: '\n' :: x)).flatten))) (p + (2 + (renderComment dsc0).length)) dsc0 hd1b hp1
            (by decide)
            (by
              unfold NotHead
              simp only [List.cons_append, List.head?_cons]
              exact (show isLowerAZ ' ' = false by decide))
          simpa using h
        have hd2 : inp.drop (p + (2 + (renderComment dsc0).length) + 5) = ' ' :: (nm0 ++ (([] : Str) ++ (rms2.map (fun x => '\n' :: '\n' :: x)).flatten)) := by
          have h := drop_next hd1b
          simpa using h
        have hp2b : p + (2 + (renderComment dsc0).length) + 5 ≤ inp.length := by
          have h := pos_next_le hd1b hp1
          simpa using h
        have hadv2 : advanceA inp ⟨p + (2 + (renderComment dsc0).length) + 5, dsc0⟩ =
            GoRes.ok (true, ⟨p + (2 + (renderComment dsc0).length) + 5 + 1, dsc0⟩) := by
          have hdX : inp.drop (p + (2 + (renderComment dsc0).length) + 5) =
              itemsChars [SkipItem.sp] ++ (nm0 ++ (([] : Str) ++ (rms2.map (fun x => '\n' :: '\n' :: x)).flatten)) := by
            simpa [itemsChars, itemChars] using hd2
          have h := @advanceA_items inp [SkipItem.sp] (p + (2 + (renderComment dsc0).length) + 5) dsc0
            (nm0 ++ (([] : Str) ++ (rms2.map (fun x => '\n' :: '\n' :: x)).flatten)) hdX
            (by intro it hit; simp at hit; subst hit; trivial) hp2b
            (by
              intro c hc
              rw [hnc] at hc
              simp only [List.cons_append, List.head?_cons, Option.some.injEq] at hc
              exact hc ▸ alnum_nonskip (Or.inl hwnc.1))
          have hbool : (nm0 ++ (([] : Str) ++ (rms2.map (fun x => '\n' :: '\n' :: x)).flatten)).isEmpty = false := by
            rw [hnc]
            rfl
          rw [h, hbool]
          simp [itemsChars, itemChars, itemsLC, itemStepLC]
        have hd3 : inp.drop (p + (2 + (renderComment dsc0).length) + 5 + 1) = nm0 ++ (([] : Str) ++ (rms2.map (fun x => '\n' :: '\n' :: x)).flatten) := drop_cons hd2
        have hp3 : p + (2 + (renderComment dsc0).length) + 5 + 1 ≤ inp.length := le_cons hd2 hp2b
        have htn : readTypeName inp ⟨p + (2 + (renderComment dsc0).length) + 5 + 1, dsc0⟩ =
            GoRes.ok (nm0, ⟨p + (2 + (renderComment dsc0).length) + 5 + 1 + nm0.length, dsc0⟩) := by
          have h := @readTypeName_spec inp nm0 (([] : Str) ++ (rms2.map (fun x => '\n' :: '\n' :: x)).flatten)
            (p + (2 + (renderComment dsc0).length) + 5 + 1) dsc0 hd3 hp3
            (by
              intro d hd
              rw [hnc] at hd
              rcases List.mem_cons.mp hd with rfl | hd2
              · exact hwnc.1
              · exact List.all_eq_true.mp hwnc.2 d hd2)
            (by
              rcases rms2 with _ | ⟨x, xs⟩
              · exact trivial
              · exact (show isAlnumChar '\n' = false by decide))
          exact h
        have hd4 : inp.drop (p + (2 + (renderComment dsc0).length) + 5 + 1 + nm0.length) = (rms2.map (fun x => '\n' :: '\n' :: x)).flatten := by
          have h := drop_next hd3
          simpa using h
        have hp4 : p + (2 + (renderComment dsc0).length) + 5 + 1 + nm0.length ≤ inp.length := pos_next_le hd3 hp3
        have hAOL : advanceOnLine inp ⟨p + (2 + (renderComment dsc0).length) + 5 + 1 + nm0.length, dsc0⟩ = ⟨p + (2 + (renderComment dsc0).length) + 5 + 1 + nm0.length, dsc0⟩ := by
          have h9 : scanWhile (fun c => c = ' ') inp (p + (2 + (renderComment dsc0).length) + 5 + 1 + nm0.length) = p + (2 + (renderComment dsc0).length) + 5 + 1 + nm0.length := by
            have h := @scanWhile_spec (fun c => c = ' ') inp [] ((rms2.map (fun x => '\n' :: '\n' :: x)).flatten)
              (p + (2 + (renderComment dsc0).length) + 5 + 1 + nm0.length) (by simpa using hd4) (by simp)
              (by
                rcases rms2 with _ | ⟨x, xs⟩
                · exact trivial
                · exact (show decide (('\n' : Char) = ' ') = false by decide))
            simpa using h
          unfold advanceOnLine
          rw [h9]
        have hTW : readTypeW inp ⟨p + (2 + (renderComment dsc0).length) + 5 + 1 + nm0.length, dsc0⟩ =
            GoRes.ok (OptTy.none, ⟨p + (2 + (renderComment dsc0).length) + 5 + 1 + nm0.length, dsc0⟩) := by
          unfold readTypeW
          exact readTypeF_none inp ((rms2.map (fun x => '\n' :: '\n' :: x)).flatten) (inp.length + 1) (p + (2 + (renderComment dsc0).length) + 5 + 1 + nm0.length) dsc0 hd4 hp4
            (by
              intro c r2 h
              have hcn := flatten_members_head rms2 c r2 h
              subst hcn
              exact ⟨by decide, by decide⟩)
            (by omega)
        obtain ⟨j, lc2, hrun, hjn, hjd, hjm⟩ := ih inp
          { ifc with
            members := ifc.members ++ [.err ⟨nm0, dsc0, OptTy.none⟩]
            errors := mapPut ifc.errors nm0 ⟨nm0, dsc0, OptTy.none⟩ }
          rms2 f (p + (2 + (renderComment dsc0).length) + 5 + 1 + nm0.length) dsc0 hall2 hf2t hd4 (by omega) hp4 hfuel2
        refine ⟨j, lc2, ?_, ?_, ?_, ?_⟩
        · simp only [readMembersF]
          rw [hadv1]
          simp only [GoRes_bind_ok, GoRes_bind_ok2]
          rw [if_pos trivial]
          rw [hkw]
          simp only [GoRes_bind_ok, GoRes_bind_ok2]
          rw [if_neg (show ¬((['e','r','r','o','r'] : Str) = String.toList "type") from
            by decide)]
          rw [if_neg (show ¬((['e','r','r','o','r'] : Str) = String.toList "method") from
            by decide)]
          rw [if_pos (show (['e','r','r','o','r'] : Str) = String.toList "error" from
            by decide)]
          rw [hadv2]
          simp only [GoRes_bind_ok, GoRes_bind_ok2]
          rw [htn]
          simp only [GoRes_bind_ok, GoRes_bind_ok2]
          rw [if_neg (show ¬(nm0 = []) from by rw [hnc]; simp)]
          rw [hAOL, hTW]
          simp only [GoRes_bind_ok, GoRes_bind_ok2]
          exact hrun
        · exact hjn
        · exact hjd
        · rw [hjm]
          simp [List.append_assoc]
      · -- a payload type
        rw [renderMember_err_some_eq] at hm
        rcases hrt : renderType true t with _ | rt
        · rw [hrt] at hm
          simp at hm
        rw [hrt] at hm
        simp only [Option.some_bind, Option.some.injEq] at hm
        have hwt : wfType true t = true := hpay
        obtain ⟨tc, tcs, hrtEq, hcls, hszT⟩ := renderType_total t true hwt
        have hrtH : rt = tc :: tcs := Option.some.inj (hrt.symm.trans hrtEq)
        have hdropSep : inp.drop p = '\n' :: ('\n' :: (renderComment dsc0 ++
            (['e','r','r','o','r',' '] ++ (nm0 ++ ((' ' :: rt) ++ (rms2.map (fun x => '\n' :: '\n' :: x)).flatten))))) := by
          rw [← hm] at hdropm
          rw [show String.toList "error " = ['e','r','r','o','r',' '] from rfl] at hdropm
          simpa [List.append_assoc] using hdropm
        obtain ⟨hadv1, hd1, hp1⟩ := member_sep_advance dsc0 lc hwd hdropSep hp
          (by simp)
          (by
            intro c r2 hEq
            have hEq2 : 'e' :: (['r','r','o','r',' '] ++ (nm0 ++ ((' ' :: rt) ++ (rms2.map (fun x => '\n' :: '\n' :: x)).flatten))) =
                c :: r2 := hEq
            injection hEq2 with h1 _
            subst h1
            exact ⟨by decide, by decide, by decide⟩)
        have hd1b : inp.drop (p + (2 + (renderComment dsc0).length)) =
            ['e','r','r','o','r'] ++ (' ' :: (nm0 ++ ((' ' :: rt) ++ (rms2.map (fun x => '\n' :: '\n' :: x)).flatten))) := by
          simpa [List.append_assoc] using hd1
        have hkw : readKeyword inp ⟨p + (2 + (renderComment dsc0).length), dsc0⟩ =
            GoRes.ok (['e','r','r','o','r'], ⟨p + (2 + (renderComment dsc0).length) + 5, dsc0⟩) := by
          have h := @readKeyword_spec inp ['e','r','r','o','r']
            (' ' :: (nm0 ++ ((' ' :: rt) ++ (rms2.map (fun x => '\n' :: '\n' :: x)).flatten))) (p + (2 + (renderComment dsc0).length)) dsc0 hd1b hp1
            (by decide)
            (by
              unfold NotHead
              simp only [List.cons_append, List.head?_cons]
              exact (show isLowerAZ ' ' = false by decide))
          simpa using h
        have hd2 : inp.drop (p + (2 + (renderComment dsc0).length) + 5) = ' ' :: (nm0 ++ ((' ' :: rt) ++ (rms2.map (fun x => '\n' :: '\n' :: x)).flatten)) := by
          have h := drop_next hd1b
          simpa using h
        have hp2b : p + (2 + (renderComment dsc0).length) + 5 ≤ inp.length := by
          have h := pos_next_le hd1b hp1
          simpa using h
        have hadv2 : advanceA inp ⟨p + (2 + (renderComment dsc0).length) + 5, dsc0⟩ =
            GoRes.ok (true, ⟨p + (2 + (renderComment dsc0).length) + 5 + 1, dsc0⟩) := by
          have hdX : inp.drop (p + (2 + (renderComment dsc0).length) + 5) =
              itemsChars [SkipItem.sp] ++ (nm0 ++ ((' ' :: rt) ++ (rms2.map (fun x => '\n' :: '\n' :: x)).flatten)) := by
            simpa [itemsChars, itemChars] using hd2
          have h := @advanceA_items inp [SkipItem.sp] (p + (2 + (renderComment dsc0).length) + 5) dsc0
            (nm0 ++ ((' ' :: rt) ++ (rms2.map (fun x => '\n' :: '\n' :: x)).flatten)) hdX
            (by intro it hit; simp at hit; subst hit; trivial) hp2b
            (by
              intro c hc
              rw [hnc] at hc
              simp only [List.cons_append, List.head?_cons, Option.some.injEq] at hc
              exact hc ▸ alnum_nonskip (Or.inl hwnc.1))
          have hbool : (nm0 ++ ((' ' :: rt) ++ (rms2.map (fun x => '\n' :: '\n' :: x)).flatten)).isEmpty = false := by
            rw [hnc]
            rfl
          rw [h, hbool]
          simp [itemsChars, itemChars, itemsLC, itemStepLC]
        have hd3 : inp.drop (p + (2 + (renderComment dsc0).length) + 5 + 1) = nm0 ++ ((' ' :: rt) ++ (rms2.map (fun x => '\n' :: '\n' :: x)).flatten) := drop_cons hd2
        have hp3 : p + (2 + (renderComment dsc0).length) + 5 + 1 ≤ inp.length := le_cons hd2 hp2b
        have htn : readTypeName inp ⟨p + (2 + (renderComment dsc0).length) + 5 + 1, dsc0⟩ =
            GoRes.ok (nm0, ⟨p + (2 + (renderComment dsc0).length) + 5 + 1 + nm0.length, dsc0⟩) := by
          have h := @readTypeName_spec inp nm0 ((' ' :: rt) ++ (rms2.map (fun x => '\n' :: '\n' :: x)).flatten)
            (p + (2 + (renderComment dsc0).length) + 5 + 1) dsc0 hd3 hp3
            (by
              intro d hd
              rw [hnc] at hd
              rcases List.mem_cons.mp hd with rfl | hd2
              · exact hwnc.1
              · exact List.all_eq_true.mp hwnc.2 d hd2)
            (by
              unfold NotHead
              simp only [List.cons_append, List.head?_cons]
              exact (show isAlnumChar ' ' = false by decide))
          exact h
        have hd4 : inp.drop (p + (2 + (renderComment dsc0).length) + 5 + 1 + nm0.length) = ' ' :: (rt ++ (rms2.map (fun x => '\n' :: '\n' :: x)).flatten) := by
          have h := drop_next hd3
          simpa using h
        have hp4 : p + (2 + (renderComment dsc0).length) + 5 + 1 + nm0.length ≤ inp.length := pos_next_le hd3 hp3
        have htcsp : ¬(tc = ' ') := by
          intro hEq
          rcases hcls with h | h
          · rw [hEq] at h
            exact absurd h (by decide)
          · rw [hEq] at h
            exact absurd h (by decide)
        have hAOL : advanceOnLine inp ⟨p + (2 + (renderComment dsc0).length) + 5 + 1 + nm0.length, dsc0⟩ = ⟨p + (2 + (renderComment dsc0).length) + 5 + 1 + nm0.length + 1, dsc0⟩ := by
          have h9 : scanWhile (fun c => c = ' ') inp (p + (2 + (renderComment dsc0).length) + 5 + 1 + nm0.length) = p + (2 + (renderComment dsc0).length) + 5 + 1 + nm0.length + 1 := by
            have h := @scanWhile_spec (fun c => c = ' ') inp [' '] (rt ++ (rms2.map (fun x => '\n' :: '\n' :: x)).flatten)
              (p + (2 + (renderComment dsc0).length) + 5 + 1 + nm0.length) (by simpa using hd4) (by simp)
              (by
                unfold NotHead
                rw [hrtH]
                simp only [List.cons_append, List.head?_cons]
                exact decide_eq_false htcsp)
            simpa using h
          unfold advanceOnLine
          rw [h9]
        have hd5 : inp.drop (p + (2 + (renderComment dsc0).length) + 5 + 1 + nm0.length + 1) = rt ++ (rms2.map (fun x => '\n' :: '\n' :: x)).flatten := drop_cons hd4
        have hp5 : p + (2 + (renderComment dsc0).length) + 5 + 1 + nm0.length + 1 ≤ inp.length := le_cons hd4 hp4
        have hlenrt : rt.length + (p + (2 + (renderComment dsc0).length) + 5 + 1 + nm0.length + 1) ≤ inp.length := by
          have h2 := congrArg List.length hd5
          rw [List.length_drop, List.length_append] at h2
          omega
        have hfuelW : tSize t + 3 ≤ inp.length + 1 := by
          rw [hrtH] at hlenrt
          simp only [List.length_cons] at hlenrt hszT
          omega
        obtain ⟨lcT, hT⟩ := readTypeF_parse t true inp rt ((rms2.map (fun x => '\n' :: '\n' :: x)).flatten) (inp.length + 1)
          (p + (2 + (renderComment dsc0).length) + 5 + 1 + nm0.length + 1) dsc0 hwt hrt hd5 hp5 (safe_after_members rms2) hfuelW
        have hTW : readTypeW inp ⟨p + (2 + (renderComment dsc0).length) + 5 + 1 + nm0.length + 1, dsc0⟩ =
            GoRes.ok (OptTy.some t, ⟨p + (2 + (renderComment dsc0).length) + 5 + 1 + nm0.length + 1 + rt.length, lcT⟩) := hT
        have hd6 : inp.drop (p + (2 + (renderComment dsc0).length) + 5 + 1 + nm0.length + 1 + rt.length) = (rms2.map (fun x => '\n' :: '\n' :: x)).flatten := drop_next hd5
        have hp6 : p + (2 + (renderComment dsc0).length) + 5 + 1 + nm0.length + 1 + rt.length ≤ inp.length := pos_next_le hd5 hp5
        obtain ⟨j, lc2, hrun, hjn, hjd, hjm⟩ := ih inp
          { ifc with
            members := ifc.members ++ [.err ⟨nm0, dsc0, OptTy.some t⟩]
            errors := mapPut ifc.errors nm0 ⟨nm0, dsc0, OptTy.some t⟩ }
          rms2 f (p + (2 + (renderComment dsc0).length) + 5 + 1 + nm0.length + 1 + rt.length) lcT hall2 hf2t hd6 (by omega) hp6 hfuel2
        refine ⟨j, lc2, ?_, ?_, ?_, ?_⟩
        · simp only [readMembersF]
          rw [hadv1]
          simp only [GoRes_bind_ok, GoRes_bind_ok2]
          rw [if_pos trivial]
          rw [hkw]
          simp only [GoRes_bind_ok, GoRes_bind_ok2]
          rw [if_neg (show ¬((['e','r','r','o','r'] : Str) = String.toList "type") from
            by decide)]
          rw [if_neg (show ¬((['e','r','r','o','r'] : Str) = String.toList "method") from
            by decide)]
          rw [if_pos (show (['e','r','r','o','r'] : Str) = String.toList "error" from
            by decide)]
          rw [hadv2]
          simp only [GoRes_bind_ok, GoRes_bind_ok2]
          rw [htn]
          simp only [GoRes_bind_ok, GoRes_bind_ok2]
          rw [if_neg (show ¬(nm0 = []) from by rw [hnc]; simp)]
          rw [hAOL, hTW]
          simp only [GoRes_bind_ok, GoRes_bind_ok2]
          exact hrun
        · exact hjn
        · exact hjd
        · rw [hjm]
          simp [List.append_assoc]

theorem nohead_iface (rms : List Str) :
    NotHead isIfaceChar ((rms.map (fun rm => '\n' :: '\n' :: rm)).flatten) := by
  rcases rms with _ | ⟨rm, rest⟩
  · exact trivial
  · exact (show isIfaceChar '\n' = false by decide)

theorem ifaceChar_nonskip {c : Char} (h : isIfaceChar c = true) : NonSkipHead c := by
  unfold isIfaceChar at h
  rcases (Bool.or_eq_true _ _).mp h with h2 | h2
  · rcases (Bool.or_eq_true _ _).mp h2 with h3 | h3
    · exact alnum_nonskip (Or.inl (lower_alnum h3))
    · simp only [decide_eq_true_eq] at h3
      subst h3
      exact ⟨by decide, by decide, by decide⟩
  · simp only [decide_eq_true_eq] at h2
    subst h2
    exact ⟨by decide, by decide, by decide⟩

theorem flatten_members_len (rms : List Str) :
    rms.length ≤ ((rms.map (fun rm => '\n' :: '\n' :: rm)).flatten).length := by
  induction rms with
  | nil => simp
  | cons rm rest ih =>
    simp only [List.map_cons, List.flatten_cons, List.length_append, List.length_cons]
    omega

/-- Claim C1 as amended: for every Interface well-formed for rendering,
String produces a text that NewInterface parses back to an Interface with
the same name, the same description and the same member sequence. -/
theorem c1_roundtrip_amended (i : GoInterface) (h : wfInterface i = true) :
    ∃ txt j, renderInterface i = Option.some txt ∧
      NewInterface txt = .ok (Option.some j) ∧
      j.name = i.name ∧ j.description = i.description ∧ j.members = i.members := by
  simp only [wfInterface, Bool.and_eq_true] at h
  obtain ⟨⟨hwn, hwd⟩, hmem⟩ := h
  have hallm : ∀ m ∈ i.members, wfMember m = true := List.all_eq_true.mp hmem
  obtain ⟨rms, hmapM, hf2⟩ := mapM_renderMember i.members hallm
  have hri : renderInterface i = Option.some
      (renderComment i.description ++ String.toList "interface " ++ i.name ++
        (rms.map (fun x => '\n' :: '\n' :: x)).flatten) := by
    unfold renderInterface
    rw [hmapM]
    rfl
  simp only [wfIfaceName, Bool.and_eq_true, decide_eq_true_eq] at hwn
  obtain ⟨⟨hne0, hic⟩, hval⟩ := hwn
  obtain ⟨nc, ncs, hnc⟩ : ∃ nc ncs, i.name = nc :: ncs := by
    rcases hn2 : i.name with _ | ⟨nc, ncs⟩
    · rw [hn2] at hne0
      simp at hne0
    · exact ⟨nc, ncs, rfl⟩
  have hicl : ∀ c ∈ i.name, isIfaceChar c = true := List.all_eq_true.mp hic
  set txt : Str := renderComment i.description ++ String.toList "interface " ++ i.name ++
    (rms.map (fun x => '\n' :: '\n' :: x)).flatten with htxtdef
  have htxt : txt = renderComment i.description ++
      (['i','n','t','e','r','f','a','c','e'] ++ (' ' :: (i.name ++ (rms.map (fun x => '\n' :: '\n' :: x)).flatten))) := by
    rw [htxtdef]
    rw [show String.toList "interface " = ['i','n','t','e','r','f','a','c','e',' '] from rfl]
    simp [List.append_assoc]
  have hdrop0 : txt.drop 0 = itemsChars (commentItems i.description) ++
      (['i','n','t','e','r','f','a','c','e'] ++ (' ' :: (i.name ++ (rms.map (fun x => '\n' :: '\n' :: x)).flatten))) := by
    rw [List.drop_zero, htxt, renderComment_eq_items]
  have hadv0 : advanceA txt ⟨0, []⟩ = GoRes.ok (true,
      ⟨0 + (renderComment i.description).length, i.description⟩) := by
    have h := @advanceA_items txt (commentItems i.description) 0 []
      (['i','n','t','e','r','f','a','c','e'] ++ (' ' :: (i.name ++ (rms.map (fun x => '\n' :: '\n' :: x)).flatten))) hdrop0
      (commentItems_good i.description) (by omega)
      (by
        intro c hc
        simp only [List.cons_append, List.head?_cons, Option.some.injEq] at hc
        exact hc ▸ ⟨by decide, by decide, by decide⟩)
    rw [h]
    rw [show (itemsChars (commentItems i.description)).length = (renderComment i.description).length from by
      rw [renderComment_eq_items]]
    rw [itemsLC_commentItems i.description hwd]
    rfl
  have hd1 : txt.drop (0 + (renderComment i.description).length) =
      ['i','n','t','e','r','f','a','c','e'] ++ (' ' :: (i.name ++ (rms.map (fun x => '\n' :: '\n' :: x)).flatten)) := by
    have h := drop_next hdrop0
    rw [show (itemsChars (commentItems i.description)).length = (renderComment i.description).length from by
      rw [renderComment_eq_items]] at h
    exact h
  have hp1 : 0 + (renderComment i.description).length ≤ txt.length := by
    have h2 := congrArg List.length hd1
    simp only [List.length_drop, List.length_append, List.length_cons] at h2
    omega
  have hkwI : readKeyword txt ⟨0 + (renderComment i.description).length, i.description⟩ =
      GoRes.ok (['i','n','t','e','r','f','a','c','e'],
        ⟨0 + (renderComment i.description).length + 9, i.description⟩) := by
    have h := @readKeyword_spec txt ['i','n','t','e','r','f','a','c','e']
      (' ' :: (i.name ++ (rms.map (fun x => '\n' :: '\n' :: x)).flatten)) (0 + (renderComment i.description).length) i.description hd1 hp1
      (by decide)
      (by
        unfold NotHead
        simp only [List.cons_append, List.head?_cons]
        exact (show isLowerAZ ' ' = false by decide))
    simpa using h
  have hd2 : txt.drop (0 + (renderComment i.description).length + 9) = ' ' :: (i.name ++ (rms.map (fun x => '\n' :: '\n' :: x)).flatten) := by
    have h := drop_next hd1
    simpa using h
  have hp2 : 0 + (renderComment i.description).length + 9 ≤ txt.length := by
    have h := pos_next_le hd1 hp1
    simpa using h
  have hadvI : advanceA txt ⟨0 + (renderComment i.description).length + 9, i.description⟩ =
      GoRes.ok (true, ⟨0 + (renderComment i.description).length + 9 + 1, i.description⟩) := by
    have hdX : txt.drop (0 + (renderComment i.description).length + 9) =
        itemsChars [SkipItem.sp] ++ (i.name ++ (rms.map (fun x => '\n' :: '\n' :: x)).flatten) := by
      simpa [itemsChars, itemChars] using hd2
    have h := @advanceA_items txt [SkipItem.sp] (0 + (renderComment i.description).length + 9) i.description
      (i.name ++ (rms.map (fun x => '\n' :: '\n' :: x)).flatten) hdX
      (by intro it hit; simp at hit; subst hit; trivial) hp2
      (by
        intro c hc
        rw [hnc] at hc
        simp only [List.cons_append, List.head?_cons, Option.some.injEq] at hc
        exact hc ▸ ifaceChar_nonskip (hicl nc (by rw [hnc]; simp)))
    have hbool : (i.name ++ (rms.map (fun x => '\n' :: '\n' :: x)).flatten).isEmpty = false := by
      rw [hnc]
      rfl
    rw [h, hbool]
    simp [itemsChars, itemChars, itemsLC, itemStepLC]
  have hd3 : txt.drop (0 + (renderComment i.description).length + 9 + 1) = i.name ++ (rms.map (fun x => '\n' :: '\n' :: x)).flatten := drop_cons hd2
  have hp3 : 0 + (renderComment i.description).length + 9 + 1 ≤ txt.length := le_cons hd2 hp2
  have hinm : readInterfaceName txt ⟨0 + (renderComment i.description).length + 9 + 1, i.description⟩ =
      GoRes.ok (i.name, ⟨0 + (renderComment i.description).length + 9 + 1 + i.name.length, i.description⟩) := by
    have h := @readInterfaceName_spec txt i.name ((rms.map (fun x => '\n' :: '\n' :: x)).flatten)
      (0 + (renderComment i.description).length + 9 + 1) i.description hd3 hp3 hicl (nohead_iface rms)
    rw [hval] at h
    exact h
  have hd4 : txt.drop (0 + (renderComment i.description).length + 9 + 1 + i.name.length) = (rms.map (fun x => '\n' :: '\n' :: x)).flatten := drop_next hd3
  have hp4 : 0 + (renderComment i.description).length + 9 + 1 + i.name.length ≤ txt.length := pos_next_le hd3 hp3
  have hfuelM : i.members.length + 1 ≤ txt.length + 1 := by
    have hle1 := flatten_members_len rms
    have hle2 : ((rms.map (fun x => '\n' :: '\n' :: x)).flatten).length ≤ txt.length := by
      have h2 := congrArg List.length hd4
      rw [List.length_drop] at h2
      omega
    have hlen := List.Forall₂.length_eq hf2
    omega
  obtain ⟨j, lc2, hrunM, hjn, hjd, hjm⟩ := readMembersF_render i.members txt
    ⟨i.name, i.description, [], [], [], []⟩ rms (txt.length + 1)
    (0 + (renderComment i.description).length + 9 + 1 + i.name.length) i.description hallm hf2 hd4 (by omega) hp4 hfuelM
  have hadvEnd : advanceA txt ⟨txt.length, lc2⟩ = GoRes.ok (false, ⟨txt.length, lc2⟩) := by
    have h := @advanceA_items txt [] txt.length lc2 [] (by simp [itemsChars])
      (by intro it hit; simp at hit) (by omega) (by intro c hc; simp at hc)
    simpa [itemsChars, itemsLC] using h
  refine ⟨txt, j, hri, ?_, ?_, ?_, ?_⟩
  · simp only [NewInterface]
    rw [hadv0]
    simp only [GoRes_bind_ok, GoRes_bind_ok2]
    simp only [readInterface]
    rw [hkwI]
    simp only [GoRes_bind_ok, GoRes_bind_ok2]
    rw [if_pos (show (['i','n','t','e','r','f','a','c','e'] : Str) =
      String.toList "interface" from by decide)]
    rw [hadvI]
    simp only [GoRes_bind_ok, GoRes_bind_ok2]
    rw [hinm]
    simp only [GoRes_bind_ok, GoRes_bind_ok2]
    rw [if_neg (show ¬(i.name = []) from by rw [hnc]; simp)]
    rw [hrunM]
    simp only [GoRes_bind_ok, GoRes_bind_ok2]
    rw [hadvEnd]
    simp only [GoRes_bind_ok, GoRes_bind_ok2]
    rfl
  · exact hjn
  · exact hjd
  · simpa using hjm

/-- Closed witness for the amended round trip: the concrete interface exI1
(name a.b, description doc, one payload-free error member E) is well-formed,
renders, and parses back identically. -/
theorem c1_witness :
    wfInterface exI1 = true ∧
    (∃ txt j, renderInterface exI1 = Option.some txt ∧
      NewInterface txt = .ok (Option.some j) ∧
      j.name = exI1.name ∧ j.description = exI1.description ∧
      j.members = exI1.members) :=
  ⟨by decide, c1_roundtrip_amended exI1 (by decide)⟩

end Varlink
